import Mathlib

/-!
# Ellipse fitting with gradients: a verification development

Shallow embedding of `ellipse_fit_with_gradients.c` (normaliser, equation
assembler, Gram matrix / eigen-solver call, inverse normalisation, conic to
geometric parameters, buffer management) and theorems about it.

Conventions of the embedding.

* A C `double` is a scalar of an ordered field `α`; theorems are stated for
  `α = ℝ` (exact arithmetic), the definitions also run over `ℚ`.
* A C array (`double *`) is a function `Nat → α` from index to content; a
  nullable pointer is an `Option`.
* `error(msg)` (print and exit) is a returned `FitError`.
* The libm functions and LAPACK's `dsyev_` are parameters of the functions
  that call them.
* `int` arithmetic on the tracked buffer capacity is two's complement on 32
  bits (`wrapInt`).
-/

namespace EllipseFit

/-! ## Scalars, arrays, errors -/

/-- The functions of the C math library that the program calls. -/
structure Libm (α : Type) where
  /-- C: `sqrt(x)` -/
  sqrt : α → α
  /-- C: `pow(x, y)` -/
  pow : α → α → α
  /-- C: `atan2(y, x)` -/
  atan2 : α → α → α
  /-- C: `cos(x)` -/
  cos : α → α
  /-- C: `sin(x)` -/
  sin : α → α

/-- The math library over the reals: `atan2 y x` is the argument of `x + i y`
in `(-π, π]`, with `atan2 0 0 = 0`. -/
noncomputable def libmReal : Libm ℝ where
  sqrt := Real.sqrt
  pow := fun x y => x ^ y
  atan2 := fun y x => Complex.arg (Complex.mk x y)
  cos := Real.cos
  sin := Real.sin

/-- The two kinds of fatal error of the program (`error(msg)` in the source):
`OutOfMemory` for "not enough memory", `InvalidInput` for every other
message. -/
inductive FitError where
  | InvalidInput
  | OutOfMemory
  deriving DecidableEq, Repr

/-- Output slot `param[0..4]`:
ellipse = (centrex, centrey, ax, ay, orientation). -/
structure Param (α : Type) where
  centrex : α
  centrey : α
  ax : α
  ay : α
  orientation : α
  deriving DecidableEq, Repr

section Defs

variable {α : Type} [LinearOrderedField α]

/-- A counted loop accumulating a sum:
`for (i = 0; i < n; i++) acc += f(i);` -/
def forSum (n : Nat) (f : Nat → α) (acc : α) : α :=
  (List.range n).foldl (fun s i => s + f i) acc

/-- A C array given by its initial elements (other indices read as 0). -/
def arr (l : List α) : Nat → α := fun i => l.getD i 0

/-! ## Normaliser (`vgg_conditioner_from_points`, source lines 121-158) -/

/-- Lines 123-157 of `vgg_conditioner_from_points`: the matrix `T` written for
`n = pts_size` points (row-major, 9 entries). -/
def vgg_conditioner_compute (m : Libm α) (pts : Nat → α) (n : Nat) : Nat → α :=
  let SQRT2 := m.sqrt 2
  -- Compute mean point
  let mx := forSum n (fun i => pts (2 * i)) 0 / (n : α)
  let my := forSum n (fun i => pts (2 * i + 1)) 0 / (n : α)
  -- Compute mean variance
  let valx := m.sqrt (forSum n (fun i => (pts (2 * i) - mx) * (pts (2 * i) - mx)) 0)
  let valy := m.sqrt (forSum n (fun i => (pts (2 * i + 1) - my) * (pts (2 * i + 1) - my)) 0)
  let qmean := (valx + valy) / 2
  -- Build normalization matrix
  let val := SQRT2 / qmean
  fun j =>
    match j with
    | 0 => val
    | 4 => val
    | 2 => -val * mx
    | 5 => -val * my
    | 8 => 1
    | _ => 0

/-- The normaliser with its parameter checks (lines 129-130). -/
def vgg_conditioner_from_points (m : Libm α) (pts : Option (Nat → α)) (pts_size : Int) :
    Except FitError (Nat → α) :=
  match pts with
  | none => .error .InvalidInput
  | some pts =>
    if pts_size ≤ 0 then .error .InvalidInput
    else .ok (vgg_conditioner_compute m pts pts_size.toNat)

/-- Product of the row-major 3x3 matrix `T` with the homogeneous point
`(x, y, 1)`. -/
def applyT (T : Nat → α) (x y : α) : α × α × α :=
  (T 0 * x + T 1 * y + T 2, T 3 * x + T 4 * y + T 5, T 6 * x + T 7 * y + T 8)

/-- The points of `pts` after the transform `T`, as a flat array again
(dehomogenised by dropping the third coordinate). -/
def transformed (T : Nat → α) (pts : Nat → α) : Nat → α := fun q =>
  if q % 2 = 0 then (applyT T (pts q) (pts (q + 1))).1
  else (applyT T (pts (q - 1)) (pts q)).2.1

/-- Centroid of the first `n` points of a flat array. -/
def centroid (pts : Nat → α) (n : Nat) : α × α :=
  (forSum n (fun i => pts (2 * i)) 0 / (n : α), forSum n (fun i => pts (2 * i + 1)) 0 / (n : α))

/-- The first `n` points of `pts` are not all the same point. -/
def NotAllIdentical (pts : Nat → α) (n : Nat) : Prop :=
  ∃ i j, i < n ∧ j < n ∧ (pts (2 * i) ≠ pts (2 * j) ∨ pts (2 * i + 1) ≠ pts (2 * j + 1))

/-! ## Antisymmetric matrix (`antisym`, source lines 164-173) -/

/-- Source: `antisym(u, A)` with
`A = [ 0,-u(2),u(1); u(2),0,-u(0); -u(1),u(0),0 ]`, row-major. -/
def antisym (u : Nat → α) : Nat → α := fun j =>
  match j with
  | 1 => -u 2
  | 2 => u 1
  | 3 => u 2
  | 5 => -u 0
  | 6 => -u 1
  | 7 => u 0
  | _ => 0

/-! ## Equation assembler (`get_equations`, source lines 179-252) -/

/-- A sequence of array stores `buff[i] = v;` performed in order. -/
def storeAll (buff : Nat → α) (ws : List (Nat × α)) : Nat → α :=
  ws.foldl (fun b w => Function.update b w.1 w.2) buff

/-- Lines 211-250 of `get_equations`: tangent line, its antisymmetric matrix,
the array `K` and the 24 stores at `buff[idx .. idx+23]`, for a normalised
point and a normalised direction. -/
def get_equations_rows (idx : Nat) (pnormx pnormy dirnormx dirnormy : α) (buff : Nat → α) :
    Nat → α :=
  -- Cross product (pnormx,pnormy) x (dirnormx,dirnormy) = tangent line
  let crosspr : Nat → α := fun j =>
    match j with
    | 0 => -dirnormy
    | 1 => dirnormx
    | 2 => pnormx * dirnormy - pnormy * dirnormx
    | _ => 0
  let asym := antisym crosspr
  let K : Nat → α := fun j =>
    if j < 9 then asym j * pnormx
    else if j < 18 then asym (j - 9) * pnormy
    else asym (j - 18)
  storeAll buff
    [ (idx, -K 0),
      (idx + 1, -(K 3 + K 9)),
      (idx + 2, -(K 6 + K 18)),
      (idx + 3, -K 12),
      (idx + 4, -(K 15 + K 21)),
      (idx + 5, -K 24),
      (idx + 6, -K 1),
      (idx + 6 + 1, -(K 4 + K 10)),
      (idx + 6 + 2, -(K 7 + K 19)),
      (idx + 6 + 3, -K 13),
      (idx + 6 + 4, -(K 16 + K 22)),
      (idx + 6 + 5, -K 25),
      (idx + 12, -K 2),
      (idx + 12 + 1, -(K 5 + K 11)),
      (idx + 12 + 2, -(K 8 + K 20)),
      (idx + 12 + 3, -K 14),
      (idx + 12 + 4, -(K 17 + K 23)),
      (idx + 12 + 5, -K 26),
      -- Position equation
      (idx + 18, pnormx * pnormx),
      (idx + 19, 2 * pnormx * pnormy),
      (idx + 20, 2 * pnormx),
      (idx + 21, pnormy * pnormy),
      (idx + 22, 2 * pnormy),
      (idx + 23, 1) ]

/-- Line 204 of `get_equations`: `pnormx` for point `i`. -/
def pnormx (vgg pts : Nat → α) (i : Nat) : α :=
  vgg 0 * pts (2 * i) + vgg 1 * pts (2 * i + 1) + vgg 2

/-- Line 205 of `get_equations`: `pnormy` for point `i`. -/
def pnormy (vgg pts : Nat → α) (i : Nat) : α :=
  vgg 3 * pts (2 * i) + vgg 4 * pts (2 * i + 1) + vgg 5

/-- Line 208 of `get_equations`: `dirnormx` for gradient `i`. -/
def dirnormx (vgg grad : Nat → α) (i : Nat) : α :=
  -vgg 0 * grad (2 * i + 1) + vgg 1 * grad (2 * i)

/-- Line 209 of `get_equations`: `dirnormy` for gradient `i`. -/
def dirnormy (vgg grad : Nat → α) (i : Nat) : α :=
  -vgg 3 * grad (2 * i + 1) + vgg 4 * grad (2 * i)

/-- One iteration of the loop of `get_equations` (lines 202-250): point and
gradient `i` are normalised (lines 204-209) and the 24 stores are made. -/
def get_equations_point (vgg pts grad : Nat → α) (i : Nat) (buff : Nat → α) : Nat → α :=
  let idx := i * 4 * 6
  get_equations_rows idx (pnormx vgg pts i) (pnormy vgg pts i) (dirnormx vgg grad i)
    (dirnormy vgg grad i) buff

/-- The loop of `get_equations` (lines 200-251) for a given matrix `vgg`:
points `0 .. n-1` in order. -/
def get_equations_loop (vgg pts grad : Nat → α) (n : Nat) (buff : Nat → α) : Nat → α :=
  (List.range n).foldl (fun b i => get_equations_point vgg pts grad i b) buff

/-- Lines 196-251 of `get_equations`: the normalisation matrix written to
`vgg` and the buffer after the loop. -/
def get_equations_compute (m : Libm α) (pts grad : Nat → α) (n : Nat) (buff : Nat → α) :
    (Nat → α) × (Nat → α) :=
  let vgg := vgg_conditioner_compute m pts n
  (vgg, get_equations_loop vgg pts grad n buff)

/-- Source `get_equations` with its parameter checks (lines 190-194); returns
the new contents of `vgg` and of `buff`. -/
def get_equations (m : Libm α) (pts grad : Option (Nat → α)) (pts_size : Int)
    (vgg buff : Option (Nat → α)) : Except FitError ((Nat → α) × (Nat → α)) :=
  match pts, grad with
  | none, _ => .error .InvalidInput
  | some _, none => .error .InvalidInput
  | some pts, some grad =>
    if pts_size ≤ 0 then .error .InvalidInput
    else
      match vgg, buff with
      | none, _ => .error .InvalidInput
      | some _, none => .error .InvalidInput
      | some _, some buff =>
        match vgg_conditioner_from_points m (some pts) pts_size with
        | .error e => .error e
        | .ok T => .ok (T, get_equations_loop T pts grad pts_size.toNat buff)

/-! ## Conic to geometric parameters (`ellipse2param`, source lines 46-111) -/

/-- The intermediate values of `ellipse2param` computed on lines 60-77. -/
structure Rotated (α : Type) where
  thetarad : α
  cost : α
  sint : α
  Ao : α
  Au : α
  Av : α
  Auu : α
  Avv : α

/-- Lines 60-77 of `ellipse2param`: conic coefficients, rotation angle and the
coefficients of the rotated conic. -/
def ellipse2param_rotated (m : Libm α) (p : Nat → α) : Rotated α :=
  let a := p 0
  let b := 2 * p 1
  let c := p 4
  let d := 2 * p 2
  let e := 2 * p 5
  let f := p 8
  let thetarad := (1 / 2) * m.atan2 b (a - c)
  let cost := m.cos thetarad
  let sint := m.sin thetarad
  let sin_squared := sint * sint
  let cos_squared := cost * cost
  let cos_sin := sint * cost
  { thetarad := thetarad
    cost := cost
    sint := sint
    Ao := f
    Au := d * cost + e * sint
    Av := -d * sint + e * cost
    Auu := a * cos_squared + c * sin_squared + b * cos_sin
    Avv := a * sin_squared + c * cos_squared - b * cos_sin }

/-- The intermediate values of the else branch of `ellipse2param` computed on
lines 89-97 (`Ru`, `Rv` before the square roots are taken). -/
structure Centred (α : Type) where
  tuCentre : α
  tvCentre : α
  wCentre : α
  uCentre : α
  vCentre : α
  Ru : α
  Rv : α

/-- Lines 89-97 of `ellipse2param`: centre by completing the square, and the
squared radii. -/
def ellipse2param_centre (r : Rotated α) : Centred α :=
  let tuCentre := -r.Au / (2 * r.Auu)
  let tvCentre := -r.Av / (2 * r.Avv)
  let wCentre := r.Ao - r.Auu * tuCentre * tuCentre - r.Avv * tvCentre * tvCentre
  { tuCentre := tuCentre
    tvCentre := tvCentre
    wCentre := wCentre
    uCentre := tuCentre * r.cost - tvCentre * r.sint
    vCentre := tuCentre * r.sint + tvCentre * r.cost
    Ru := -wCentre / r.Auu
    Rv := -wCentre / r.Avv }

/-- Lines 99-109 of `ellipse2param`: signed square roots and the values
written to `param` in the else branch. -/
def ellipse2param_else (m : Libm α) (r : Rotated α) : Param α :=
  let c := ellipse2param_centre r
  let Ru := if c.Ru > 0 then m.pow c.Ru (1 / 2) else -m.pow (-c.Ru) (1 / 2)
  let Rv := if c.Rv > 0 then m.pow c.Rv (1 / 2) else -m.pow (-c.Rv) (1 / 2)
  { centrex := c.uCentre, centrey := c.vCentre, ax := Ru, ay := Rv, orientation := r.thetarad }

/-- Lines 60-110 of `ellipse2param`: the five values written to `param`. -/
def ellipse2param_compute (m : Libm α) (p : Nat → α) : Param α :=
  let r := ellipse2param_rotated m p
  if r.Auu = 0 ∨ r.Avv = 0 then
    { centrex := 0, centrey := 0, ax := 0, ay := 0, orientation := 0 }
  else ellipse2param_else m r

/-- Source `ellipse2param` with its parameter checks (lines 57-58); `param`
is the output slot, absent for a null pointer. -/
def ellipse2param (m : Libm α) (p : Option (Nat → α)) (param : Option (Param α)) :
    Except FitError (Param α) :=
  match p, param with
  | none, _ => .error .InvalidInput
  | some _, none => .error .InvalidInput
  | some p, some _ => .ok (ellipse2param_compute m p)

/-! ## Eigen-solver / fitter (`fit_ellipse`, source lines 258-324) -/

/-- Lines 269-275 of `fit_ellipse`: `A = EQ'*EQ`, the 6x6 Gram matrix of the
`4*n` rows of `eq`; entry `A[i*6+j]` is the sum over `k` of
`eq[k*6+i] * eq[k*6+j]`. -/
def gram (eq : Nat → α) (n : Nat) : Nat → α := fun q =>
  if q < 36 then forSum (4 * n) (fun k => eq (k * 6 + q / 6) * eq (k * 6 + q % 6)) 0
  else 0

/-- Lines 289-295 of `fit_ellipse`: the 3x3 matrix `s` assembled from the
first six entries of `A` after the eigen-solver call. -/
def solution_matrix (A : Nat → α) : Nat → α := fun j =>
  match j with
  | 0 => A 0
  | 1 => A 1
  | 3 => A 1
  | 2 => A 2
  | 6 => A 2
  | 4 => A 3
  | 5 => A 4
  | 7 => A 4
  | 8 => A 5
  | _ => 0

/-- Lines 300-321 of `fit_ellipse`: the closed-form entries `C[0..8]`. -/
def unnormalise (vgg s : Nat → α) : Nat → α := fun j =>
  match j with
  | 0 => vgg 0 * vgg 0 * s 0 + vgg 0 * vgg 3 * s 3 +
         vgg 0 * vgg 3 * s 1 + vgg 3 * vgg 3 * s 4
  | 1 => vgg 0 * vgg 1 * s 0 + vgg 1 * vgg 3 * s 3 +
         vgg 0 * vgg 4 * s 1 + vgg 3 * vgg 4 * s 4
  | 2 => vgg 0 * vgg 2 * s 0 + vgg 2 * vgg 3 * s 3 +
         vgg 0 * vgg 5 * s 1 + vgg 3 * vgg 5 * s 4 + vgg 0 * s 2 + vgg 3 * s 5
  | 3 => vgg 0 * vgg 1 * s 0 + vgg 0 * vgg 4 * s 3 +
         vgg 1 * vgg 3 * s 1 + vgg 3 * vgg 4 * s 4
  | 4 => vgg 1 * vgg 1 * s 0 + vgg 1 * vgg 4 * s 3 +
         vgg 1 * vgg 4 * s 1 + vgg 4 * vgg 4 * s 4
  | 5 => vgg 1 * vgg 2 * s 0 + vgg 2 * vgg 4 * s 3 +
         vgg 1 * vgg 5 * s 1 + vgg 4 * vgg 5 * s 4 + vgg 1 * s 2 + vgg 4 * s 5
  | 6 => vgg 0 * vgg 2 * s 0 + vgg 0 * vgg 5 * s 3 +
         vgg 0 * s 6 + vgg 2 * vgg 3 * s 1 + vgg 3 * vgg 5 * s 4 + vgg 3 * s 7
  | 7 => vgg 1 * vgg 2 * s 0 + vgg 1 * vgg 5 * s 3 +
         vgg 1 * s 6 + vgg 2 * vgg 4 * s 1 + vgg 4 * vgg 5 * s 4 + vgg 4 * s 7
  | 8 => vgg 2 * vgg 2 * s 0 + vgg 2 * vgg 5 * s 3 + vgg 2 * s 6 +
         vgg 2 * vgg 5 * s 1 + vgg 5 * vgg 5 * s 4 + vgg 5 * s 7 + vgg 2 * s 2 +
         vgg 5 * s 5 + s 8
  | _ => 0

/-- Lines 269-321 of `fit_ellipse`: the conic matrix `C` handed to
`ellipse2param`. The eigen-solver `dsyev` maps the contents of `A` before the
call of `dsyev_` to its contents after the call. -/
def fit_ellipse_conic (dsyev : (Nat → α) → (Nat → α)) (eq vgg : Nat → α) (n : Nat) : Nat → α :=
  unnormalise vgg (solution_matrix (dsyev (gram eq n)))

/-- Source `fit_ellipse` with its parameter checks (lines 264-267). -/
def fit_ellipse (m : Libm α) (dsyev : (Nat → α) → (Nat → α)) (eq vgg : Option (Nat → α))
    (pts_size : Int) (param : Option (Param α)) : Except FitError (Param α) :=
  if pts_size ≤ 0 then .error .InvalidInput
  else
    match eq, vgg, param with
    | none, _, _ => .error .InvalidInput
    | some _, none, _ => .error .InvalidInput
    | some _, some _, none => .error .InvalidInput
    | some eq, some vgg, some out =>
      ellipse2param m (some (fit_ellipse_conic dsyev eq vgg pts_size.toNat)) (some out)

/-! ## Entry point and buffer management
(`ellipse_fit_with_gradients`, source lines 335-360) -/

/-- Two's complement value of an `int` expression (32 bits). -/
def wrapInt (x : Int) : Int := (x + 2 ^ 31) % 2 ^ 32 - 2 ^ 31

/-- What the caller observes after a call: the result written to `param` or
the fatal error, the handle `buff` with the block `*buff` it points to, and
the tracked capacity `*size_buff_max`. -/
structure FitOutcome (α : Type) where
  result : Except FitError (Param α)
  buff : Option (Option (Nat → α))
  size_buff_max : Int

/-- Source `ellipse_fit_with_gradients`. `realloc old count` is the allocator:
the block for `count` doubles, or `none` when it fails; `buff` is the handle
(`none` for a null handle, `some none` for a handle to a null block). -/
def ellipse_fit_with_gradients (m : Libm α) (dsyev : (Nat → α) → (Nat → α))
    (realloc : (Nat → α) → Nat → Option (Nat → α))
    (pts grad : Option (Nat → α)) (pts_size : Int)
    (buff : Option (Option (Nat → α))) (size_buff_max : Int)
    (param : Option (Param α)) : FitOutcome α :=
  let stop (e : FitError) (b : Option (Option (Nat → α))) (cap : Int) : FitOutcome α :=
    { result := .error e, buff := b, size_buff_max := cap }
  match pts, grad with
  | none, _ => stop .InvalidInput buff size_buff_max
  | some _, none => stop .InvalidInput buff size_buff_max
  | some _, some _ =>
    if pts_size ≤ 0 then stop .InvalidInput buff size_buff_max
    else
      match buff with
      | none => stop .InvalidInput buff size_buff_max
      | some none => stop .InvalidInput buff size_buff_max
      | some (some block) =>
        -- If buffer too small, allocate twice the memory required at this step
        let grown : Option (Nat → α) × Int :=
          if wrapInt (pts_size * 24) > size_buff_max then
            (realloc block (2 * pts_size.toNat * 24), wrapInt (wrapInt (2 * pts_size) * 24))
          else (some block, size_buff_max)
        match grown.1 with
        | none => stop .OutOfMemory (some none) size_buff_max
        | some block =>
          -- Compute coeffs of linear system
          match get_equations m pts grad pts_size (some (fun _ => 0)) (some block) with
          | .error e => stop e (some (some block)) grown.2
          | .ok (vgg, block) =>
            -- Solve linear system
            { result := fit_ellipse m dsyev (some block) (some vgg) pts_size param
              buff := some (some block)
              size_buff_max := grown.2 }

/-- Value written to `param` by a successful call of the entry point on `n`
points: lines 356-359 run on a block whose prior contents are all zero. -/
def fit_param (m : Libm α) (dsyev : (Nat → α) → (Nat → α)) (pts grad : Nat → α) (n : Nat) :
    Param α :=
  let vgg := vgg_conditioner_compute m pts n
  ellipse2param_compute m
    (fit_ellipse_conic dsyev (get_equations_loop vgg pts grad n (fun _ => 0)) vgg n)

/-! ## Auxiliary notions used in the statements -/

/-- Mean Euclidean distance from the origin of the first `n` points of a flat
array. -/
def meanDist (m : Libm α) (pts : Nat → α) (n : Nat) : α :=
  forSum n (fun i => m.sqrt (pts (2 * i) * pts (2 * i) + pts (2 * i + 1) * pts (2 * i + 1))) 0
    / (n : α)

/-- An allocator that always succeeds and hands out a zeroed block. -/
def callocLike : (Nat → α) → Nat → Option (Nat → α) := fun _ _ => some (fun _ => 0)

/-- The corners of the square `(±1, ±1)`, as a flat point array. -/
def squarePts : Nat → α := arr [1, 1, -1, 1, -1, -1, 1, -1]

/-- Two points `(0,0)` and `(2,0)`, as a flat point array. -/
def twoPts : Nat → α := arr [0, 0, 2, 0]

/-- Gradients `(1,0)` and `(-1,0)`, as a flat array. -/
def twoGrads : Nat → α := arr [1, 0, -1, 0]

/-- Conic matrix of the ellipse `4 x^2 + y^2 - 8 x = 0`, i.e.
`(x - 1)^2 + y^2 / 4 = 1`. -/
def ellipseConic : Nat → α := arr [4, 0, -4, 0, 1, 0, -4, 0, 0]

/-- The points `k * p_i + (tx, ty)`, as a flat array. -/
def similarityPts (k tx ty : α) (pts : Nat → α) : Nat → α := fun q =>
  if q % 2 = 0 then k * pts q + tx else k * pts q + ty

/-- The gradients `k * g_i`, as a flat array. -/
def scaledGrads (k : α) (grad : Nat → α) : Nat → α := fun q => k * grad q

/-- How two conic matrices are related when the second is the first one seen
in the coordinates `k * (x, y) + (tx, ty)` (read on the six entries that
`ellipse2param` uses). -/
def ConicSimilar (k tx ty : α) (p p' : Nat → α) : Prop :=
  p' 0 = p 0 / k ^ 2 ∧ p' 1 = p 1 / k ^ 2 ∧ p' 4 = p 4 / k ^ 2 ∧
  p' 2 = p 2 / k - (tx * p 0 + ty * p 1) / k ^ 2 ∧
  p' 5 = p 5 / k - (tx * p 1 + ty * p 4) / k ^ 2 ∧
  p' 8 = p 8 - 2 * (tx * p 2 + ty * p 5) / k
    + (p 0 * tx ^ 2 + 2 * p 1 * tx * ty + p 4 * ty ^ 2) / k ^ 2

/-- A stand-in for the eigen-solver that returns the same six coefficients
(those of the unit circle) for every matrix. -/
def constSolver : (Nat → α) → (Nat → α) := fun _ => arr [1, 0, 0, 1, 0, -1]

/-- Dot product of row `k` of the 6-column array `eq` with the vector `x`. -/
def rowDot (eq x : Nat → α) (k : Nat) : α := forSum 6 (fun j => eq (k * 6 + j) * x j) 0

/-- Component `i` of the product of the row-major 6x6 matrix `G` with `x`. -/
def gramApply (G x : Nat → α) (i : Nat) : α := forSum 6 (fun j => G (i * 6 + j) * x j) 0

/-- The first six entries of `x` are an eigenvector of the 6x6 matrix `G` for
its smallest eigenvalue. -/
def SmallestEigvec (G x : Nat → α) : Prop :=
  (∃ i, i < 6 ∧ x i ≠ 0) ∧
  ∃ lam : α, (∀ i, i < 6 → gramApply G x i = lam * x i) ∧
    ∀ (y : Nat → α) (mu : α), (∃ i, i < 6 ∧ y i ≠ 0) →
      (∀ i, i < 6 → gramApply G y i = mu * y i) → lam ≤ mu

/-- Value at `(x, y)` of the conic with row-major 3x3 matrix `p`, read as
`ellipse2param` reads it: `a x^2 + b x y + c y^2 + d x + e y + f` with
`a = p[0]`, `b = 2 p[1]`, `c = p[4]`, `d = 2 p[2]`, `e = 2 p[5]`, `f = p[8]`. -/
def conicValue (p : Nat → α) (x y : α) : α :=
  p 0 * x ^ 2 + 2 * p 1 * x * y + p 4 * y ^ 2 + 2 * p 2 * x + 2 * p 5 * y + p 8

/-- First two components of the product of the 3x3 matrix `p` with `(x, y, 1)`:
half the gradient of the conic at `(x, y)`, a normal of the curve there. -/
def conicNormal (p : Nat → α) (x y : α) : α × α :=
  (p 0 * x + p 1 * y + p 2, p 3 * x + p 4 * y + p 5)

/-- Coordinate of `(x, y)` along the first axis of the ellipse `E`. -/
def alongU (m : Libm α) (E : Param α) (x y : α) : α :=
  (x - E.centrex) * m.cos E.orientation + (y - E.centrey) * m.sin E.orientation

/-- Coordinate of `(x, y)` along the second axis of the ellipse `E`. -/
def alongV (m : Libm α) (E : Param α) (x y : α) : α :=
  -(x - E.centrex) * m.sin E.orientation + (y - E.centrey) * m.cos E.orientation

/-- The point `(x, y)` lies on the ellipse with parameters `E`
(centre, semi-axes, orientation). -/
def OnEllipse (m : Libm α) (E : Param α) (x y : α) : Prop :=
  alongU m E x y ^ 2 / E.ax ^ 2 + alongV m E x y ^ 2 / E.ay ^ 2 = 1

/-- Half the gradient of `U^2/A^2 + V^2/B^2` at `(x, y)`: a normal of the
ellipse `E` at a point of it. -/
def ellipseNormal (m : Libm α) (E : Param α) (x y : α) : α × α :=
  (alongU m E x y * m.cos E.orientation / E.ax ^ 2
      - alongV m E x y * m.sin E.orientation / E.ay ^ 2,
   alongU m E x y * m.sin E.orientation / E.ax ^ 2
      + alongV m E x y * m.cos E.orientation / E.ay ^ 2)

/-- The first `n` points of `pts` lie on the ellipse `E`. -/
def SampledOn (m : Libm α) (E : Param α) (pts : Nat → α) (n : Nat) : Prop :=
  ∀ i, i < n → OnEllipse m E (pts (2 * i)) (pts (2 * i + 1))

/-- The first `n` points of `pts` are pairwise distinct. -/
def DistinctPts (pts : Nat → α) (n : Nat) : Prop :=
  ∀ i j, i < n → j < n → pts (2 * i) = pts (2 * j) → pts (2 * i + 1) = pts (2 * j + 1) → i = j

/-- Each of the first `n` gradients is a non-zero multiple of the tangent
direction of the ellipse `E` at its point. -/
def GradientsTangent (m : Libm α) (E : Param α) (pts grad : Nat → α) (n : Nat) : Prop :=
  ∀ i, i < n → ∃ lam : α, lam ≠ 0 ∧
    grad (2 * i) = lam * -(ellipseNormal m E (pts (2 * i)) (pts (2 * i + 1))).2 ∧
    grad (2 * i + 1) = lam * (ellipseNormal m E (pts (2 * i)) (pts (2 * i + 1))).1

/-- Each of the first `n` gradients is a multiple of the normal of the ellipse
`E` at its point. -/
def GradientsNormal (m : Libm α) (E : Param α) (pts grad : Nat → α) (n : Nat) : Prop :=
  ∀ i, i < n → ∃ lam : α,
    grad (2 * i) = lam * (ellipseNormal m E (pts (2 * i)) (pts (2 * i + 1))).1 ∧
    grad (2 * i + 1) = lam * (ellipseNormal m E (pts (2 * i)) (pts (2 * i + 1))).2

/-- Conic matrix of the ellipse `E`: the conic `U^2/A^2 + V^2/B^2 - 1 = 0`. -/
def conicOfEllipse (m : Libm α) (E : Param α) : Nat → α :=
  let c := m.cos E.orientation
  let s := m.sin E.orientation
  let a := c * c / E.ax ^ 2 + s * s / E.ay ^ 2
  let h := c * s / E.ax ^ 2 - c * s / E.ay ^ 2
  let b := s * s / E.ax ^ 2 + c * c / E.ay ^ 2
  let d := -(a * E.centrex + h * E.centrey)
  let e := -(h * E.centrex + b * E.centrey)
  let f := a * E.centrex ^ 2 + 2 * h * E.centrex * E.centrey + b * E.centrey ^ 2 - 1
  arr [a, h, d, h, b, e, d, e, f]

/-- Coefficient vector of the conic `e` seen in the normalised coordinates
`vgg * (x, y, 1)` (for `vgg[1] = vgg[3] = 0`, `vgg[4] = vgg[0]`), in the order
of the solution vector: `inverse(T)' * e * inverse(T)`. -/
def normalisedConic (vgg e : Nat → α) : Nat → α :=
  arr [ e 0 / vgg 0 ^ 2,
        e 1 / vgg 0 ^ 2,
        e 2 / vgg 0 - (vgg 2 * e 0 + vgg 5 * e 1) / vgg 0 ^ 2,
        e 4 / vgg 0 ^ 2,
        e 5 / vgg 0 - (vgg 2 * e 1 + vgg 5 * e 4) / vgg 0 ^ 2,
        e 8 - 2 * (vgg 2 * e 2 + vgg 5 * e 5) / vgg 0
          + (e 0 * vgg 2 ^ 2 + 2 * e 1 * vgg 2 * vgg 5 + e 4 * vgg 5 ^ 2) / vgg 0 ^ 2 ]

/-- Sixteen points of the unit circle, as a flat point array: the images of
`(3/5, 4/5)`, `(4/5, 3/5)`, `(5/13, 12/13)` and `(12/13, 5/13)` under the sign
changes of the two coordinates. -/
def circlePts : Nat → α :=
  arr [3 / 5, 4 / 5, 3 / 5, -(4 / 5), -(3 / 5), 4 / 5, -(3 / 5), -(4 / 5),
       4 / 5, 3 / 5, 4 / 5, -(3 / 5), -(4 / 5), 3 / 5, -(4 / 5), -(3 / 5),
       5 / 13, 12 / 13, 5 / 13, -(12 / 13), -(5 / 13), 12 / 13, -(5 / 13), -(12 / 13),
       12 / 13, 5 / 13, 12 / 13, -(5 / 13), -(12 / 13), 5 / 13, -(12 / 13), -(5 / 13)]

/-- The unit tangent directions `(-y, x)` of the unit circle at the points of
`circlePts`, as a flat gradient array. -/
def circleTangents : Nat → α := fun q =>
  if q % 2 = 0 then -circlePts (q + 1) else circlePts (q - 1)

/-- The outward unit normals `(x, y)` of the unit circle at the points of
`circlePts`, as a flat gradient array. -/
def circleNormals : Nat → α := fun q => circlePts q

/-- Parameters of the unit circle centred at the origin. -/
def unitCircle : Param α :=
  { centrex := 0, centrey := 0, ax := 1, ay := 1, orientation := 0 }

/-- An eigen-solver stand-in whose first column holds the coefficients of
`4 x^2 + 4 y^2 - 1`. -/
def circleSolver : (Nat → α) → (Nat → α) := fun _ => arr [4, 0, 0, 4, 0, -1]

/-- An eigen-solver stand-in whose first column holds the coefficients of
`x^2 - y^2`. -/
def hyperbolaSolver : (Nat → α) → (Nat → α) := fun _ => arr [1, 0, 0, -1, 0, 0]

/-! ## Notions for the claims on rows, matrices and divisions -/

/-- Cross product `u x v` of two 3-vectors. -/
def cross3 (u v : Nat → α) : Nat → α := fun j =>
  match j with
  | 0 => u 1 * v 2 - u 2 * v 1
  | 1 => u 2 * v 0 - u 0 * v 2
  | 2 => u 0 * v 1 - u 1 * v 0
  | _ => 0

/-- Dot product of two 3-vectors. -/
def dot3 (u v : Nat → α) : α := u 0 * v 0 + u 1 * v 1 + u 2 * v 2

/-- Product `A * v` of a row-major 3x3 matrix with a 3-vector. -/
def matVec3 (A v : Nat → α) : Nat → α := fun j =>
  if j < 3 then A (3 * j) * v 0 + A (3 * j + 1) * v 1 + A (3 * j + 2) * v 2 else 0

/-- Product `A * B` of two row-major 3x3 matrices. -/
def matMul3 (A B : Nat → α) : Nat → α := fun q =>
  if q < 9 then
    A (3 * (q / 3)) * B (q % 3) + A (3 * (q / 3) + 1) * B (3 + q % 3)
      + A (3 * (q / 3) + 2) * B (6 + q % 3)
  else 0

/-- Transpose of a row-major 3x3 matrix. -/
def transpose3 (A : Nat → α) : Nat → α := fun q =>
  if q < 9 then A (3 * (q % 3) + q / 3) else 0

/-- Two 3-vectors are parallel: a non-trivial linear combination of them
vanishes. -/
def Parallel3 (u v : Nat → α) : Prop :=
  ∃ a b : α, (a ≠ 0 ∨ b ≠ 0) ∧ ∀ j, j < 3 → a * u j + b * v j = 0

/-- Lines 212-214 of `get_equations`: the array `crosspr`. -/
def get_equations_crosspr (pnormx pnormy dirnormx dirnormy : α) : Nat → α := fun j =>
  match j with
  | 0 => -dirnormy
  | 1 => dirnormx
  | 2 => pnormx * dirnormy - pnormy * dirnormx
  | _ => 0

/-- Lines 217-250 of `get_equations`: the 24 stores `buff[index] = value` of
one iteration, in program order. -/
def get_equations_stores (idx : Nat) (pnormx pnormy dirnormx dirnormy : α) : List (Nat × α) :=
  let asym := antisym (get_equations_crosspr pnormx pnormy dirnormx dirnormy)
  let K : Nat → α := fun j =>
    if j < 9 then asym j * pnormx
    else if j < 18 then asym (j - 9) * pnormy
    else asym (j - 18)
  [ (idx, -K 0), (idx + 1, -(K 3 + K 9)), (idx + 2, -(K 6 + K 18)), (idx + 3, -K 12),
    (idx + 4, -(K 15 + K 21)), (idx + 5, -K 24),
    (idx + 6, -K 1), (idx + 6 + 1, -(K 4 + K 10)), (idx + 6 + 2, -(K 7 + K 19)),
    (idx + 6 + 3, -K 13), (idx + 6 + 4, -(K 16 + K 22)), (idx + 6 + 5, -K 25),
    (idx + 12, -K 2), (idx + 12 + 1, -(K 5 + K 11)), (idx + 12 + 2, -(K 8 + K 20)),
    (idx + 12 + 3, -K 14), (idx + 12 + 4, -(K 17 + K 23)), (idx + 12 + 5, -K 26),
    (idx + 18, pnormx * pnormx), (idx + 19, 2 * pnormx * pnormy), (idx + 20, 2 * pnormx),
    (idx + 21, pnormy * pnormy), (idx + 22, 2 * pnormy), (idx + 23, 1) ]

/-- Lines 132-148 of `vgg_conditioner_from_points`: the value of `qmean`, the
divisor of the scale `SQRT2 / qmean`. -/
def vgg_conditioner_qmean (m : Libm α) (pts : Nat → α) (n : Nat) : α :=
  let mx := forSum n (fun i => pts (2 * i)) 0 / (n : α)
  let my := forSum n (fun i => pts (2 * i + 1)) 0 / (n : α)
  let valx := m.sqrt (forSum n (fun i => (pts (2 * i) - mx) * (pts (2 * i) - mx)) 0)
  let valy := m.sqrt (forSum n (fun i => (pts (2 * i + 1) - my) * (pts (2 * i + 1) - my)) 0)
  (valx + valy) / 2

/-- The divisors of the divisions of `vgg_conditioner_from_points`, in program
order: `(double)pts_size` twice (line 138), `2.0` (line 148), `qmean`
(line 151). -/
def vgg_conditioner_divisors (m : Libm α) (pts : Nat → α) (n : Nat) : List α :=
  [(n : α), (n : α), 2, vgg_conditioner_qmean m pts n]

/-- The divisors of the divisions that `ellipse2param` performs on the conic
`p`, in program order: none on the sentinel branch, `2.*Auu`, `2.*Avv`, `Auu`,
`Avv` (lines 89, 90, 96, 97) on the else branch. -/
def ellipse2param_divisors (m : Libm α) (p : Nat → α) : List α :=
  let r := ellipse2param_rotated m p
  if r.Auu = 0 ∨ r.Avv = 0 then []
  else [2 * r.Auu, 2 * r.Avv, r.Auu, r.Avv]

/-- The divisors of all divisions performed by a call of the entry point that
reaches `fit_ellipse`, in program order (`get_equations` and the Gram loop
divide nowhere). -/
def fit_divisors (m : Libm α) (dsyev : (Nat → α) → (Nat → α)) (pts grad : Nat → α) (n : Nat) :
    List α :=
  let vgg := vgg_conditioner_compute m pts n
  vgg_conditioner_divisors m pts n ++
    ellipse2param_divisors m
      (fit_ellipse_conic dsyev (get_equations_loop vgg pts grad n (fun _ => 0)) vgg n)

/-- All of the first `n` points of `pts` are the same point. -/
def AllIdentical (pts : Nat → α) (n : Nat) : Prop :=
  ∀ i, i < n → pts (2 * i) = pts 0 ∧ pts (2 * i + 1) = pts 1

/-- Inverse of the similarity `M = [[k,0,tx],[0,k,ty],[0,0,1]]`. -/
def similarityInv (k tx ty : α) : Nat → α :=
  arr [1 / k, 0, -(tx / k), 0, 1 / k, -(ty / k), 0, 0, 1]

/-- A single point `(3, 4)`, as a flat point array. -/
def singlePt : Nat → α := arr [3, 4]

/-- A single gradient `(1, 0)`, as a flat array. -/
def singleGrad : Nat → α := arr [1, 0]

/-- Symmetric 3x3 matrix of the circle `x^2 + y^2 - 4 = 0`. -/
def radiusTwoConic : Nat → α := arr [1, 0, 0, 0, 1, 0, 0, 0, -4]

/-- The normalisation matrix of the two points `(0,0)` and `(2,0)`: scale 2,
shift `(-2, 0)`. -/
def twoPtsT : Nat → α := arr [2, 0, -2, 0, 2, 0, 0, 0, 1]

/-- Coefficient vector of the circle `x^2 + y^2 - 4 = 0`, in the order of the
solution vector. -/
def radiusTwoCoeffs : Nat → α := arr [1, 0, 0, 1, 0, -4]

end Defs

/-! ## Basic lemmas -/

section Lemmas

variable {α : Type} [LinearOrderedField α]

theorem forSum_eq_sum (n : Nat) (f : Nat → α) (acc : α) :
    forSum n f acc = acc + ∑ i in Finset.range n, f i := by
  unfold forSum
  induction n generalizing acc with
  | zero => simp
  | succ k ih =>
    rw [List.range_succ, List.foldl_append, ih, Finset.sum_range_succ]
    simp [add_assoc]

theorem forSum_zero (n : Nat) (f : Nat → α) :
    forSum n f 0 = ∑ i in Finset.range n, f i := by
  rw [forSum_eq_sum, zero_add]


omit [LinearOrderedField α] in
theorem storeAll_of_forall_ne (buff : Nat → α) (ws : List (Nat × α)) (q : Nat)
    (h : ∀ w ∈ ws, w.1 ≠ q) : storeAll buff ws q = buff q := by
  unfold storeAll
  induction ws generalizing buff with
  | nil => rfl
  | cons w ws ih =>
    rw [List.foldl_cons, ih _ (fun v hv => h v (List.mem_cons_of_mem _ hv))]
    exact Function.update_noteq (Ne.symm (h w (List.mem_cons_self _ _))) _ _

theorem get_equations_point_apply (vgg pts grad : Nat → α) (i : Nat) (buff : Nat → α) (q : Nat) :
    get_equations_point vgg pts grad i buff q =
      if i * 24 ≤ q ∧ q < i * 24 + 24 then get_equations_point vgg pts grad i (fun _ => 0) q
      else buff q := by
  by_cases h : i * 24 ≤ q ∧ q < i * 24 + 24
  · rw [if_pos h]
    obtain ⟨r, rfl⟩ : ∃ r, q = i * 4 * 6 + r := ⟨q - i * 24, by omega⟩
    have hr : r < 24 := by omega
    simp only [get_equations_point, get_equations_rows, storeAll, List.foldl,
      Function.update_apply]
    interval_cases r <;> simp
  · rw [if_neg h]
    simp only [get_equations_point, get_equations_rows]
    apply storeAll_of_forall_ne
    simp only [List.forall_mem_cons, List.not_mem_nil, IsEmpty.forall_iff, implies_true, and_true, ne_eq]
    omega

theorem get_equations_loop_apply (vgg pts grad : Nat → α) (n : Nat) (buff : Nat → α) (q : Nat) :
    get_equations_loop vgg pts grad n buff q =
      if q < n * 24 then get_equations_point vgg pts grad (q / 24) (fun _ => 0) q
      else buff q := by
  induction n with
  | zero => simp [get_equations_loop]
  | succ k ih =>
    have hstep : get_equations_loop vgg pts grad (k + 1) buff =
        get_equations_point vgg pts grad k (get_equations_loop vgg pts grad k buff) := by
      simp [get_equations_loop, List.range_succ, List.foldl_append]
    rw [hstep, get_equations_point_apply, ih]
    by_cases h1 : k * 24 ≤ q ∧ q < k * 24 + 24
    · have hk : q / 24 = k := by omega
      have h2 : q < (k + 1) * 24 := by omega
      rw [if_pos h1, if_pos h2, hk]
    · rw [if_neg h1]
      by_cases h3 : q < k * 24
      · have h2 : q < (k + 1) * 24 := by omega
        rw [if_pos h3, if_pos h2]
      · have h2 : ¬ q < (k + 1) * 24 := by omega
        rw [if_neg h3, if_neg h2]

/-- The Gram matrix only reads the coefficients written in the same call. -/
theorem gram_get_equations_loop (vgg pts grad : Nat → α) (n : Nat) (b1 b2 : Nat → α) :
    gram (get_equations_loop vgg pts grad n b1) n = gram (get_equations_loop vgg pts grad n b2) n := by
  funext q
  unfold gram
  split_ifs with hq
  · rw [forSum_zero, forSum_zero]
    apply Finset.sum_congr rfl
    intro k hk
    have hk4 : k < 4 * n := Finset.mem_range.mp hk
    have h1 : k * 6 + q / 6 < n * 24 := by omega
    have h2 : k * 6 + q % 6 < n * 24 := by omega
    simp only [get_equations_loop_apply, if_pos h1, if_pos h2]
  · rfl

theorem vgg_conditioner_from_points_ok (m : Libm α) (pts : Nat → α) (N : Int) (hN : 1 ≤ N) :
    vgg_conditioner_from_points m (some pts) N = .ok (vgg_conditioner_compute m pts N.toNat) := by
  have : ¬ N ≤ 0 := by omega
  simp [vgg_conditioner_from_points, this]

theorem centroid_transformed (m : Libm α) (pts : Nat → α) (n : Nat) (hn : 0 < n) :
    centroid (transformed (vgg_conditioner_compute m pts n) pts) n = (0, 0) := by
  have hn0 : (n : α) ≠ 0 := Nat.cast_ne_zero.mpr (by omega)
  have e0 : ∀ i, (2 * i) % 2 = 0 := fun i => by omega
  have e1 : ∀ i, ¬ (2 * i + 1) % 2 = 0 := fun i => by omega
  simp only [centroid, transformed, applyT, vgg_conditioner_compute, forSum_zero, e0, e1,
    if_true, if_false, Nat.add_sub_cancel, Prod.mk.injEq]
  constructor
  · rw [div_eq_zero_iff]; left
    simp only [Finset.sum_add_distrib, ← Finset.mul_sum, Finset.sum_const, Finset.card_range,
      nsmul_eq_mul, zero_mul, add_zero]
    field_simp
  · rw [div_eq_zero_iff]; left
    simp only [Finset.sum_add_distrib, ← Finset.mul_sum, Finset.sum_const, Finset.card_range,
      nsmul_eq_mul, zero_mul, add_zero, zero_add]
    field_simp

theorem fit_ellipse_conic_loop (dsyev : (Nat → α) → (Nat → α)) (vgg pts grad : Nat → α) (n : Nat)
    (b1 b2 : Nat → α) :
    fit_ellipse_conic dsyev (get_equations_loop vgg pts grad n b1) vgg n =
      fit_ellipse_conic dsyev (get_equations_loop vgg pts grad n b2) vgg n := by
  unfold fit_ellipse_conic
  rw [gram_get_equations_loop vgg pts grad n b1 b2]

/-- The entry point on present arguments and a positive count. -/
theorem ellipse_fit_with_gradients_present (m : Libm α) (dsyev : (Nat → α) → (Nat → α))
    (realloc : (Nat → α) → Nat → Option (Nat → α)) (pts grad : Nat → α) (N : Int) (hN : 1 ≤ N)
    (block : Nat → α) (cap : Int) (out : Param α) :
    ellipse_fit_with_gradients m dsyev realloc (some pts) (some grad) N (some (some block)) cap
        (some out) =
      if wrapInt (N * 24) > cap then
        match realloc block (2 * N.toNat * 24) with
        | none => { result := .error .OutOfMemory, buff := some none, size_buff_max := cap }
        | some b =>
          { result := .ok (fit_param m dsyev pts grad N.toNat)
            buff := some (some (get_equations_loop (vgg_conditioner_compute m pts N.toNat)
              pts grad N.toNat b))
            size_buff_max := wrapInt (wrapInt (2 * N) * 24) }
      else
        { result := .ok (fit_param m dsyev pts grad N.toNat)
          buff := some (some (get_equations_loop (vgg_conditioner_compute m pts N.toNat)
            pts grad N.toNat block))
          size_buff_max := cap } := by
  have hN0 : ¬ N ≤ 0 := by omega
  unfold ellipse_fit_with_gradients
  simp only [hN0, if_false]
  split_ifs with hc
  · cases hr : realloc block (2 * N.toNat * 24) with
    | none => simp
    | some b =>
      simp only [get_equations, vgg_conditioner_from_points, fit_ellipse, ellipse2param, hN0,
        if_false, fit_param]
      rw [fit_ellipse_conic_loop dsyev _ pts grad N.toNat b (fun _ => 0)]
  · simp only [get_equations, vgg_conditioner_from_points, fit_ellipse, ellipse2param, hN0,
      if_false, fit_param]
    rw [fit_ellipse_conic_loop dsyev _ pts grad N.toNat block (fun _ => 0)]

/-- With every argument present and a positive count the entry point never
fails with `InvalidInput`. -/
theorem ellipse_fit_with_gradients_present_ne_invalid (m : Libm α) (dsyev : (Nat → α) → (Nat → α))
    (realloc : (Nat → α) → Nat → Option (Nat → α)) (pts grad : Nat → α) (N : Int) (hN : 1 ≤ N)
    (block : Nat → α) (cap : Int) (out : Param α) :
    (ellipse_fit_with_gradients m dsyev realloc (some pts) (some grad) N (some (some block)) cap
        (some out)).result ≠ .error .InvalidInput := by
  have hN0 : ¬ N ≤ 0 := by omega
  unfold ellipse_fit_with_gradients
  simp only [hN0, if_false]
  split_ifs with hc
  · cases hr : realloc block (2 * N.toNat * 24) with
    | none => simp
    | some b =>
      simp [get_equations, vgg_conditioner_from_points, fit_ellipse, ellipse2param, hN0]
  · simp [get_equations, vgg_conditioner_from_points, fit_ellipse, ellipse2param, hN0]

/-- Growth policy as long as `48 * N` fits an `int`: a successful call leaves
the tracked capacity at `2*24*N` when `24*N` exceeded it and unchanged
otherwise. -/
theorem capacity_in_range (m : Libm α) (dsyev : (Nat → α) → (Nat → α))
    (realloc : (Nat → α) → Nat → Option (Nat → α)) (pts grad : Nat → α) (N : Int)
    (block : Nat → α) (cap : Int) (out : Param α) (hN : 1 ≤ N) (hmax : 48 * N ≤ 2147483647)
    (hok : (ellipse_fit_with_gradients m dsyev realloc (some pts) (some grad) N
      (some (some block)) cap (some out)).result ≠ .error .OutOfMemory) :
    (ellipse_fit_with_gradients m dsyev realloc (some pts) (some grad) N
      (some (some block)) cap (some out)).size_buff_max = if 24 * N > cap then 2 * 24 * N else cap := by
  have w1 : wrapInt (N * 24) = 24 * N := by unfold wrapInt; omega
  have w2 : wrapInt (wrapInt (2 * N) * 24) = 2 * 24 * N := by unfold wrapInt; omega
  rw [ellipse_fit_with_gradients_present m dsyev realloc pts grad N hN] at hok ⊢
  rw [w1, w2] at hok ⊢
  split_ifs at hok ⊢ with hc
  · cases hr : realloc block (2 * N.toNat * 24) with
    | none => rw [hr] at hok; exact absurd rfl hok
    | some b => rfl
  · rfl

/-- The constant entries of the normalisation matrix. -/
theorem vgg_conditioner_compute_zeros (m : Libm α) (pts : Nat → α) (n : Nat) :
    vgg_conditioner_compute m pts n 1 = 0 ∧ vgg_conditioner_compute m pts n 3 = 0 ∧
    vgg_conditioner_compute m pts n 6 = 0 ∧ vgg_conditioner_compute m pts n 7 = 0 ∧
    vgg_conditioner_compute m pts n 8 = 1 ∧
    vgg_conditioner_compute m pts n 4 = vgg_conditioner_compute m pts n 0 :=
  ⟨rfl, rfl, rfl, rfl, rfl, rfl⟩

/-- On present arguments and a positive count the call either runs out of
memory or writes `fit_param`. -/
theorem ellipse_fit_with_gradients_result (m : Libm α) (dsyev : (Nat → α) → (Nat → α))
    (realloc : (Nat → α) → Nat → Option (Nat → α)) (pts grad : Nat → α) (N : Int) (hN : 1 ≤ N)
    (block : Nat → α) (cap : Int) (out : Param α) :
    (ellipse_fit_with_gradients m dsyev realloc (some pts) (some grad) N (some (some block)) cap
        (some out)).result = .error .OutOfMemory ∨
    (ellipse_fit_with_gradients m dsyev realloc (some pts) (some grad) N (some (some block)) cap
        (some out)).result = .ok (fit_param m dsyev pts grad N.toNat) := by
  rw [ellipse_fit_with_gradients_present m dsyev realloc pts grad N hN]
  split_ifs with hc
  · cases hr : realloc block (2 * N.toNat * 24) with
    | none => exact Or.inl rfl
    | some b => exact Or.inr rfl
  · exact Or.inr rfl

/-- The 24 coefficients stored by `get_equations_rows`, as four rows of six. -/
theorem get_equations_rows_values (idx : Nat) (px py dx dy : α) (buff : Nat → α) :
    (get_equations_rows idx px py dx dy buff (idx + 0) = 0 ∧
     get_equations_rows idx px py dx dy buff (idx + 1) = -((px * dy - py * dx) * px) ∧
     get_equations_rows idx px py dx dy buff (idx + 2) = dx * px ∧
     get_equations_rows idx px py dx dy buff (idx + 3) = -((px * dy - py * dx) * py) ∧
     get_equations_rows idx px py dx dy buff (idx + 4) = dx * py - (px * dy - py * dx) ∧
     get_equations_rows idx px py dx dy buff (idx + 5) = dx) ∧
    (get_equations_rows idx px py dx dy buff (idx + 6) = (px * dy - py * dx) * px ∧
     get_equations_rows idx px py dx dy buff (idx + 7) = (px * dy - py * dx) * py ∧
     get_equations_rows idx px py dx dy buff (idx + 8) = dy * px + (px * dy - py * dx) ∧
     get_equations_rows idx px py dx dy buff (idx + 9) = 0 ∧
     get_equations_rows idx px py dx dy buff (idx + 10) = dy * py ∧
     get_equations_rows idx px py dx dy buff (idx + 11) = dy) ∧
    (get_equations_rows idx px py dx dy buff (idx + 12) = -(dx * px) ∧
     get_equations_rows idx px py dx dy buff (idx + 13) = -(dx * py) - dy * px ∧
     get_equations_rows idx px py dx dy buff (idx + 14) = -dx ∧
     get_equations_rows idx px py dx dy buff (idx + 15) = -(dy * py) ∧
     get_equations_rows idx px py dx dy buff (idx + 16) = -dy ∧
     get_equations_rows idx px py dx dy buff (idx + 17) = 0) ∧
    (get_equations_rows idx px py dx dy buff (idx + 18) = px * px ∧
     get_equations_rows idx px py dx dy buff (idx + 19) = 2 * px * py ∧
     get_equations_rows idx px py dx dy buff (idx + 20) = 2 * px ∧
     get_equations_rows idx px py dx dy buff (idx + 21) = py * py ∧
     get_equations_rows idx px py dx dy buff (idx + 22) = 2 * py ∧
     get_equations_rows idx px py dx dy buff (idx + 23) = 1) := by
  simp only [get_equations_rows, storeAll, List.foldl, Function.update_apply, antisym]
  refine ⟨⟨?_, ?_, ?_, ?_, ?_, ?_⟩, ⟨?_, ?_, ?_, ?_, ?_, ?_⟩, ⟨?_, ?_, ?_, ?_, ?_, ?_⟩,
    ⟨?_, ?_, ?_, ?_, ?_, ?_⟩⟩
  · have h : ∀ k, 0 < k → ¬ idx = idx + k := fun k hk => by omega
    have h2 : ∀ a k, 0 < k → ¬ idx = idx + a + k := fun a k hk => by omega
    simp [h, h2]
  all_goals (simp <;> ring)

/-- Entry `(i, j)` of the Gram matrix as a sum over the rows. -/
theorem gram_entry (eq : Nat → α) (n i j : Nat) (hi : i < 6) (hj : j < 6) :
    gram eq n (i * 6 + j) = ∑ k in Finset.range (4 * n), eq (k * 6 + i) * eq (k * 6 + j) := by
  have h36 : i * 6 + j < 36 := by omega
  have hd : (i * 6 + j) / 6 = i := by omega
  have hm : (i * 6 + j) % 6 = j := by omega
  simp only [gram, h36, if_true, forSum_zero, hd, hm]

/-- The Gram matrix applied to `x`, through the row residuals. -/
theorem gramApply_gram (eq x : Nat → α) (n i : Nat) (hi : i < 6) :
    gramApply (gram eq n) x i
      = ∑ k in Finset.range (4 * n), eq (k * 6 + i) * rowDot eq x k := by
  unfold gramApply rowDot
  rw [forSum_zero]
  have : ∀ j ∈ Finset.range 6, gram eq n (i * 6 + j) * x j
      = ∑ k in Finset.range (4 * n), eq (k * 6 + i) * (eq (k * 6 + j) * x j) := by
    intro j hj
    rw [gram_entry eq n i j hi (Finset.mem_range.mp hj), Finset.sum_mul]
    apply Finset.sum_congr rfl
    intro k _
    ring
  rw [Finset.sum_congr rfl this, Finset.sum_comm]
  apply Finset.sum_congr rfl
  intro k _
  rw [forSum_zero, Finset.mul_sum]

/-- The quadratic form of the Gram matrix is the sum of squared residuals. -/
theorem quadratic_form_gram (eq x : Nat → α) (n : Nat) :
    ∑ i in Finset.range 6, x i * gramApply (gram eq n) x i
      = ∑ k in Finset.range (4 * n), rowDot eq x k ^ 2 := by
  have : ∀ i ∈ Finset.range 6, x i * gramApply (gram eq n) x i
      = ∑ k in Finset.range (4 * n), x i * eq (k * 6 + i) * rowDot eq x k := by
    intro i hi
    rw [gramApply_gram eq x n i (Finset.mem_range.mp hi), Finset.mul_sum]
    apply Finset.sum_congr rfl
    intro k _
    ring
  rw [Finset.sum_congr rfl this, Finset.sum_comm]
  apply Finset.sum_congr rfl
  intro k _
  rw [← Finset.sum_mul, sq]
  congr 1
  unfold rowDot
  rw [forSum_zero]
  apply Finset.sum_congr rfl
  intro j _
  ring

/-- A solver vector for the smallest eigenvalue of a Gram matrix with a
non-trivial kernel annihilates every row. -/
theorem rowDot_eq_zero_of_smallest (eq x x0 : Nat → α) (n : Nat)
    (hx : SmallestEigvec (gram eq n) x)
    (hx0 : ∃ i, i < 6 ∧ x0 i ≠ 0)
    (hker : ∀ k, k < 4 * n → rowDot eq x0 k = 0) :
    ∀ k, k < 4 * n → rowDot eq x k = 0 := by
  obtain ⟨⟨i0, hi0, hxi0⟩, lam, hlam, hmin⟩ := hx
  have hG0 : ∀ i, i < 6 → gramApply (gram eq n) x0 i = 0 * x0 i := by
    intro i hi
    rw [gramApply_gram eq x0 n i hi, zero_mul]
    apply Finset.sum_eq_zero
    intro k hk
    rw [hker k (Finset.mem_range.mp hk), mul_zero]
  have hle : lam ≤ 0 := hmin x0 0 hx0 hG0
  have hq := quadratic_form_gram eq x n
  have hq2 : ∑ i in Finset.range 6, x i * gramApply (gram eq n) x i
      = lam * ∑ i in Finset.range 6, x i ^ 2 := by
    rw [Finset.mul_sum]
    apply Finset.sum_congr rfl
    intro i hi
    rw [hlam i (Finset.mem_range.mp hi)]
    ring
  have hpos : 0 < ∑ i in Finset.range 6, x i ^ 2 := by
    apply Finset.sum_pos'
    · intro i _; positivity
    · exact ⟨i0, Finset.mem_range.mpr hi0, by positivity⟩
  have hsum : ∑ k in Finset.range (4 * n), rowDot eq x k ^ 2 ≤ 0 := by
    rw [← hq, hq2]
    exact mul_nonpos_of_nonpos_of_nonneg hle hpos.le
  have hzero : ∑ k in Finset.range (4 * n), rowDot eq x k ^ 2 = 0 :=
    le_antisymm hsum (Finset.sum_nonneg (fun k _ => sq_nonneg _))
  intro k hk
  have := (Finset.sum_eq_zero_iff_of_nonneg (fun k _ => sq_nonneg (rowDot eq x k))).mp hzero k
    (Finset.mem_range.mpr hk)
  exact pow_eq_zero_iff (two_ne_zero) |>.mp this

/-- The buffer after the loop, at offset `t` of the block of point `i`. -/
theorem get_equations_loop_at (vgg pts grad : Nat → α) (n : Nat) (buff : Nat → α) (i t : Nat)
    (hi : i < n) (ht : t < 24) :
    get_equations_loop vgg pts grad n buff (i * 4 * 6 + t)
      = get_equations_rows (i * 4 * 6) (pnormx vgg pts i) (pnormy vgg pts i)
          (dirnormx vgg grad i) (dirnormy vgg grad i) (fun _ => 0) (i * 4 * 6 + t) := by
  have h1 : i * 4 * 6 + t < n * 24 := by omega
  have h2 : (i * 4 * 6 + t) / 24 = i := by omega
  rw [get_equations_loop_apply, if_pos h1, h2]
  rfl

/-- The residuals of the four rows written for point `i` against a
coefficient vector `x`: the cross product of the tangent line with `S(x) p`
and the incidence form `p' S(x) p`. -/
theorem rowDot_loop (vgg pts grad : Nat → α) (n : Nat) (buff x : Nat → α) (i : Nat) (hi : i < n) :
    rowDot (get_equations_loop vgg pts grad n buff) x (4 * i)
      = dirnormx vgg grad i
          * (x 2 * pnormx vgg pts i + x 4 * pnormy vgg pts i + x 5)
        - (pnormx vgg pts i * dirnormy vgg grad i - pnormy vgg pts i * dirnormx vgg grad i)
          * (x 1 * pnormx vgg pts i + x 3 * pnormy vgg pts i + x 4) ∧
    rowDot (get_equations_loop vgg pts grad n buff) x (4 * i + 1)
      = (pnormx vgg pts i * dirnormy vgg grad i - pnormy vgg pts i * dirnormx vgg grad i)
          * (x 0 * pnormx vgg pts i + x 1 * pnormy vgg pts i + x 2)
        + dirnormy vgg grad i
          * (x 2 * pnormx vgg pts i + x 4 * pnormy vgg pts i + x 5) ∧
    rowDot (get_equations_loop vgg pts grad n buff) x (4 * i + 2)
      = -dirnormy vgg grad i
          * (x 1 * pnormx vgg pts i + x 3 * pnormy vgg pts i + x 4)
        - dirnormx vgg grad i
          * (x 0 * pnormx vgg pts i + x 1 * pnormy vgg pts i + x 2) ∧
    rowDot (get_equations_loop vgg pts grad n buff) x (4 * i + 3)
      = pnormx vgg pts i * (x 0 * pnormx vgg pts i + x 1 * pnormy vgg pts i + x 2)
        + pnormy vgg pts i * (x 1 * pnormx vgg pts i + x 3 * pnormy vgg pts i + x 4)
        + (x 2 * pnormx vgg pts i + x 4 * pnormy vgg pts i + x 5) := by
  obtain ⟨⟨a0, a1, a2, a3, a4, a5⟩, ⟨b0, b1, b2, b3, b4, b5⟩, ⟨c0, c1, c2, c3, c4, c5⟩,
    ⟨d0, d1, d2, d3, d4, d5⟩⟩ := get_equations_rows_values (i * 4 * 6) (pnormx vgg pts i)
      (pnormy vgg pts i) (dirnormx vgg grad i) (dirnormy vgg grad i) (fun _ => (0 : α))
  have e : ∀ r j, r < 4 → j < 6 →
      get_equations_loop vgg pts grad n buff ((4 * i + r) * 6 + j)
        = get_equations_rows (i * 4 * 6) (pnormx vgg pts i) (pnormy vgg pts i)
          (dirnormx vgg grad i) (dirnormy vgg grad i) (fun _ => 0) (i * 4 * 6 + (6 * r + j)) := by
    intro r j hr hj
    rw [← get_equations_loop_at vgg pts grad n buff i (6 * r + j) hi (by omega)]
    congr 1
    ring
  simp only [rowDot, forSum, List.range_succ, List.range_zero, List.nil_append, List.cons_append,
    List.foldl_cons, List.foldl_nil]
  refine ⟨?_, ?_, ?_, ?_⟩
  · have := e 0
    simp only [Nat.add_zero, Nat.mul_zero, Nat.zero_add] at this
    rw [this 0 (by norm_num) (by norm_num), this 1 (by norm_num) (by norm_num),
      this 2 (by norm_num) (by norm_num), this 3 (by norm_num) (by norm_num),
      this 4 (by norm_num) (by norm_num), this 5 (by norm_num) (by norm_num),
      a0, a1, a2, a3, a4, a5]
    ring
  · have := e 1
    simp only [Nat.mul_one] at this
    rw [this 0 (by norm_num) (by norm_num), this 1 (by norm_num) (by norm_num),
      this 2 (by norm_num) (by norm_num), this 3 (by norm_num) (by norm_num),
      this 4 (by norm_num) (by norm_num), this 5 (by norm_num) (by norm_num)]
    norm_num only []
    rw [b0, b1, b2, b3, b4, b5]
    ring
  · have := e 2
    rw [this 0 (by norm_num) (by norm_num), this 1 (by norm_num) (by norm_num),
      this 2 (by norm_num) (by norm_num), this 3 (by norm_num) (by norm_num),
      this 4 (by norm_num) (by norm_num), this 5 (by norm_num) (by norm_num)]
    norm_num only []
    rw [c0, c1, c2, c3, c4, c5]
    ring
  · have := e 3
    rw [this 0 (by norm_num) (by norm_num), this 1 (by norm_num) (by norm_num),
      this 2 (by norm_num) (by norm_num), this 3 (by norm_num) (by norm_num),
      this 4 (by norm_num) (by norm_num), this 5 (by norm_num) (by norm_num)]
    norm_num only []
    rw [d0, d1, d2, d3, d4, d5]
    ring

/-- Incidence and polarity through the closed form `C = T' s T`: for a
transform with `T[1] = T[3] = 0`, `T[4] = T[0]` and a solution vector `x`, the
conic `C` at a point is the incidence form at the normalised point, and the
first two components of `C P` are `T[0]` times those of `S p`. -/
theorem unnormalise_at_point (vgg pts x : Nat → α) (i : Nat)
    (h1 : vgg 1 = 0) (h3 : vgg 3 = 0) (h4 : vgg 4 = vgg 0) :
    conicValue (unnormalise vgg (solution_matrix x)) (pts (2 * i)) (pts (2 * i + 1))
      = pnormx vgg pts i * (x 0 * pnormx vgg pts i + x 1 * pnormy vgg pts i + x 2)
        + pnormy vgg pts i * (x 1 * pnormx vgg pts i + x 3 * pnormy vgg pts i + x 4)
        + (x 2 * pnormx vgg pts i + x 4 * pnormy vgg pts i + x 5) ∧
    (conicNormal (unnormalise vgg (solution_matrix x)) (pts (2 * i)) (pts (2 * i + 1))).1
      = vgg 0 * (x 0 * pnormx vgg pts i + x 1 * pnormy vgg pts i + x 2) ∧
    (conicNormal (unnormalise vgg (solution_matrix x)) (pts (2 * i)) (pts (2 * i + 1))).2
      = vgg 0 * (x 1 * pnormx vgg pts i + x 3 * pnormy vgg pts i + x 4) := by
  have s0 : solution_matrix x 0 = x 0 := rfl
  have s1 : solution_matrix x 1 = x 1 := rfl
  have s2 : solution_matrix x 2 = x 2 := rfl
  have s3 : solution_matrix x 3 = x 1 := rfl
  have s4 : solution_matrix x 4 = x 3 := rfl
  have s5 : solution_matrix x 5 = x 4 := rfl
  have s6 : solution_matrix x 6 = x 2 := rfl
  have s7 : solution_matrix x 7 = x 4 := rfl
  have s8 : solution_matrix x 8 = x 5 := rfl
  have u0 : unnormalise vgg (solution_matrix x) 0 = vgg 0 * vgg 0 * x 0 := by
    show vgg 0 * vgg 0 * solution_matrix x 0 + vgg 0 * vgg 3 * solution_matrix x 3
      + vgg 0 * vgg 3 * solution_matrix x 1 + vgg 3 * vgg 3 * solution_matrix x 4 = _
    rw [h3, s0]; ring
  have u1 : unnormalise vgg (solution_matrix x) 1 = vgg 0 * vgg 0 * x 1 := by
    show vgg 0 * vgg 1 * solution_matrix x 0 + vgg 1 * vgg 3 * solution_matrix x 3
      + vgg 0 * vgg 4 * solution_matrix x 1 + vgg 3 * vgg 4 * solution_matrix x 4 = _
    rw [h1, h3, h4, s1]; ring
  have u3 : unnormalise vgg (solution_matrix x) 3 = vgg 0 * vgg 0 * x 1 := by
    show vgg 0 * vgg 1 * solution_matrix x 0 + vgg 0 * vgg 4 * solution_matrix x 3
      + vgg 1 * vgg 3 * solution_matrix x 1 + vgg 3 * vgg 4 * solution_matrix x 4 = _
    rw [h1, h3, h4, s3]; ring
  have u4 : unnormalise vgg (solution_matrix x) 4 = vgg 0 * vgg 0 * x 3 := by
    show vgg 1 * vgg 1 * solution_matrix x 0 + vgg 1 * vgg 4 * solution_matrix x 3
      + vgg 1 * vgg 4 * solution_matrix x 1 + vgg 4 * vgg 4 * solution_matrix x 4 = _
    rw [h1, h4, s4]; ring
  have u2 : unnormalise vgg (solution_matrix x) 2
      = vgg 0 * (vgg 2 * x 0 + vgg 5 * x 1 + x 2) := by
    show vgg 0 * vgg 2 * solution_matrix x 0 + vgg 2 * vgg 3 * solution_matrix x 3
      + vgg 0 * vgg 5 * solution_matrix x 1 + vgg 3 * vgg 5 * solution_matrix x 4
      + vgg 0 * solution_matrix x 2 + vgg 3 * solution_matrix x 5 = _
    rw [h3, s0, s1, s2]; ring
  have u5 : unnormalise vgg (solution_matrix x) 5
      = vgg 0 * (vgg 2 * x 1 + vgg 5 * x 3 + x 4) := by
    show vgg 1 * vgg 2 * solution_matrix x 0 + vgg 2 * vgg 4 * solution_matrix x 3
      + vgg 1 * vgg 5 * solution_matrix x 1 + vgg 4 * vgg 5 * solution_matrix x 4
      + vgg 1 * solution_matrix x 2 + vgg 4 * solution_matrix x 5 = _
    rw [h1, h4, s3, s4, s5]; ring
  have u8 : unnormalise vgg (solution_matrix x) 8
      = vgg 2 * vgg 2 * x 0 + 2 * vgg 2 * vgg 5 * x 1 + vgg 5 * vgg 5 * x 3
        + 2 * vgg 2 * x 2 + 2 * vgg 5 * x 4 + x 5 := by
    show vgg 2 * vgg 2 * solution_matrix x 0 + vgg 2 * vgg 5 * solution_matrix x 3
      + vgg 2 * solution_matrix x 6 + vgg 2 * vgg 5 * solution_matrix x 1
      + vgg 5 * vgg 5 * solution_matrix x 4 + vgg 5 * solution_matrix x 7
      + vgg 2 * solution_matrix x 2 + vgg 5 * solution_matrix x 5 + solution_matrix x 8 = _
    rw [s0, s1, s2, s3, s4, s5, s6, s7, s8]; ring
  simp only [conicValue, conicNormal, pnormx, pnormy, u0, u1, u2, u3, u4, u5, u8, h1, h3, h4]
  refine ⟨?_, ?_, ?_⟩ <;> ring

/-- Row-level exactness: a point on the conic `C = T' S(x) T` whose gradient
is a multiple of the conic's normal there makes its four rows vanish on `x`. -/
theorem rowDot_zero_of_on_conic (vgg pts grad : Nat → α) (n : Nat) (buff x : Nat → α) (i : Nat)
    (hi : i < n) (h1 : vgg 1 = 0) (h3 : vgg 3 = 0) (h4 : vgg 4 = vgg 0) (lam : α)
    (hon : conicValue (unnormalise vgg (solution_matrix x)) (pts (2 * i)) (pts (2 * i + 1)) = 0)
    (hg0 : grad (2 * i) = lam *
      (conicNormal (unnormalise vgg (solution_matrix x)) (pts (2 * i)) (pts (2 * i + 1))).1)
    (hg1 : grad (2 * i + 1) = lam *
      (conicNormal (unnormalise vgg (solution_matrix x)) (pts (2 * i)) (pts (2 * i + 1))).2) :
    rowDot (get_equations_loop vgg pts grad n buff) x (4 * i) = 0 ∧
    rowDot (get_equations_loop vgg pts grad n buff) x (4 * i + 1) = 0 ∧
    rowDot (get_equations_loop vgg pts grad n buff) x (4 * i + 2) = 0 ∧
    rowDot (get_equations_loop vgg pts grad n buff) x (4 * i + 3) = 0 := by
  obtain ⟨r0, r1, r2, r3⟩ := rowDot_loop vgg pts grad n buff x i hi
  obtain ⟨c0, c1, c2⟩ := unnormalise_at_point vgg pts x i h1 h3 h4
  rw [c0] at hon
  rw [c1] at hg0
  rw [c2] at hg1
  have hdx : dirnormx vgg grad i = -vgg 0 * grad (2 * i + 1) := by
    simp only [dirnormx, h1]; ring
  have hdy : dirnormy vgg grad i = vgg 0 * grad (2 * i) := by
    simp only [dirnormy, h3, h4]; ring
  rw [r0, r1, r2, r3, hdx, hdy, hg0, hg1]
  generalize pnormx vgg pts i = px at *
  generalize pnormy vgg pts i = py at *
  refine ⟨?_, ?_, ?_, hon⟩
  · linear_combination (-(vgg 0 * vgg 0 * lam * (x 1 * px + x 3 * py + x 4))) * hon
  · linear_combination (vgg 0 * vgg 0 * lam * (x 0 * px + x 1 * py + x 2)) * hon
  · ring

/-- The incidence row of point `i` vanishes on `x` only if the point lies on
the conic `C = T' S(x) T`. -/
theorem on_conic_of_rowDot_zero (vgg pts grad : Nat → α) (n : Nat) (buff x : Nat → α) (i : Nat)
    (hi : i < n) (h1 : vgg 1 = 0) (h3 : vgg 3 = 0) (h4 : vgg 4 = vgg 0)
    (hrow : rowDot (get_equations_loop vgg pts grad n buff) x (4 * i + 3) = 0) :
    conicValue (unnormalise vgg (solution_matrix x)) (pts (2 * i)) (pts (2 * i + 1)) = 0 := by
  obtain ⟨-, -, -, r3⟩ := rowDot_loop vgg pts grad n buff x i hi
  obtain ⟨c0, -, -⟩ := unnormalise_at_point vgg pts x i h1 h3 h4
  rw [c0, ← r3, hrow]

/-- The conic `e` is recovered from its normalised coefficient vector by the
closed form `C = T' s T`. -/
theorem unnormalise_normalisedConic (vgg e : Nat → α) (h1 : vgg 1 = 0) (h3 : vgg 3 = 0)
    (h4 : vgg 4 = vgg 0) (hv : vgg 0 ≠ 0) (he : e 3 = e 1) (x y : α) :
    conicValue (unnormalise vgg (solution_matrix (normalisedConic vgg e))) x y = conicValue e x y ∧
    conicNormal (unnormalise vgg (solution_matrix (normalisedConic vgg e))) x y
      = conicNormal e x y := by
  have hp := unnormalise_at_point vgg (fun q => if q = 0 then x else y)
    (normalisedConic vgg e) 0 h1 h3 h4
  simp only [Nat.mul_zero, Nat.zero_add, if_true, one_ne_zero, if_false, pnormx, pnormy, h1, h3,
    h4] at hp
  obtain ⟨c0, c1, c2⟩ := hp
  have n0 : normalisedConic vgg e 0 = e 0 / vgg 0 ^ 2 := rfl
  have n1 : normalisedConic vgg e 1 = e 1 / vgg 0 ^ 2 := rfl
  have n2 : normalisedConic vgg e 2
      = e 2 / vgg 0 - (vgg 2 * e 0 + vgg 5 * e 1) / vgg 0 ^ 2 := rfl
  have n3 : normalisedConic vgg e 3 = e 4 / vgg 0 ^ 2 := rfl
  have n4 : normalisedConic vgg e 4
      = e 5 / vgg 0 - (vgg 2 * e 1 + vgg 5 * e 4) / vgg 0 ^ 2 := rfl
  have n5 : normalisedConic vgg e 5 = e 8 - 2 * (vgg 2 * e 2 + vgg 5 * e 5) / vgg 0
      + (e 0 * vgg 2 ^ 2 + 2 * e 1 * vgg 2 * vgg 5 + e 4 * vgg 5 ^ 2) / vgg 0 ^ 2 := rfl
  simp only [n0, n1, n2, n3, n4, n5] at c0 c1 c2
  refine ⟨?_, Prod.ext ?_ ?_⟩
  · rw [c0]; simp only [conicValue]; field_simp; ring
  · rw [c1]; simp only [conicNormal]; field_simp; ring
  · rw [c2]; simp only [conicNormal, he]; field_simp; ring

/-- The conic of an ellipse is `U^2/A^2 + V^2/B^2 - 1`, and its normal is the
normal of the ellipse. -/
theorem conicOfEllipse_value (m : Libm α) (E : Param α) (x y : α) :
    conicValue (conicOfEllipse m E) x y
      = alongU m E x y ^ 2 / E.ax ^ 2 + alongV m E x y ^ 2 / E.ay ^ 2 - 1 ∧
    conicNormal (conicOfEllipse m E) x y = ellipseNormal m E x y := by
  have e0 : conicOfEllipse m E 0 = m.cos E.orientation * m.cos E.orientation / E.ax ^ 2
      + m.sin E.orientation * m.sin E.orientation / E.ay ^ 2 := rfl
  have e1 : conicOfEllipse m E 1 = m.cos E.orientation * m.sin E.orientation / E.ax ^ 2
      - m.cos E.orientation * m.sin E.orientation / E.ay ^ 2 := rfl
  have e3 : conicOfEllipse m E 3 = conicOfEllipse m E 1 := rfl
  have e4 : conicOfEllipse m E 4 = m.sin E.orientation * m.sin E.orientation / E.ax ^ 2
      + m.cos E.orientation * m.cos E.orientation / E.ay ^ 2 := rfl
  have e2 : conicOfEllipse m E 2
      = -(conicOfEllipse m E 0 * E.centrex + conicOfEllipse m E 1 * E.centrey) := rfl
  have e5 : conicOfEllipse m E 5
      = -(conicOfEllipse m E 1 * E.centrex + conicOfEllipse m E 4 * E.centrey) := rfl
  have e8 : conicOfEllipse m E 8
      = conicOfEllipse m E 0 * E.centrex ^ 2
        + 2 * conicOfEllipse m E 1 * E.centrex * E.centrey
        + conicOfEllipse m E 4 * E.centrey ^ 2 - 1 := rfl
  refine ⟨?_, Prod.ext ?_ ?_⟩
  · simp only [conicValue, e8, e5, e2, e0, e1, e4, alongU, alongV]
    ring
  · simp only [conicNormal, ellipseNormal, e2, e0, e1, alongU, alongV]
    ring
  · simp only [conicNormal, ellipseNormal, e3, e5, e4, e1, alongU, alongV]
    ring

/-- Lying on the ellipse is lying on its conic. -/
theorem onEllipse_iff_conicValue (m : Libm α) (E : Param α) (x y : α) :
    OnEllipse m E x y ↔ conicValue (conicOfEllipse m E) x y = 0 := by
  rw [(conicOfEllipse_value m E x y).1, OnEllipse, sub_eq_zero]

/-- A sum over the `4 n` rows, grouped by point. -/
theorem sum_range_four_mul (f : Nat → α) (n : Nat) :
    ∑ k in Finset.range (4 * n), f k
      = ∑ i in Finset.range n, (f (4 * i) + f (4 * i + 1) + f (4 * i + 2) + f (4 * i + 3)) := by
  induction n with
  | zero => simp
  | succ m ih =>
    rw [show 4 * (m + 1) = 4 * m + 1 + 1 + 1 + 1 by ring, Finset.sum_range_succ,
      Finset.sum_range_succ, Finset.sum_range_succ, Finset.sum_range_succ, ih,
      Finset.sum_range_succ]
    ring

/-- The 24 coefficients that the loop of `get_equations` leaves in the four rows
of point `i`. -/
theorem get_equations_loop_values (vgg pts grad : Nat → α) (n : Nat) (buff : Nat → α) (i : Nat)
    (hi : i < n) :
    (get_equations_loop vgg pts grad n buff ((4 * i) * 6 + 0)
        = 0 ∧
     get_equations_loop vgg pts grad n buff ((4 * i) * 6 + 1)
        = -((pnormx vgg pts i * dirnormy vgg grad i - pnormy vgg pts i * dirnormx vgg grad i) * pnormx vgg pts i) ∧
     get_equations_loop vgg pts grad n buff ((4 * i) * 6 + 2)
        = dirnormx vgg grad i * pnormx vgg pts i ∧
     get_equations_loop vgg pts grad n buff ((4 * i) * 6 + 3)
        = -((pnormx vgg pts i * dirnormy vgg grad i - pnormy vgg pts i * dirnormx vgg grad i) * pnormy vgg pts i) ∧
     get_equations_loop vgg pts grad n buff ((4 * i) * 6 + 4)
        = dirnormx vgg grad i * pnormy vgg pts i - (pnormx vgg pts i * dirnormy vgg grad i - pnormy vgg pts i * dirnormx vgg grad i) ∧
     get_equations_loop vgg pts grad n buff ((4 * i) * 6 + 5)
        = dirnormx vgg grad i) ∧
    (get_equations_loop vgg pts grad n buff ((4 * i + 1) * 6 + 0)
        = (pnormx vgg pts i * dirnormy vgg grad i - pnormy vgg pts i * dirnormx vgg grad i) * pnormx vgg pts i ∧
     get_equations_loop vgg pts grad n buff ((4 * i + 1) * 6 + 1)
        = (pnormx vgg pts i * dirnormy vgg grad i - pnormy vgg pts i * dirnormx vgg grad i) * pnormy vgg pts i ∧
     get_equations_loop vgg pts grad n buff ((4 * i + 1) * 6 + 2)
        = dirnormy vgg grad i * pnormx vgg pts i + (pnormx vgg pts i * dirnormy vgg grad i - pnormy vgg pts i * dirnormx vgg grad i) ∧
     get_equations_loop vgg pts grad n buff ((4 * i + 1) * 6 + 3)
        = 0 ∧
     get_equations_loop vgg pts grad n buff ((4 * i + 1) * 6 + 4)
        = dirnormy vgg grad i * pnormy vgg pts i ∧
     get_equations_loop vgg pts grad n buff ((4 * i + 1) * 6 + 5)
        = dirnormy vgg grad i) ∧
    (get_equations_loop vgg pts grad n buff ((4 * i + 2) * 6 + 0)
        = -(dirnormx vgg grad i * pnormx vgg pts i) ∧
     get_equations_loop vgg pts grad n buff ((4 * i + 2) * 6 + 1)
        = -(dirnormx vgg grad i * pnormy vgg pts i) - dirnormy vgg grad i * pnormx vgg pts i ∧
     get_equations_loop vgg pts grad n buff ((4 * i + 2) * 6 + 2)
        = -dirnormx vgg grad i ∧
     get_equations_loop vgg pts grad n buff ((4 * i + 2) * 6 + 3)
        = -(dirnormy vgg grad i * pnormy vgg pts i) ∧
     get_equations_loop vgg pts grad n buff ((4 * i + 2) * 6 + 4)
        = -dirnormy vgg grad i ∧
     get_equations_loop vgg pts grad n buff ((4 * i + 2) * 6 + 5)
        = 0) ∧
    (get_equations_loop vgg pts grad n buff ((4 * i + 3) * 6 + 0)
        = pnormx vgg pts i * pnormx vgg pts i ∧
     get_equations_loop vgg pts grad n buff ((4 * i + 3) * 6 + 1)
        = 2 * pnormx vgg pts i * pnormy vgg pts i ∧
     get_equations_loop vgg pts grad n buff ((4 * i + 3) * 6 + 2)
        = 2 * pnormx vgg pts i ∧
     get_equations_loop vgg pts grad n buff ((4 * i + 3) * 6 + 3)
        = pnormy vgg pts i * pnormy vgg pts i ∧
     get_equations_loop vgg pts grad n buff ((4 * i + 3) * 6 + 4)
        = 2 * pnormy vgg pts i ∧
     get_equations_loop vgg pts grad n buff ((4 * i + 3) * 6 + 5)
        = 1) := by
  obtain ⟨⟨a0, a1, a2, a3, a4, a5⟩, ⟨b0, b1, b2, b3, b4, b5⟩, ⟨c0, c1, c2, c3, c4, c5⟩,
    ⟨d0, d1, d2, d3, d4, d5⟩⟩ := get_equations_rows_values (i * 4 * 6) (pnormx vgg pts i)
      (pnormy vgg pts i) (dirnormx vgg grad i) (dirnormy vgg grad i) (fun _ => (0 : α))
  have e : ∀ q t, t < 24 → q = i * 4 * 6 + t →
      get_equations_loop vgg pts grad n buff q
        = get_equations_rows (i * 4 * 6) (pnormx vgg pts i) (pnormy vgg pts i)
          (dirnormx vgg grad i) (dirnormy vgg grad i) (fun _ => 0) (i * 4 * 6 + t) := by
    intro q t ht hq
    rw [hq]
    exact get_equations_loop_at vgg pts grad n buff i t hi ht
  refine ⟨⟨?_, ?_, ?_, ?_, ?_, ?_⟩, ⟨?_, ?_, ?_, ?_, ?_, ?_⟩, ⟨?_, ?_, ?_, ?_, ?_, ?_⟩,
    ⟨?_, ?_, ?_, ?_, ?_, ?_⟩⟩
  · rw [e _ 0 (by norm_num) (by ring)]; exact a0
  · rw [e _ 1 (by norm_num) (by ring)]; exact a1
  · rw [e _ 2 (by norm_num) (by ring)]; exact a2
  · rw [e _ 3 (by norm_num) (by ring)]; exact a3
  · rw [e _ 4 (by norm_num) (by ring)]; exact a4
  · rw [e _ 5 (by norm_num) (by ring)]; exact a5
  · rw [e _ 6 (by norm_num) (by ring)]; exact b0
  · rw [e _ 7 (by norm_num) (by ring)]; exact b1
  · rw [e _ 8 (by norm_num) (by ring)]; exact b2
  · rw [e _ 9 (by norm_num) (by ring)]; exact b3
  · rw [e _ 10 (by norm_num) (by ring)]; exact b4
  · rw [e _ 11 (by norm_num) (by ring)]; exact b5
  · rw [e _ 12 (by norm_num) (by ring)]; exact c0
  · rw [e _ 13 (by norm_num) (by ring)]; exact c1
  · rw [e _ 14 (by norm_num) (by ring)]; exact c2
  · rw [e _ 15 (by norm_num) (by ring)]; exact c3
  · rw [e _ 16 (by norm_num) (by ring)]; exact c4
  · rw [e _ 17 (by norm_num) (by ring)]; exact c5
  · rw [e _ 18 (by norm_num) (by ring)]; exact d0
  · rw [e _ 19 (by norm_num) (by ring)]; exact d1
  · rw [e _ 20 (by norm_num) (by ring)]; exact d2
  · rw [e _ 21 (by norm_num) (by ring)]; exact d3
  · rw [e _ 22 (by norm_num) (by ring)]; exact d4
  · rw [e _ 23 (by norm_num) (by ring)]; exact d5

/-- The Gram matrix applied to `y`, grouped by point. -/
theorem gramApply_rows (eq y : Nat → α) (n a : Nat) (ha : a < 6) :
    gramApply (gram eq n) y a
      = ∑ i in Finset.range n,
          (eq ((4 * i) * 6 + a) * rowDot eq y (4 * i)
            + eq ((4 * i + 1) * 6 + a) * rowDot eq y (4 * i + 1)
            + eq ((4 * i + 2) * 6 + a) * rowDot eq y (4 * i + 2)
            + eq ((4 * i + 3) * 6 + a) * rowDot eq y (4 * i + 3)) := by
  rw [gramApply_gram eq y n a ha, sum_range_four_mul]

/-- The Gram matrix applied to `y` when every normalised direction is the
opposite of its normalised point (the tangent line is then the line through
the origin and the point). -/
theorem gramApply_radial (vgg pts grad : Nat → α) (n : Nat) (buff y : Nat → α)
    (hd : ∀ i, i < n → dirnormx vgg grad i = -pnormx vgg pts i ∧
      dirnormy vgg grad i = -pnormy vgg pts i) :
    gramApply (gram (get_equations_loop vgg pts grad n buff) n) y 0
      = ∑ i in Finset.range n, (pnormx vgg pts i ^ 2 * (2 * (pnormx vgg pts i * (y 0 * pnormx vgg pts i + y 1 * pnormy vgg pts i + y 2) + pnormy vgg pts i * (y 1 * pnormx vgg pts i + y 3 * pnormy vgg pts i + y 4)) + (y 2 * pnormx vgg pts i + y 4 * pnormy vgg pts i + y 5))) ∧
    gramApply (gram (get_equations_loop vgg pts grad n buff) n) y 1
      = ∑ i in Finset.range n, (2 * pnormx vgg pts i * pnormy vgg pts i * (2 * (pnormx vgg pts i * (y 0 * pnormx vgg pts i + y 1 * pnormy vgg pts i + y 2) + pnormy vgg pts i * (y 1 * pnormx vgg pts i + y 3 * pnormy vgg pts i + y 4)) + (y 2 * pnormx vgg pts i + y 4 * pnormy vgg pts i + y 5))) ∧
    gramApply (gram (get_equations_loop vgg pts grad n buff) n) y 2
      = ∑ i in Finset.range n, (pnormx vgg pts i * ((pnormx vgg pts i ^ 2 + pnormy vgg pts i ^ 2 + 2) * (y 2 * pnormx vgg pts i + y 4 * pnormy vgg pts i + y 5) + 3 * (pnormx vgg pts i * (y 0 * pnormx vgg pts i + y 1 * pnormy vgg pts i + y 2) + pnormy vgg pts i * (y 1 * pnormx vgg pts i + y 3 * pnormy vgg pts i + y 4)))) ∧
    gramApply (gram (get_equations_loop vgg pts grad n buff) n) y 3
      = ∑ i in Finset.range n, (pnormy vgg pts i ^ 2 * (2 * (pnormx vgg pts i * (y 0 * pnormx vgg pts i + y 1 * pnormy vgg pts i + y 2) + pnormy vgg pts i * (y 1 * pnormx vgg pts i + y 3 * pnormy vgg pts i + y 4)) + (y 2 * pnormx vgg pts i + y 4 * pnormy vgg pts i + y 5))) ∧
    gramApply (gram (get_equations_loop vgg pts grad n buff) n) y 4
      = ∑ i in Finset.range n, (pnormy vgg pts i * ((pnormx vgg pts i ^ 2 + pnormy vgg pts i ^ 2 + 2) * (y 2 * pnormx vgg pts i + y 4 * pnormy vgg pts i + y 5) + 3 * (pnormx vgg pts i * (y 0 * pnormx vgg pts i + y 1 * pnormy vgg pts i + y 2) + pnormy vgg pts i * (y 1 * pnormx vgg pts i + y 3 * pnormy vgg pts i + y 4)))) ∧
    gramApply (gram (get_equations_loop vgg pts grad n buff) n) y 5
      = ∑ i in Finset.range n, ((pnormx vgg pts i ^ 2 + pnormy vgg pts i ^ 2 + 1) * (y 2 * pnormx vgg pts i + y 4 * pnormy vgg pts i + y 5) + (pnormx vgg pts i * (y 0 * pnormx vgg pts i + y 1 * pnormy vgg pts i + y 2) + pnormy vgg pts i * (y 1 * pnormx vgg pts i + y 3 * pnormy vgg pts i + y 4))) := by
  have hpt : ∀ i, i < n →
      rowDot (get_equations_loop vgg pts grad n buff) y (4 * i)
        = -pnormx vgg pts i * (y 2 * pnormx vgg pts i + y 4 * pnormy vgg pts i + y 5) ∧
      rowDot (get_equations_loop vgg pts grad n buff) y (4 * i + 1)
        = -pnormy vgg pts i * (y 2 * pnormx vgg pts i + y 4 * pnormy vgg pts i + y 5) ∧
      rowDot (get_equations_loop vgg pts grad n buff) y (4 * i + 2)
        = pnormy vgg pts i * (y 1 * pnormx vgg pts i + y 3 * pnormy vgg pts i + y 4)
          + pnormx vgg pts i * (y 0 * pnormx vgg pts i + y 1 * pnormy vgg pts i + y 2) ∧
      rowDot (get_equations_loop vgg pts grad n buff) y (4 * i + 3)
        = pnormx vgg pts i * (y 0 * pnormx vgg pts i + y 1 * pnormy vgg pts i + y 2)
          + pnormy vgg pts i * (y 1 * pnormx vgg pts i + y 3 * pnormy vgg pts i + y 4)
          + (y 2 * pnormx vgg pts i + y 4 * pnormy vgg pts i + y 5) := by
    intro i hi
    obtain ⟨r0, r1, r2, r3⟩ := rowDot_loop vgg pts grad n buff y i hi
    obtain ⟨hx, hy⟩ := hd i hi
    rw [r0, r1, r2, r3, hx, hy]
    refine ⟨by ring, by ring, by ring, rfl⟩
  refine ⟨?_, ?_, ?_, ?_, ?_, ?_⟩
  · rw [gramApply_rows _ y n 0 (by norm_num)]
    apply Finset.sum_congr rfl
    intro i hi
    obtain ⟨⟨a0, a1, a2, a3, a4, a5⟩, ⟨b0, b1, b2, b3, b4, b5⟩, ⟨c0, c1, c2, c3, c4, c5⟩,
      ⟨d0, d1, d2, d3, d4, d5⟩⟩ :=
      get_equations_loop_values vgg pts grad n buff i (Finset.mem_range.mp hi)
    obtain ⟨r0, r1, r2, r3⟩ := hpt i (Finset.mem_range.mp hi)
    obtain ⟨hx, hy⟩ := hd i (Finset.mem_range.mp hi)
    rw [a0, b0, c0, d0, r0, r1, r2, r3, hx, hy]
    ring
  · rw [gramApply_rows _ y n 1 (by norm_num)]
    apply Finset.sum_congr rfl
    intro i hi
    obtain ⟨⟨a0, a1, a2, a3, a4, a5⟩, ⟨b0, b1, b2, b3, b4, b5⟩, ⟨c0, c1, c2, c3, c4, c5⟩,
      ⟨d0, d1, d2, d3, d4, d5⟩⟩ :=
      get_equations_loop_values vgg pts grad n buff i (Finset.mem_range.mp hi)
    obtain ⟨r0, r1, r2, r3⟩ := hpt i (Finset.mem_range.mp hi)
    obtain ⟨hx, hy⟩ := hd i (Finset.mem_range.mp hi)
    rw [a1, b1, c1, d1, r0, r1, r2, r3, hx, hy]
    ring
  · rw [gramApply_rows _ y n 2 (by norm_num)]
    apply Finset.sum_congr rfl
    intro i hi
    obtain ⟨⟨a0, a1, a2, a3, a4, a5⟩, ⟨b0, b1, b2, b3, b4, b5⟩, ⟨c0, c1, c2, c3, c4, c5⟩,
      ⟨d0, d1, d2, d3, d4, d5⟩⟩ :=
      get_equations_loop_values vgg pts grad n buff i (Finset.mem_range.mp hi)
    obtain ⟨r0, r1, r2, r3⟩ := hpt i (Finset.mem_range.mp hi)
    obtain ⟨hx, hy⟩ := hd i (Finset.mem_range.mp hi)
    rw [a2, b2, c2, d2, r0, r1, r2, r3, hx, hy]
    ring
  · rw [gramApply_rows _ y n 3 (by norm_num)]
    apply Finset.sum_congr rfl
    intro i hi
    obtain ⟨⟨a0, a1, a2, a3, a4, a5⟩, ⟨b0, b1, b2, b3, b4, b5⟩, ⟨c0, c1, c2, c3, c4, c5⟩,
      ⟨d0, d1, d2, d3, d4, d5⟩⟩ :=
      get_equations_loop_values vgg pts grad n buff i (Finset.mem_range.mp hi)
    obtain ⟨r0, r1, r2, r3⟩ := hpt i (Finset.mem_range.mp hi)
    obtain ⟨hx, hy⟩ := hd i (Finset.mem_range.mp hi)
    rw [a3, b3, c3, d3, r0, r1, r2, r3, hx, hy]
    ring
  · rw [gramApply_rows _ y n 4 (by norm_num)]
    apply Finset.sum_congr rfl
    intro i hi
    obtain ⟨⟨a0, a1, a2, a3, a4, a5⟩, ⟨b0, b1, b2, b3, b4, b5⟩, ⟨c0, c1, c2, c3, c4, c5⟩,
      ⟨d0, d1, d2, d3, d4, d5⟩⟩ :=
      get_equations_loop_values vgg pts grad n buff i (Finset.mem_range.mp hi)
    obtain ⟨r0, r1, r2, r3⟩ := hpt i (Finset.mem_range.mp hi)
    obtain ⟨hx, hy⟩ := hd i (Finset.mem_range.mp hi)
    rw [a4, b4, c4, d4, r0, r1, r2, r3, hx, hy]
    ring
  · rw [gramApply_rows _ y n 5 (by norm_num)]
    apply Finset.sum_congr rfl
    intro i hi
    obtain ⟨⟨a0, a1, a2, a3, a4, a5⟩, ⟨b0, b1, b2, b3, b4, b5⟩, ⟨c0, c1, c2, c3, c4, c5⟩,
      ⟨d0, d1, d2, d3, d4, d5⟩⟩ :=
      get_equations_loop_values vgg pts grad n buff i (Finset.mem_range.mp hi)
    obtain ⟨r0, r1, r2, r3⟩ := hpt i (Finset.mem_range.mp hi)
    obtain ⟨hx, hy⟩ := hd i (Finset.mem_range.mp hi)
    rw [a5, b5, c5, d5, r0, r1, r2, r3, hx, hy]
    ring

/-- The cross product of two 3-vectors vanishes exactly when they are
parallel. -/
theorem cross3_eq_zero_iff (u v : Nat → α) :
    (∀ r, r < 3 → cross3 u v r = 0) ↔ Parallel3 u v := by
  constructor
  · intro h
    have c0 : u 1 * v 2 - u 2 * v 1 = 0 := h 0 (by norm_num)
    have c1 : u 2 * v 0 - u 0 * v 2 = 0 := h 1 (by norm_num)
    have c2 : u 0 * v 1 - u 1 * v 0 = 0 := h 2 (by norm_num)
    by_cases h0 : v 0 = 0
    · by_cases h1 : v 1 = 0
      · by_cases h2 : v 2 = 0
        · refine ⟨0, 1, Or.inr one_ne_zero, ?_⟩
          intro j hj
          interval_cases j
          · rw [h0]; ring
          · rw [h1]; ring
          · rw [h2]; ring
        · refine ⟨v 2, -u 2, Or.inl h2, ?_⟩
          intro j hj
          interval_cases j
          · linear_combination -c1
          · linear_combination c0
          · ring
      · refine ⟨v 1, -u 1, Or.inl h1, ?_⟩
        intro j hj
        interval_cases j
        · linear_combination c2
        · ring
        · linear_combination -c0
    · refine ⟨v 0, -u 0, Or.inl h0, ?_⟩
      intro j hj
      interval_cases j
      · ring
      · linear_combination -c2
      · linear_combination c1
  · rintro ⟨a, b, hab, h⟩ r hr
    have e0 := h 0 (by norm_num)
    have e1 := h 1 (by norm_num)
    have e2 := h 2 (by norm_num)
    rcases hab with ha | hb
    · have k0 : a * (u 1 * v 2 - u 2 * v 1) = 0 := by linear_combination v 2 * e1 - v 1 * e2
      have k1 : a * (u 2 * v 0 - u 0 * v 2) = 0 := by linear_combination v 0 * e2 - v 2 * e0
      have k2 : a * (u 0 * v 1 - u 1 * v 0) = 0 := by linear_combination v 1 * e0 - v 0 * e1
      interval_cases r
      · exact (mul_eq_zero.mp k0).resolve_left ha
      · exact (mul_eq_zero.mp k1).resolve_left ha
      · exact (mul_eq_zero.mp k2).resolve_left ha
    · have k0 : b * (u 1 * v 2 - u 2 * v 1) = 0 := by linear_combination u 1 * e2 - u 2 * e1
      have k1 : b * (u 2 * v 0 - u 0 * v 2) = 0 := by linear_combination u 2 * e0 - u 0 * e2
      have k2 : b * (u 0 * v 1 - u 1 * v 0) = 0 := by linear_combination u 0 * e1 - u 1 * e0
      interval_cases r
      · exact (mul_eq_zero.mp k0).resolve_left hb
      · exact (mul_eq_zero.mp k1).resolve_left hb
      · exact (mul_eq_zero.mp k2).resolve_left hb

/-- The closed-form entries of `fit_ellipse` are those of `T' * s * T` when
the last row of `T` is `(0, 0, 1)`. -/
theorem unnormalise_matMul (T s : Nat → α) (h6 : T 6 = 0) (h7 : T 7 = 0) (h8 : T 8 = 1) :
    ∀ j, j < 9 → unnormalise T s j = matMul3 (transpose3 T) (matMul3 s T) j := by
  intro j hj
  interval_cases j <;> simp [unnormalise, matMul3, transpose3, h6, h7, h8] <;> ring

/-- The closed-form matrix is symmetric when `s` is. -/
theorem unnormalise_symm (T s : Nat → α) (e1 : s 3 = s 1) (e2 : s 6 = s 2) (e3 : s 7 = s 5) :
    unnormalise T s 3 = unnormalise T s 1 ∧ unnormalise T s 6 = unnormalise T s 2 ∧
    unnormalise T s 7 = unnormalise T s 5 := by
  simp only [unnormalise, e1, e2, e3]
  refine ⟨by ring, by ring, by ring⟩

/-- The matrix `s` assembled from the coefficient vector of a symmetric
matrix `S` is `S`. -/
theorem solution_matrix_coeffs (S : Nat → α) (e1 : S 3 = S 1) (e2 : S 6 = S 2) (e3 : S 7 = S 5) :
    ∀ j, j < 9 → solution_matrix (arr [S 0, S 1, S 2, S 4, S 5, S 8]) j = S j := by
  intro j hj
  interval_cases j <;> simp [solution_matrix, arr, e1, e2, e3]

/-- The closed-form entries read only `s[0..8]`. -/
theorem unnormalise_congr (T s s' : Nat → α) (h : ∀ j, j < 9 → s j = s' j) :
    unnormalise T s = unnormalise T s' := by
  funext j
  have h0 := h 0 (by norm_num)
  have h1 := h 1 (by norm_num)
  have h2 := h 2 (by norm_num)
  have h3 := h 3 (by norm_num)
  have h4 := h 4 (by norm_num)
  have h5 := h 5 (by norm_num)
  have h6 := h 6 (by norm_num)
  have h7 := h 7 (by norm_num)
  have h8 := h 8 (by norm_num)
  unfold unnormalise
  split <;> simp only [h0, h1, h2, h3, h4, h5, h6, h7, h8]

/-- The quadratic form and the first two components of `C P` for a symmetric
`C`, in the notation of `conicValue` and `conicNormal`. -/
theorem conic_forms (C : Nat → α) (x y : α) (e1 : C 3 = C 1) (e2 : C 6 = C 2) (e3 : C 7 = C 5) :
    dot3 (arr [x, y, 1]) (matVec3 C (arr [x, y, 1])) = conicValue C x y ∧
    matVec3 C (arr [x, y, 1]) 0 = (conicNormal C x y).1 ∧
    matVec3 C (arr [x, y, 1]) 1 = (conicNormal C x y).2 := by
  refine ⟨?_, ?_, ?_⟩
  · simp [dot3, matVec3, arr, conicValue, e1, e2, e3]
    ring
  · simp [matVec3, arr, conicNormal]
  · simp [matVec3, arr, conicNormal]

/-- The scale written to `T[0]` is `SQRT2 / qmean`. -/
theorem vgg_conditioner_compute_scale (m : Libm α) (pts : Nat → α) (n : Nat) :
    vgg_conditioner_compute m pts n 0 = m.sqrt 2 / vgg_conditioner_qmean m pts n := rfl

/-- Points that are not all the same point, in the two forms used. -/
theorem not_allIdentical_iff (pts : Nat → α) (n : Nat) :
    ¬ AllIdentical pts n ↔ NotAllIdentical pts n := by
  constructor
  · intro h
    unfold AllIdentical at h
    push_neg at h
    obtain ⟨i, hi, hne⟩ := h
    refine ⟨i, 0, hi, by omega, ?_⟩
    by_cases hx : pts (2 * i) = pts 0
    · exact Or.inr (hne hx)
    · exact Or.inl hx
  · rintro ⟨i, j, hi, hj, hij⟩ hall
    obtain ⟨xi, yi⟩ := hall i hi
    obtain ⟨xj, yj⟩ := hall j hj
    rcases hij with h | h
    · exact h (xi.trans xj.symm)
    · exact h (yi.trans yj.symm)

/-- The indices of the 24 stores of one iteration, in program order, are
`idx, idx + 1, ..., idx + 23`. -/
theorem get_equations_stores_indices (idx : Nat) (px py dx dy : α) :
    (get_equations_stores idx px py dx dy).map Prod.fst
      = (List.range 24).map (fun j => idx + j) := by
  simp [get_equations_stores, List.range_succ, Nat.add_assoc]

/-- One iteration of the loop of `get_equations` performs the stores of
`get_equations_stores` at `idx = i*4*6`. -/
theorem get_equations_point_stores (vgg pts grad : Nat → α) (i : Nat) (b : Nat → α) :
    get_equations_point vgg pts grad i b
      = storeAll b (get_equations_stores (i * 4 * 6) (pnormx vgg pts i) (pnormy vgg pts i)
          (dirnormx vgg grad i) (dirnormy vgg grad i)) := rfl

/-- The loop of `get_equations` leaves every cell at or beyond `24 n`
untouched. -/
theorem get_equations_loop_frame (vgg pts grad : Nat → α) (n : Nat) (b : Nat → α) (q : Nat)
    (hq : 24 * n ≤ q) : get_equations_loop vgg pts grad n b q = b q := by
  rw [get_equations_loop_apply]
  have : ¬ q < n * 24 := by omega
  simp only [this, if_false]

/-- The Gram matrix depends only on the cells below `24 n`. -/
theorem gram_congr (eq eq' : Nat → α) (n : Nat) (h : ∀ q, q < 24 * n → eq q = eq' q) :
    gram eq n = gram eq' n := by
  funext q
  unfold gram
  split_ifs with hq
  · rw [forSum_zero, forSum_zero]
    apply Finset.sum_congr rfl
    intro k hk
    have hk' := Finset.mem_range.mp hk
    have h6 : q / 6 < 6 := by omega
    have h6' : q % 6 < 6 := Nat.mod_lt _ (by norm_num)
    rw [h (k * 6 + q / 6) (by omega), h (k * 6 + q % 6) (by omega)]
  · rfl

/-- The entry point on present arguments, a positive count with `48 N`
representable and no allocation failure: the block in use after the growth
step and what is done with it. -/
theorem ellipse_fit_with_gradients_block (m : Libm α) (dsyev : (Nat → α) → (Nat → α))
    (realloc : (Nat → α) → Nat → Option (Nat → α)) (pts grad : Nat → α) (N : Int)
    (block : Nat → α) (cap : Int) (out : Param α) (len : Nat)
    (hN : 1 ≤ N) (hmax : 48 * N ≤ 2147483647) (hcap : cap ≤ len)
    (hok : (ellipse_fit_with_gradients m dsyev realloc (some pts) (some grad) N
      (some (some block)) cap (some out)).result ≠ .error .OutOfMemory) :
    ∃ (g : Nat → α) (L : Nat),
      ((24 * N > cap ∧ realloc block (2 * N.toNat * 24) = some g ∧ L = 2 * N.toNat * 24) ∨
        (¬ 24 * N > cap ∧ g = block ∧ L = len)) ∧
      (ellipse_fit_with_gradients m dsyev realloc (some pts) (some grad) N
        (some (some block)) cap (some out)).buff
          = some (some (get_equations_loop (vgg_conditioner_compute m pts N.toNat) pts grad
              N.toNat g)) ∧
      (ellipse_fit_with_gradients m dsyev realloc (some pts) (some grad) N
        (some (some block)) cap (some out)).result
          = fit_ellipse m dsyev
              (some (get_equations_loop (vgg_conditioner_compute m pts N.toNat) pts grad
                N.toNat g))
              (some (vgg_conditioner_compute m pts N.toNat)) N (some out) ∧
      24 * N ≤ (ellipse_fit_with_gradients m dsyev realloc (some pts) (some grad) N
        (some (some block)) cap (some out)).size_buff_max ∧
      (ellipse_fit_with_gradients m dsyev realloc (some pts) (some grad) N
        (some (some block)) cap (some out)).size_buff_max ≤ L := by
  have w1 : wrapInt (N * 24) = N * 24 := by unfold wrapInt; omega
  have w2 : wrapInt (2 * N) = 2 * N := by unfold wrapInt; omega
  have w3 : wrapInt (2 * N * 24) = 2 * N * 24 := by unfold wrapInt; omega
  have hNle : ¬ N ≤ 0 := by omega
  have hfit : ∀ g : Nat → α,
      fit_ellipse m dsyev
          (some (get_equations_loop (vgg_conditioner_compute m pts N.toNat) pts grad N.toNat g))
          (some (vgg_conditioner_compute m pts N.toNat)) N (some out)
        = .ok (fit_param m dsyev pts grad N.toNat) := by
    intro g
    simp only [fit_ellipse, hNle, if_false, ellipse2param, fit_param]
    rw [fit_ellipse_conic_loop dsyev _ pts grad N.toNat g (fun _ => 0)]
  rw [ellipse_fit_with_gradients_present m dsyev realloc pts grad N hN] at hok ⊢
  rw [w1, w2, w3] at hok ⊢
  by_cases hc : N * 24 > cap
  · rw [if_pos hc] at hok ⊢
    cases hr : realloc block (2 * N.toNat * 24) with
    | none => rw [hr] at hok; exact absurd rfl hok
    | some b =>
      refine ⟨b, 2 * N.toNat * 24, Or.inl ⟨by omega, rfl, rfl⟩, rfl, (hfit b).symm, ?_, ?_⟩
      · show 24 * N ≤ 2 * N * 24
        omega
      · show 2 * N * 24 ≤ ((2 * N.toNat * 24 : Nat) : Int)
        omega
  · rw [if_neg hc]
    refine ⟨block, len, Or.inr ⟨by omega, rfl, rfl⟩, rfl, (hfit block).symm, ?_, ?_⟩
    · show 24 * N ≤ cap
      omega
    · exact hcap

end Lemmas

/-! ## Lemmas over the reals -/

section RealLemmas

/-- Half-angle facts for the rotation angle `θ = atan2(b, a - c) / 2`. -/
theorem rotation_facts (a b c : ℝ) :
    ∃ r : ℝ, 0 ≤ r ∧ r ^ 2 = (a - c) ^ 2 + b ^ 2 ∧
      r * (Real.cos (1 / 2 * libmReal.atan2 b (a - c)) ^ 2
        - Real.sin (1 / 2 * libmReal.atan2 b (a - c)) ^ 2) = a - c ∧
      r * (2 * Real.sin (1 / 2 * libmReal.atan2 b (a - c))
        * Real.cos (1 / 2 * libmReal.atan2 b (a - c))) = b := by
  set z : ℂ := Complex.mk (a - c) b with hz
  have ht : libmReal.atan2 b (a - c) = Complex.arg z := rfl
  refine ⟨Complex.abs z, by positivity, ?_, ?_, ?_⟩
  · rw [Complex.sq_abs, Complex.normSq_apply]
    simp [hz]; ring
  · have h := Complex.abs_mul_cos_arg z
    rw [ht]
    have e : Real.cos (Complex.arg z) = Real.cos (1 / 2 * Complex.arg z) ^ 2
        - Real.sin (1 / 2 * Complex.arg z) ^ 2 := by
      rw [show Complex.arg z = 2 * (1 / 2 * Complex.arg z) by ring, Real.cos_two_mul]
      have := Real.sin_sq_add_cos_sq (1 / 2 * (2 * (1 / 2 * Complex.arg z)))
      have e2 : 1 / 2 * (2 * (1 / 2 * Complex.arg z)) = 1 / 2 * Complex.arg z := by ring
      rw [e2] at this ⊢
      linarith
    rw [← e, h]
  · have h := Complex.abs_mul_sin_arg z
    rw [ht]
    have e : Real.sin (Complex.arg z) = 2 * Real.sin (1 / 2 * Complex.arg z)
        * Real.cos (1 / 2 * Complex.arg z) := by
      rw [← Real.sin_two_mul]; congr 1; ring
    rw [← e, h]


/-- Facts about the rotated coefficients of `ellipse2param`: the rotation is
orthogonal, preserves trace and determinant of the quadratic part, and removes
the cross term. -/
theorem rotated_facts (p : Nat → ℝ) :
    (ellipse2param_rotated libmReal p).cost ^ 2 + (ellipse2param_rotated libmReal p).sint ^ 2 = 1 ∧
    (ellipse2param_rotated libmReal p).Auu + (ellipse2param_rotated libmReal p).Avv = p 0 + p 4 ∧
    (ellipse2param_rotated libmReal p).Auu * (ellipse2param_rotated libmReal p).Avv
      = p 0 * p 4 - p 1 ^ 2 ∧
    2 * p 1 * ((ellipse2param_rotated libmReal p).cost ^ 2
        - (ellipse2param_rotated libmReal p).sint ^ 2)
      - (p 0 - p 4) * (2 * (ellipse2param_rotated libmReal p).sint
        * (ellipse2param_rotated libmReal p).cost) = 0 := by
  obtain ⟨ρ, _, hρ2, hc, hs⟩ := rotation_facts (p 0) (2 * p 1) (p 4)
  have h1 := Real.cos_sq_add_sin_sq (1 / 2 * libmReal.atan2 (2 * p 1) (p 0 - p 4))
  simp only [ellipse2param_rotated]
  have hC' : libmReal.cos (1 / 2 * libmReal.atan2 (2 * p 1) (p 0 - p 4))
    = Real.cos (1 / 2 * libmReal.atan2 (2 * p 1) (p 0 - p 4)) := rfl
  have hS' : libmReal.sin (1 / 2 * libmReal.atan2 (2 * p 1) (p 0 - p 4))
    = Real.sin (1 / 2 * libmReal.atan2 (2 * p 1) (p 0 - p 4)) := rfl
  rw [hC', hS']
  generalize Real.cos (1 / 2 * libmReal.atan2 (2 * p 1) (p 0 - p 4)) = C at *
  generalize Real.sin (1 / 2 * libmReal.atan2 (2 * p 1) (p 0 - p 4)) = S at *
  have hX : (p 0 * (C * C) + p 4 * (S * S) + 2 * p 1 * (S * C))
      - (p 0 * (S * S) + p 4 * (C * C) - 2 * p 1 * (S * C)) = ρ := by
    linear_combination (-(C ^ 2 - S ^ 2)) * hc - (2 * S * C) * hs + ρ * (C ^ 2 + S ^ 2 + 1) * h1
  have hsum : (p 0 * (C * C) + p 4 * (S * S) + 2 * p 1 * (S * C))
      + (p 0 * (S * S) + p 4 * (C * C) - 2 * p 1 * (S * C)) = p 0 + p 4 := by
    linear_combination (p 0 + p 4) * h1
  refine ⟨h1, hsum, ?_, ?_⟩
  · linear_combination (1 / 4) * ((p 0 * (C * C) + p 4 * (S * S) + 2 * p 1 * (S * C))
      + (p 0 * (S * S) + p 4 * (C * C) - 2 * p 1 * (S * C)) + p 0 + p 4) * hsum
      - (1 / 4) * ((p 0 * (C * C) + p 4 * (S * S) + 2 * p 1 * (S * C))
      - (p 0 * (S * S) + p 4 * (C * C) - 2 * p 1 * (S * C)) + ρ) * hX - (1 / 4) * hρ2
  · linear_combination (-(C ^ 2 - S ^ 2)) * hs + (2 * S * C) * hc

/-- The conic in the rotated and centred coordinates of `ellipse2param`. -/
theorem conic_rotated_centred (p : Nat → ℝ)
    (hAuu : (ellipse2param_rotated libmReal p).Auu ≠ 0)
    (hAvv : (ellipse2param_rotated libmReal p).Avv ≠ 0) (x y : ℝ) :
    p 0 * x ^ 2 + 2 * p 1 * x * y + p 4 * y ^ 2 + 2 * p 2 * x + 2 * p 5 * y + p 8 =
      (ellipse2param_rotated libmReal p).Auu *
        ((x - (ellipse2param_centre (ellipse2param_rotated libmReal p)).uCentre)
            * (ellipse2param_rotated libmReal p).cost
          + (y - (ellipse2param_centre (ellipse2param_rotated libmReal p)).vCentre)
            * (ellipse2param_rotated libmReal p).sint) ^ 2
      + (ellipse2param_rotated libmReal p).Avv *
        (-(x - (ellipse2param_centre (ellipse2param_rotated libmReal p)).uCentre)
            * (ellipse2param_rotated libmReal p).sint
          + (y - (ellipse2param_centre (ellipse2param_rotated libmReal p)).vCentre)
            * (ellipse2param_rotated libmReal p).cost) ^ 2
      + (ellipse2param_centre (ellipse2param_rotated libmReal p)).wCentre := by
  obtain ⟨h1, -, -, hK⟩ := rotated_facts p
  have hAu : (ellipse2param_rotated libmReal p).Au
      = 2 * p 2 * (ellipse2param_rotated libmReal p).cost
        + 2 * p 5 * (ellipse2param_rotated libmReal p).sint := rfl
  have hAv : (ellipse2param_rotated libmReal p).Av
      = -(2 * p 2) * (ellipse2param_rotated libmReal p).sint
        + 2 * p 5 * (ellipse2param_rotated libmReal p).cost := rfl
  have hAo : (ellipse2param_rotated libmReal p).Ao = p 8 := rfl
  have hAuu' : (ellipse2param_rotated libmReal p).Auu
      = p 0 * ((ellipse2param_rotated libmReal p).cost * (ellipse2param_rotated libmReal p).cost)
        + p 4 * ((ellipse2param_rotated libmReal p).sint * (ellipse2param_rotated libmReal p).sint)
        + 2 * p 1 * ((ellipse2param_rotated libmReal p).sint
          * (ellipse2param_rotated libmReal p).cost) := rfl
  have hAvv' : (ellipse2param_rotated libmReal p).Avv
      = p 0 * ((ellipse2param_rotated libmReal p).sint * (ellipse2param_rotated libmReal p).sint)
        + p 4 * ((ellipse2param_rotated libmReal p).cost * (ellipse2param_rotated libmReal p).cost)
        - 2 * p 1 * ((ellipse2param_rotated libmReal p).sint
          * (ellipse2param_rotated libmReal p).cost) := rfl
  simp only [ellipse2param_centre]
  generalize (ellipse2param_rotated libmReal p).cost = C at *
  generalize (ellipse2param_rotated libmReal p).sint = S at *
  generalize (ellipse2param_rotated libmReal p).Au = Au at *
  generalize (ellipse2param_rotated libmReal p).Av = Av at *
  generalize (ellipse2param_rotated libmReal p).Ao = Ao at *
  generalize (ellipse2param_rotated libmReal p).Auu = Auu at *
  generalize (ellipse2param_rotated libmReal p).Avv = Avv at *
  have htu : 2 * Auu * (-Au / (2 * Auu)) = -Au := by field_simp; ring
  have htv : 2 * Avv * (-Av / (2 * Avv)) = -Av := by field_simp; ring
  generalize -Au / (2 * Auu) = tu at *
  generalize -Av / (2 * Avv) = tv at *
  have hU : (x - (tu * C - tv * S)) * C + (y - (tu * S + tv * C)) * S = (x * C + y * S) - tu := by
    linear_combination (-tu) * h1
  have hV : -(x - (tu * C - tv * S)) * S + (y - (tu * S + tv * C)) * C
      = (-x * S + y * C) - tv := by
    linear_combination (-tv) * h1
  rw [hU, hV]
  have hA : p 0 * x ^ 2 + 2 * p 1 * x * y + p 4 * y ^ 2 + 2 * p 2 * x + 2 * p 5 * y + p 8 =
      Auu * (x * C + y * S) ^ 2 + Avv * (-x * S + y * C) ^ 2 + Au * (x * C + y * S)
        + Av * (-x * S + y * C) + Ao := by
    rw [hAuu', hAvv', hAu, hAv, hAo]
    linear_combination (-(p 0 * x ^ 2 + p 4 * y ^ 2 + 2 * p 1 * x * y) * (C ^ 2 + S ^ 2 + 1)
      - (2 * p 2 * x + 2 * p 5 * y)) * h1
      - (S * C * x ^ 2 - S * C * y ^ 2 - (C ^ 2 - S ^ 2) * x * y) * hK
  linear_combination hA + (x * C + y * S) * htu + (-x * S + y * C) * htv

theorem pow_half (x : ℝ) : libmReal.pow x (1 / 2) = Real.sqrt x :=
  (Real.sqrt_eq_rpow x).symm

/-- On the non-degenerate branch with positive squared radii the parameters
computed by `ellipse2param` describe the zero set of the input conic. -/
theorem ellipse2param_compute_describes_conic (p : Nat → ℝ)
    (hAuu : (ellipse2param_rotated libmReal p).Auu ≠ 0)
    (hAvv : (ellipse2param_rotated libmReal p).Avv ≠ 0)
    (hRu : 0 < (ellipse2param_centre (ellipse2param_rotated libmReal p)).Ru)
    (hRv : 0 < (ellipse2param_centre (ellipse2param_rotated libmReal p)).Rv) :
    (ellipse2param_compute libmReal p).orientation
      = 1 / 2 * libmReal.atan2 (2 * p 1) (p 0 - p 4) ∧
    ∀ x y : ℝ,
      p 0 * x ^ 2 + 2 * p 1 * x * y + p 4 * y ^ 2 + 2 * p 2 * x + 2 * p 5 * y + p 8 = 0 ↔
      ((x - (ellipse2param_compute libmReal p).centrex)
            * Real.cos (ellipse2param_compute libmReal p).orientation
          + (y - (ellipse2param_compute libmReal p).centrey)
            * Real.sin (ellipse2param_compute libmReal p).orientation) ^ 2
          / (ellipse2param_compute libmReal p).ax ^ 2
        + (-(x - (ellipse2param_compute libmReal p).centrex)
            * Real.sin (ellipse2param_compute libmReal p).orientation
          + (y - (ellipse2param_compute libmReal p).centrey)
            * Real.cos (ellipse2param_compute libmReal p).orientation) ^ 2
          / (ellipse2param_compute libmReal p).ay ^ 2 = 1 := by
  have hbr : ¬ ((ellipse2param_rotated libmReal p).Auu = 0
      ∨ (ellipse2param_rotated libmReal p).Avv = 0) := by
    rintro (h | h)
    · exact hAuu h
    · exact hAvv h
  have hcomp : ellipse2param_compute libmReal p
      = ellipse2param_else libmReal (ellipse2param_rotated libmReal p) := by
    simp only [ellipse2param_compute, hbr, if_false]
  have hax : (ellipse2param_else libmReal (ellipse2param_rotated libmReal p)).ax ^ 2
      = (ellipse2param_centre (ellipse2param_rotated libmReal p)).Ru := by
    simp only [ellipse2param_else, gt_iff_lt, hRu, if_true, pow_half]
    exact Real.sq_sqrt hRu.le
  have hay : (ellipse2param_else libmReal (ellipse2param_rotated libmReal p)).ay ^ 2
      = (ellipse2param_centre (ellipse2param_rotated libmReal p)).Rv := by
    simp only [ellipse2param_else, gt_iff_lt, hRv, if_true, pow_half]
    exact Real.sq_sqrt hRv.le
  rw [hcomp]
  refine ⟨rfl, fun x y => ?_⟩
  rw [hax, hay, conic_rotated_centred p hAuu hAvv x y]
  have hcx : (ellipse2param_else libmReal (ellipse2param_rotated libmReal p)).centrex
      = (ellipse2param_centre (ellipse2param_rotated libmReal p)).uCentre := rfl
  have hcy : (ellipse2param_else libmReal (ellipse2param_rotated libmReal p)).centrey
      = (ellipse2param_centre (ellipse2param_rotated libmReal p)).vCentre := rfl
  have hth : (ellipse2param_else libmReal (ellipse2param_rotated libmReal p)).orientation
      = (ellipse2param_rotated libmReal p).thetarad := rfl
  have hcos : Real.cos (ellipse2param_rotated libmReal p).thetarad
      = (ellipse2param_rotated libmReal p).cost := rfl
  have hsin : Real.sin (ellipse2param_rotated libmReal p).thetarad
      = (ellipse2param_rotated libmReal p).sint := rfl
  rw [hcx, hcy, hth, hcos, hsin]
  generalize ((x - (ellipse2param_centre (ellipse2param_rotated libmReal p)).uCentre)
            * (ellipse2param_rotated libmReal p).cost
          + (y - (ellipse2param_centre (ellipse2param_rotated libmReal p)).vCentre)
            * (ellipse2param_rotated libmReal p).sint) = U
  generalize (-(x - (ellipse2param_centre (ellipse2param_rotated libmReal p)).uCentre)
            * (ellipse2param_rotated libmReal p).sint
          + (y - (ellipse2param_centre (ellipse2param_rotated libmReal p)).vCentre)
            * (ellipse2param_rotated libmReal p).cost) = V
  have hRu' : (ellipse2param_centre (ellipse2param_rotated libmReal p)).Ru
      = -(ellipse2param_centre (ellipse2param_rotated libmReal p)).wCentre
        / (ellipse2param_rotated libmReal p).Auu := rfl
  have hRv' : (ellipse2param_centre (ellipse2param_rotated libmReal p)).Rv
      = -(ellipse2param_centre (ellipse2param_rotated libmReal p)).wCentre
        / (ellipse2param_rotated libmReal p).Avv := rfl
  rw [hRu'] at hRu
  rw [hRv'] at hRv
  rw [hRu', hRv']
  clear hRu' hRv' hax hay hcomp hcx hcy hth hcos hsin hbr
  generalize (ellipse2param_centre (ellipse2param_rotated libmReal p)).wCentre = w at *
  generalize (ellipse2param_rotated libmReal p).Auu = Auu at *
  generalize (ellipse2param_rotated libmReal p).Avv = Avv at *
  have hw : w ≠ 0 := by
    rintro rfl
    simp at hRu
  have hnw : -w ≠ 0 := neg_ne_zero.mpr hw
  rw [div_div_eq_mul_div, div_div_eq_mul_div, div_add_div_same, div_eq_one_iff_eq hnw]
  constructor
  · intro h; linear_combination h
  · intro h; linear_combination h

theorem atan2_zero_pos (x : ℝ) (hx : 0 ≤ x) : libmReal.atan2 0 x = 0 :=
  Complex.arg_eq_zero_iff.mpr ⟨hx, rfl⟩

theorem ellipseConic_rotated :
    (ellipse2param_rotated libmReal (ellipseConic : Nat → ℝ)).Auu = 4 ∧
    (ellipse2param_rotated libmReal (ellipseConic : Nat → ℝ)).Avv = 1 ∧
    (ellipse2param_centre (ellipse2param_rotated libmReal (ellipseConic : Nat → ℝ))).Ru = 1 ∧ 
    (ellipse2param_centre (ellipse2param_rotated libmReal (ellipseConic : Nat → ℝ))).Rv = 4 := by
  have h := atan2_zero_pos 3 (by norm_num)
  have e : (4 : ℝ) - 1 = 3 := by norm_num
  have hc : libmReal.cos 0 = 1 := Real.cos_zero
  have hs : libmReal.sin 0 = 0 := Real.sin_zero
  simp only [ellipse2param_centre, ellipse2param_rotated, ellipseConic, arr, List.getD_cons_zero, List.getD_cons_succ, mul_zero, e, h, hc, hs]
  norm_num

/-- Sums of the translated and scaled coordinates. -/
theorem sum_similarity_even (k tx ty : ℝ) (pts : Nat → ℝ) (n : Nat) :
    ∑ i in Finset.range n, similarityPts k tx ty pts (2 * i)
      = k * ∑ i in Finset.range n, pts (2 * i) + n * tx := by
  have e0 : ∀ i, (2 * i) % 2 = 0 := fun i => by omega
  simp only [similarityPts, e0, if_true, Finset.sum_add_distrib, ← Finset.mul_sum,
    Finset.sum_const, Finset.card_range, nsmul_eq_mul]

theorem sum_similarity_odd (k tx ty : ℝ) (pts : Nat → ℝ) (n : Nat) :
    ∑ i in Finset.range n, similarityPts k tx ty pts (2 * i + 1)
      = k * ∑ i in Finset.range n, pts (2 * i + 1) + n * ty := by
  have e1 : ∀ i, ¬ (2 * i + 1) % 2 = 0 := fun i => by omega
  simp only [similarityPts, e1, if_false, Finset.sum_add_distrib, ← Finset.mul_sum,
    Finset.sum_const, Finset.card_range, nsmul_eq_mul]

theorem sqrt_scaled (k s : ℝ) (hk : 0 < k) : Real.sqrt (k ^ 2 * s) = k * Real.sqrt s := by
  rw [Real.sqrt_mul (sq_nonneg k), Real.sqrt_sq hk.le]

/-- The normaliser of the points `k * p_i + (tx, ty)`: `T' = T * M⁻¹`. -/
theorem vgg_conditioner_similarity (k tx ty : ℝ) (hk : 0 < k) (pts : Nat → ℝ) (n : Nat)
    (hn : 0 < n) :
    vgg_conditioner_compute libmReal (similarityPts k tx ty pts) n 0
        = vgg_conditioner_compute libmReal pts n 0 / k ∧
    vgg_conditioner_compute libmReal (similarityPts k tx ty pts) n 4
        = vgg_conditioner_compute libmReal pts n 4 / k ∧
    vgg_conditioner_compute libmReal (similarityPts k tx ty pts) n 2
        = vgg_conditioner_compute libmReal pts n 2
          - vgg_conditioner_compute libmReal pts n 0 * tx / k ∧
    vgg_conditioner_compute libmReal (similarityPts k tx ty pts) n 5
        = vgg_conditioner_compute libmReal pts n 5
          - vgg_conditioner_compute libmReal pts n 4 * ty / k := by
  have hn0 : (n : ℝ) ≠ 0 := Nat.cast_ne_zero.mpr (by omega)
  have hk0 : k ≠ 0 := hk.ne'
  have e0 : ∀ i, (2 * i) % 2 = 0 := fun i => by omega
  have e1 : ∀ i, ¬ (2 * i + 1) % 2 = 0 := fun i => by omega
  have hmx : (∑ i in Finset.range n, similarityPts k tx ty pts (2 * i)) / (n : ℝ)
      = k * ((∑ i in Finset.range n, pts (2 * i)) / (n : ℝ)) + tx := by
    rw [sum_similarity_even]; field_simp; ring
  have hmy : (∑ i in Finset.range n, similarityPts k tx ty pts (2 * i + 1)) / (n : ℝ)
      = k * ((∑ i in Finset.range n, pts (2 * i + 1)) / (n : ℝ)) + ty := by
    rw [sum_similarity_odd]; field_simp; ring
  have hvx : ∀ mx : ℝ, ∑ i in Finset.range n,
      (similarityPts k tx ty pts (2 * i) - (k * mx + tx))
        * (similarityPts k tx ty pts (2 * i) - (k * mx + tx))
      = k ^ 2 * ∑ i in Finset.range n, (pts (2 * i) - mx) * (pts (2 * i) - mx) := by
    intro mx
    rw [Finset.mul_sum]
    apply Finset.sum_congr rfl
    intro i _
    simp only [similarityPts, e0, if_true]
    ring
  have hvy : ∀ my : ℝ, ∑ i in Finset.range n,
      (similarityPts k tx ty pts (2 * i + 1) - (k * my + ty))
        * (similarityPts k tx ty pts (2 * i + 1) - (k * my + ty))
      = k ^ 2 * ∑ i in Finset.range n, (pts (2 * i + 1) - my) * (pts (2 * i + 1) - my) := by
    intro my
    rw [Finset.mul_sum]
    apply Finset.sum_congr rfl
    intro i _
    simp only [similarityPts, e1, if_false]
    ring
  have hs : ∀ x : ℝ, libmReal.sqrt x = Real.sqrt x := fun _ => rfl
  simp only [vgg_conditioner_compute, forSum_zero, hmx, hmy, hvx, hvy, hs, sqrt_scaled _ _ hk]
  generalize Real.sqrt (∑ i in Finset.range n, (pts (2 * i)
    - (∑ i in Finset.range n, pts (2 * i)) / (n : ℝ)) * (pts (2 * i)
    - (∑ i in Finset.range n, pts (2 * i)) / (n : ℝ))) = vx
  generalize Real.sqrt (∑ i in Finset.range n, (pts (2 * i + 1)
    - (∑ i in Finset.range n, pts (2 * i + 1)) / (n : ℝ)) * (pts (2 * i + 1)
    - (∑ i in Finset.range n, pts (2 * i + 1)) / (n : ℝ))) = vy
  generalize (∑ i in Finset.range n, pts (2 * i)) / (n : ℝ) = mx
  generalize (∑ i in Finset.range n, pts (2 * i + 1)) / (n : ℝ) = my
  have hq : (k * vx + k * vy) / 2 = k * ((vx + vy) / 2) := by ring
  rw [hq]
  generalize (vx + vy) / 2 = qm
  have hval : Real.sqrt 2 / (k * qm) = Real.sqrt 2 / qm / k := by
    rw [div_div, mul_comm]
  rw [hval]
  generalize Real.sqrt 2 / qm = val
  refine ⟨rfl, rfl, ?_, ?_⟩
  · field_simp; ring
  · field_simp; ring


/-- The stores made for a point are those of the original input. -/
theorem get_equations_point_similarity (k tx ty : ℝ) (hk : 0 < k) (pts grad : Nat → ℝ) (n : Nat)
    (hn : 0 < n) (i : Nat) (buff : Nat → ℝ) :
    get_equations_point (vgg_conditioner_compute libmReal (similarityPts k tx ty pts) n)
        (similarityPts k tx ty pts) (scaledGrads k grad) i buff
      = get_equations_point (vgg_conditioner_compute libmReal pts n) pts grad i buff := by
  obtain ⟨h0, h4, h2, h5⟩ := vgg_conditioner_similarity k tx ty hk pts n hn
  obtain ⟨z1, z3, -, -, -, -⟩ := vgg_conditioner_compute_zeros libmReal pts n
  obtain ⟨y1, y3, -, -, -, -⟩ :=
    vgg_conditioner_compute_zeros libmReal (similarityPts k tx ty pts) n
  have hk0 : k ≠ 0 := hk.ne'
  have e0 : (2 * i) % 2 = 0 := by omega
  have e1 : ¬ (2 * i + 1) % 2 = 0 := by omega
  have p0 : similarityPts k tx ty pts (2 * i) = k * pts (2 * i) + tx := by
    simp only [similarityPts, e0, if_true]
  have p1 : similarityPts k tx ty pts (2 * i + 1) = k * pts (2 * i + 1) + ty := by
    simp only [similarityPts, e1, if_false]
  have g0 : scaledGrads k grad (2 * i) = k * grad (2 * i) := rfl
  have g1 : scaledGrads k grad (2 * i + 1) = k * grad (2 * i + 1) := rfl
  unfold get_equations_point pnormx pnormy dirnormx dirnormy
  simp only [p0, p1, g0, g1]
  generalize vgg_conditioner_compute libmReal (similarityPts k tx ty pts) n = T' at *
  generalize vgg_conditioner_compute libmReal pts n = T at *
  rw [h0, h4, h2, h5, z1, z3, y1, y3]
  have hx : T 0 / k * (k * pts (2 * i) + tx) + 0 * (k * pts (2 * i + 1) + ty)
      + (T 2 - T 0 * tx / k) = T 0 * pts (2 * i) + 0 * pts (2 * i + 1) + T 2 := by
    field_simp; ring
  have hy : 0 * (k * pts (2 * i) + tx) + T 4 / k * (k * pts (2 * i + 1) + ty)
      + (T 5 - T 4 * ty / k) = 0 * pts (2 * i) + T 4 * pts (2 * i + 1) + T 5 := by
    field_simp; ring
  have hdx : -(T 0 / k) * (k * grad (2 * i + 1)) + 0 * (k * grad (2 * i))
      = -T 0 * grad (2 * i + 1) + 0 * grad (2 * i) := by
    field_simp; ring
  have hdy : -0 * (k * grad (2 * i + 1)) + T 4 / k * (k * grad (2 * i))
      = -0 * grad (2 * i + 1) + T 4 * grad (2 * i) := by
    field_simp; ring
  rw [hx, hy, hdx, hdy]

theorem get_equations_loop_similarity (k tx ty : ℝ) (hk : 0 < k) (pts grad : Nat → ℝ) (n : Nat)
    (hn : 0 < n) (buff : Nat → ℝ) :
    get_equations_loop (vgg_conditioner_compute libmReal (similarityPts k tx ty pts) n)
        (similarityPts k tx ty pts) (scaledGrads k grad) n buff
      = get_equations_loop (vgg_conditioner_compute libmReal pts n) pts grad n buff := by
  have h : (fun b i => get_equations_point
        (vgg_conditioner_compute libmReal (similarityPts k tx ty pts) n)
        (similarityPts k tx ty pts) (scaledGrads k grad) i b)
      = (fun b i => get_equations_point (vgg_conditioner_compute libmReal pts n) pts grad i b) := by
    funext b i
    exact get_equations_point_similarity k tx ty hk pts grad n hn i b
  unfold get_equations_loop
  rw [h]

theorem atan2_scale (y x s : ℝ) (hs : 0 < s) : libmReal.atan2 (s * y) (s * x) = libmReal.atan2 y x := by
  show Complex.arg (Complex.mk (s * x) (s * y)) = Complex.arg (Complex.mk x y)
  have : Complex.mk (s * x) (s * y) = (s : ℂ) * Complex.mk x y := by
    apply Complex.ext <;> simp
  rw [this, Complex.arg_real_mul _ hs]

/-- Quadratic part of a conic in rotated coordinates. -/
theorem quad_rotated (a b c C S Auu Avv : ℝ) (h1 : C ^ 2 + S ^ 2 = 1)
    (hK : 2 * b * (C ^ 2 - S ^ 2) - (a - c) * (2 * S * C) = 0)
    (hAuu : Auu = a * (C * C) + c * (S * S) + 2 * b * (S * C))
    (hAvv : Avv = a * (S * S) + c * (C * C) - 2 * b * (S * C)) (x y : ℝ) :
    a * x ^ 2 + 2 * b * x * y + c * y ^ 2
      = Auu * (x * C + y * S) ^ 2 + Avv * (-x * S + y * C) ^ 2 := by
  rw [hAuu, hAvv]
  linear_combination (-(a * x ^ 2 + c * y ^ 2 + 2 * b * x * y) * (C ^ 2 + S ^ 2 + 1)) * h1
      - (S * C * x ^ 2 - S * C * y ^ 2 - (C ^ 2 - S ^ 2) * x * y) * hK

/-- Polar forms of `quad_rotated` against the two rotated axes. -/
theorem polar_rotated (a b c C S Auu Avv : ℝ) (h1 : C ^ 2 + S ^ 2 = 1)
    (hK : 2 * b * (C ^ 2 - S ^ 2) - (a - c) * (2 * S * C) = 0)
    (hAuu : Auu = a * (C * C) + c * (S * S) + 2 * b * (S * C))
    (hAvv : Avv = a * (S * S) + c * (C * C) - 2 * b * (S * C)) (x y : ℝ) :
    (a * x + b * y) * C + (b * x + c * y) * S = Auu * (x * C + y * S) ∧
    -(a * x + b * y) * S + (b * x + c * y) * C = Avv * (-x * S + y * C) := by
  have q1 := quad_rotated a b c C S Auu Avv h1 hK hAuu hAvv (x + C) (y + S)
  have q2 := quad_rotated a b c C S Auu Avv h1 hK hAuu hAvv x y
  have q3 := quad_rotated a b c C S Auu Avv h1 hK hAuu hAvv C S
  have q4 := quad_rotated a b c C S Auu Avv h1 hK hAuu hAvv (x - S) (y + C)
  have q5 := quad_rotated a b c C S Auu Avv h1 hK hAuu hAvv (-S) C
  constructor
  · linear_combination (1 / 2) * q1 - (1 / 2) * q2 - (1 / 2) * q3
      + Auu * (x * C + y * S) * h1
  · linear_combination (1 / 2) * q4 - (1 / 2) * q2 - (1 / 2) * q5
      + Avv * (-x * S + y * C) * h1

theorem rotated_similarity (k tx ty : ℝ) (hk : 0 < k) (p p' : Nat → ℝ)
    (h : ConicSimilar k tx ty p p') :
    (ellipse2param_rotated libmReal p').thetarad = (ellipse2param_rotated libmReal p).thetarad ∧
    (ellipse2param_rotated libmReal p').cost = (ellipse2param_rotated libmReal p).cost ∧
    (ellipse2param_rotated libmReal p').sint = (ellipse2param_rotated libmReal p).sint ∧
    (ellipse2param_rotated libmReal p').Auu = (ellipse2param_rotated libmReal p).Auu / k ^ 2 ∧
    (ellipse2param_rotated libmReal p').Avv = (ellipse2param_rotated libmReal p).Avv / k ^ 2 ∧
    (ellipse2param_rotated libmReal p').Au = (ellipse2param_rotated libmReal p).Au / k
      - 2 * (ellipse2param_rotated libmReal p).Auu
        * (tx * (ellipse2param_rotated libmReal p).cost
          + ty * (ellipse2param_rotated libmReal p).sint) / k ^ 2 ∧
    (ellipse2param_rotated libmReal p').Av = (ellipse2param_rotated libmReal p).Av / k
      - 2 * (ellipse2param_rotated libmReal p).Avv
        * (-tx * (ellipse2param_rotated libmReal p).sint
          + ty * (ellipse2param_rotated libmReal p).cost) / k ^ 2 ∧
    (ellipse2param_rotated libmReal p').Ao = (ellipse2param_rotated libmReal p).Ao
      - ((ellipse2param_rotated libmReal p).Au
          * (tx * (ellipse2param_rotated libmReal p).cost
            + ty * (ellipse2param_rotated libmReal p).sint)
        + (ellipse2param_rotated libmReal p).Av
          * (-tx * (ellipse2param_rotated libmReal p).sint
            + ty * (ellipse2param_rotated libmReal p).cost)) / k
      + ((ellipse2param_rotated libmReal p).Auu
          * (tx * (ellipse2param_rotated libmReal p).cost
            + ty * (ellipse2param_rotated libmReal p).sint) ^ 2
        + (ellipse2param_rotated libmReal p).Avv
          * (-tx * (ellipse2param_rotated libmReal p).sint
            + ty * (ellipse2param_rotated libmReal p).cost) ^ 2) / k ^ 2 := by
  obtain ⟨h0, h1, h4, h2, h5, h8⟩ := h
  have hk0 : k ≠ 0 := hk.ne'
  have hk2 : (0 : ℝ) < 1 / k ^ 2 := by positivity
  obtain ⟨hcs, -, -, hK⟩ := rotated_facts p
  have hth : (ellipse2param_rotated libmReal p').thetarad
      = (ellipse2param_rotated libmReal p).thetarad := by
    simp only [ellipse2param_rotated, h0, h1, h4]
    have e1 : 2 * (p 1 / k ^ 2) = 1 / k ^ 2 * (2 * p 1) := by ring
    have e2 : p 0 / k ^ 2 - p 4 / k ^ 2 = 1 / k ^ 2 * (p 0 - p 4) := by ring
    rw [e1, e2, atan2_scale _ _ _ hk2]
  have hcos : (ellipse2param_rotated libmReal p').cost = (ellipse2param_rotated libmReal p).cost :=
    congrArg libmReal.cos hth
  have hsin : (ellipse2param_rotated libmReal p').sint = (ellipse2param_rotated libmReal p).sint :=
    congrArg libmReal.sin hth
  have dAuu : ∀ q : Nat → ℝ, (ellipse2param_rotated libmReal q).Auu
      = q 0 * ((ellipse2param_rotated libmReal q).cost * (ellipse2param_rotated libmReal q).cost)
        + q 4 * ((ellipse2param_rotated libmReal q).sint * (ellipse2param_rotated libmReal q).sint)
        + 2 * q 1 * ((ellipse2param_rotated libmReal q).sint
          * (ellipse2param_rotated libmReal q).cost) := fun _ => rfl
  have dAvv : ∀ q : Nat → ℝ, (ellipse2param_rotated libmReal q).Avv
      = q 0 * ((ellipse2param_rotated libmReal q).sint * (ellipse2param_rotated libmReal q).sint)
        + q 4 * ((ellipse2param_rotated libmReal q).cost * (ellipse2param_rotated libmReal q).cost)
        - 2 * q 1 * ((ellipse2param_rotated libmReal q).sint
          * (ellipse2param_rotated libmReal q).cost) := fun _ => rfl
  have dAu : ∀ q : Nat → ℝ, (ellipse2param_rotated libmReal q).Au
      = 2 * q 2 * (ellipse2param_rotated libmReal q).cost
        + 2 * q 5 * (ellipse2param_rotated libmReal q).sint := fun _ => rfl
  have dAv : ∀ q : Nat → ℝ, (ellipse2param_rotated libmReal q).Av
      = -(2 * q 2) * (ellipse2param_rotated libmReal q).sint
        + 2 * q 5 * (ellipse2param_rotated libmReal q).cost := fun _ => rfl
  have dAo : ∀ q : Nat → ℝ, (ellipse2param_rotated libmReal q).Ao = q 8 := fun _ => rfl
  have hquad := quad_rotated (p 0) (p 1) (p 4) _ _ _ _ hcs hK (dAuu p) (dAvv p) tx ty
  obtain ⟨hpu, hpv⟩ := polar_rotated (p 0) (p 1) (p 4) _ _ _ _ hcs hK (dAuu p) (dAvv p) tx ty
  have eAuu : (ellipse2param_rotated libmReal p').Auu
      = (ellipse2param_rotated libmReal p).Auu / k ^ 2 := by
    rw [dAuu p', dAuu p, hcos, hsin, h0, h1, h4]; ring
  have eAvv : (ellipse2param_rotated libmReal p').Avv
      = (ellipse2param_rotated libmReal p).Avv / k ^ 2 := by
    rw [dAvv p', dAvv p, hcos, hsin, h0, h1, h4]; ring
  refine ⟨hth, hcos, hsin, eAuu, eAvv, ?_, ?_, ?_⟩
  · rw [dAu p', dAu p, hcos, hsin, h2, h5]
    generalize (ellipse2param_rotated libmReal p).cost = C at *
    generalize (ellipse2param_rotated libmReal p).sint = S at *
    generalize (ellipse2param_rotated libmReal p).Auu = Auu at *
    linear_combination (-2 / k ^ 2) * hpu
  · rw [dAv p', dAv p, hcos, hsin, h2, h5]
    generalize (ellipse2param_rotated libmReal p).cost = C at *
    generalize (ellipse2param_rotated libmReal p).sint = S at *
    generalize (ellipse2param_rotated libmReal p).Avv = Avv at *
    linear_combination (-2 / k ^ 2) * hpv
  · rw [dAo p', dAo p, dAu p, dAv p, h8]
    generalize (ellipse2param_rotated libmReal p).cost = C at *
    generalize (ellipse2param_rotated libmReal p).sint = S at *
    generalize (ellipse2param_rotated libmReal p).Auu = Auu at *
    generalize (ellipse2param_rotated libmReal p).Avv = Avv at *
    linear_combination (1 / k ^ 2) * hquad + (2 * (tx * p 2 + ty * p 5) / k) * hcs

theorem centre_similarity (k tx ty : ℝ) (hk : 0 < k) (p p' : Nat → ℝ)
    (h : ConicSimilar k tx ty p p')
    (hAuu : (ellipse2param_rotated libmReal p).Auu ≠ 0)
    (hAvv : (ellipse2param_rotated libmReal p).Avv ≠ 0) :
    (ellipse2param_centre (ellipse2param_rotated libmReal p')).uCentre
      = k * (ellipse2param_centre (ellipse2param_rotated libmReal p)).uCentre + tx ∧
    (ellipse2param_centre (ellipse2param_rotated libmReal p')).vCentre
      = k * (ellipse2param_centre (ellipse2param_rotated libmReal p)).vCentre + ty ∧
    (ellipse2param_centre (ellipse2param_rotated libmReal p')).Ru
      = k ^ 2 * (ellipse2param_centre (ellipse2param_rotated libmReal p)).Ru ∧
    (ellipse2param_centre (ellipse2param_rotated libmReal p')).Rv
      = k ^ 2 * (ellipse2param_centre (ellipse2param_rotated libmReal p)).Rv := by
  obtain ⟨-, hcos, hsin, eAuu, eAvv, eAu, eAv, eAo⟩ := rotated_similarity k tx ty hk p p' h
  obtain ⟨hcs, -, -, -⟩ := rotated_facts p
  have hk0 : k ≠ 0 := hk.ne'
  simp only [ellipse2param_centre, hcos, hsin, eAuu, eAvv, eAu, eAv, eAo]
  generalize (ellipse2param_rotated libmReal p).cost = C at *
  generalize (ellipse2param_rotated libmReal p).sint = S at *
  generalize (ellipse2param_rotated libmReal p).Auu = Auu at *
  generalize (ellipse2param_rotated libmReal p).Avv = Avv at *
  generalize (ellipse2param_rotated libmReal p).Au = Au at *
  generalize (ellipse2param_rotated libmReal p).Av = Av at *
  generalize (ellipse2param_rotated libmReal p).Ao = Ao at *
  have htu : -(Au / k - 2 * Auu * (tx * C + ty * S) / k ^ 2) / (2 * (Auu / k ^ 2))
      = k * (-Au / (2 * Auu)) + (tx * C + ty * S) := by
    field_simp; ring
  have htv : -(Av / k - 2 * Avv * (-tx * S + ty * C) / k ^ 2) / (2 * (Avv / k ^ 2))
      = k * (-Av / (2 * Avv)) + (-tx * S + ty * C) := by
    field_simp; ring
  rw [htu, htv]
  have hu2 : 2 * Auu * (-Au / (2 * Auu)) = -Au := by field_simp; ring
  have hv2 : 2 * Avv * (-Av / (2 * Avv)) = -Av := by field_simp; ring
  generalize -Au / (2 * Auu) = tu at *
  generalize -Av / (2 * Avv) = tv at *
  have hw : Ao - (Au * (tx * C + ty * S) + Av * (-tx * S + ty * C)) / k
        + (Auu * (tx * C + ty * S) ^ 2 + Avv * (-tx * S + ty * C) ^ 2) / k ^ 2
        - Auu / k ^ 2 * (k * tu + (tx * C + ty * S)) * (k * tu + (tx * C + ty * S))
        - Avv / k ^ 2 * (k * tv + (-tx * S + ty * C)) * (k * tv + (-tx * S + ty * C))
      = Ao - Auu * tu * tu - Avv * tv * tv := by
    have hik : k * k⁻¹ = 1 := mul_inv_cancel₀ hk0
    simp only [div_eq_mul_inv, ← inv_pow]
    generalize k⁻¹ = ik at *
    linear_combination (-Auu * tu ^ 2 * (k * ik + 1) - 2 * ik * (tx * C + ty * S) * Auu * tu
        - Avv * tv ^ 2 * (k * ik + 1) - 2 * ik * (-tx * S + ty * C) * Avv * tv) * hik
      - ik * (tx * C + ty * S) * hu2 - ik * (-tx * S + ty * C) * hv2
  rw [hw]
  refine ⟨?_, ?_, ?_, ?_⟩
  · linear_combination tx * hcs
  · linear_combination ty * hcs
  · field_simp; ring
  · field_simp; ring

/-- Covariance of `ellipse2param` on its non-degenerate branch. -/
theorem ellipse2param_compute_similarity (k tx ty : ℝ) (hk : 0 < k) (p p' : Nat → ℝ)
    (h : ConicSimilar k tx ty p p')
    (hAuu : (ellipse2param_rotated libmReal p).Auu ≠ 0)
    (hAvv : (ellipse2param_rotated libmReal p).Avv ≠ 0) :
    ellipse2param_compute libmReal p' =
      { centrex := k * (ellipse2param_compute libmReal p).centrex + tx
        centrey := k * (ellipse2param_compute libmReal p).centrey + ty
        ax := k * (ellipse2param_compute libmReal p).ax
        ay := k * (ellipse2param_compute libmReal p).ay
        orientation := (ellipse2param_compute libmReal p).orientation } := by
  obtain ⟨hth, -, -, eAuu, eAvv, -, -, -⟩ := rotated_similarity k tx ty hk p p' h
  obtain ⟨hu, hv, hRu, hRv⟩ := centre_similarity k tx ty hk p p' h hAuu hAvv
  have hk0 : k ≠ 0 := hk.ne'
  have hk2 : (0 : ℝ) < k ^ 2 := by positivity
  have hbr : ¬ ((ellipse2param_rotated libmReal p).Auu = 0
      ∨ (ellipse2param_rotated libmReal p).Avv = 0) := by
    rintro (h | h)
    · exact hAuu h
    · exact hAvv h
  have hbr' : ¬ ((ellipse2param_rotated libmReal p').Auu = 0
      ∨ (ellipse2param_rotated libmReal p').Avv = 0) := by
    rw [eAuu, eAvv]
    rintro (h | h)
    · exact hAuu (by simpa [hk0] using h)
    · exact hAvv (by simpa [hk0] using h)
  have hsigned : ∀ R : ℝ,
      (if k ^ 2 * R > 0 then libmReal.pow (k ^ 2 * R) (1 / 2)
        else -libmReal.pow (-(k ^ 2 * R)) (1 / 2))
      = k * (if R > 0 then libmReal.pow R (1 / 2) else -libmReal.pow (-R) (1 / 2)) := by
    intro R
    have hpos : k ^ 2 * R > 0 ↔ R > 0 := ⟨fun h => by
      by_contra hR
      have : k ^ 2 * R ≤ 0 := mul_nonpos_of_nonneg_of_nonpos hk2.le (not_lt.mp hR)
      linarith, fun h => mul_pos hk2 h⟩
    by_cases hR : R > 0
    · rw [if_pos hR, if_pos (hpos.mpr hR), pow_half, pow_half, sqrt_scaled k R hk]
    · have hR' : ¬ k ^ 2 * R > 0 := fun h => hR (hpos.mp h)
      rw [if_neg hR, if_neg hR', pow_half, pow_half,
        show -(k ^ 2 * R) = k ^ 2 * (-R) by ring, sqrt_scaled k (-R) hk]
      ring
  simp only [ellipse2param_compute, hbr, hbr', if_false, ellipse2param_else, hu, hv, hRu, hRv,
    hth, hsigned]

/-- The entries of `unnormalise` read by `ellipse2param`, for a transform with
`T[1] = T[3] = 0` and a symmetric `s`. -/
theorem unnormalise_entries (T s : Nat → ℝ) (hT1 : T 1 = 0) (hT3 : T 3 = 0)
    (hs1 : s 3 = s 1) (hs2 : s 6 = s 2) (hs5 : s 7 = s 5) :
    unnormalise T s 0 = T 0 * T 0 * s 0 ∧
    unnormalise T s 1 = T 0 * T 4 * s 1 ∧
    unnormalise T s 4 = T 4 * T 4 * s 4 ∧
    unnormalise T s 2 = T 0 * (T 2 * s 0 + T 5 * s 1 + s 2) ∧
    unnormalise T s 5 = T 4 * (T 2 * s 1 + T 5 * s 4 + s 5) ∧
    unnormalise T s 8 = T 2 * T 2 * s 0 + 2 * T 2 * T 5 * s 1 + T 5 * T 5 * s 4
      + 2 * T 2 * s 2 + 2 * T 5 * s 5 + s 8 := by
  refine ⟨?_, ?_, ?_, ?_, ?_, ?_⟩
  · show T 0 * T 0 * s 0 + T 0 * T 3 * s 3 + T 0 * T 3 * s 1 + T 3 * T 3 * s 4 = _
    rw [hT3]; ring
  · show T 0 * T 1 * s 0 + T 1 * T 3 * s 3 + T 0 * T 4 * s 1 + T 3 * T 4 * s 4 = _
    rw [hT1, hT3]; ring
  · show T 1 * T 1 * s 0 + T 1 * T 4 * s 3 + T 1 * T 4 * s 1 + T 4 * T 4 * s 4 = _
    rw [hT1]; ring
  · show T 0 * T 2 * s 0 + T 2 * T 3 * s 3 + T 0 * T 5 * s 1 + T 3 * T 5 * s 4 + T 0 * s 2
      + T 3 * s 5 = _
    rw [hT3]; ring
  · show T 1 * T 2 * s 0 + T 2 * T 4 * s 3 + T 1 * T 5 * s 1 + T 4 * T 5 * s 4 + T 1 * s 2
      + T 4 * s 5 = _
    rw [hT1, hs1]; ring
  · show T 2 * T 2 * s 0 + T 2 * T 5 * s 3 + T 2 * s 6 + T 2 * T 5 * s 1 + T 5 * T 5 * s 4
      + T 5 * s 7 + T 2 * s 2 + T 5 * s 5 + s 8 = _
    rw [hs1, hs2, hs5]; ring

/-- The closed-form `C = T' * s * T` under `T' = T * M⁻¹`. -/
theorem unnormalise_similarity (k tx ty : ℝ) (T T' s : Nat → ℝ)
    (hT1 : T 1 = 0) (hT3 : T 3 = 0) (hT4 : T 4 = T 0)
    (hT1' : T' 1 = 0) (hT3' : T' 3 = 0)
    (h0 : T' 0 = T 0 / k) (h4 : T' 4 = T 4 / k)
    (h2 : T' 2 = T 2 - T 0 * tx / k) (h5 : T' 5 = T 5 - T 4 * ty / k)
    (hs1 : s 3 = s 1) (hs2 : s 6 = s 2) (hs5 : s 7 = s 5) :
    ConicSimilar k tx ty (unnormalise T s) (unnormalise T' s) := by
  obtain ⟨a0, a1, a4, a2, a5, a8⟩ := unnormalise_entries T s hT1 hT3 hs1 hs2 hs5
  obtain ⟨b0, b1, b4, b2, b5, b8⟩ := unnormalise_entries T' s hT1' hT3' hs1 hs2 hs5
  unfold ConicSimilar
  rw [a0, a1, a4, a2, a5, a8, b0, b1, b4, b2, b5, b8, h0, h4, h2, h5, hT4]
  generalize T 0 = v
  generalize T 2 = t2
  generalize T 5 = t5
  generalize s 0 = s0
  generalize s 1 = s1
  generalize s 2 = s2
  generalize s 4 = s4
  generalize s 5 = s5
  generalize s 8 = s8
  refine ⟨?_, ?_, ?_, ?_, ?_, ?_⟩ <;> ring

/-- The value written by a successful fit transforms with the similarity. -/
theorem fit_param_similarity (dsyev : (Nat → ℝ) → (Nat → ℝ)) (k tx ty : ℝ) (hk : 0 < k)
    (pts grad : Nat → ℝ) (n : Nat) (hn : 0 < n)
    (hsent : fit_param libmReal dsyev pts grad n ≠ ⟨0, 0, 0, 0, 0⟩) :
    fit_param libmReal dsyev (similarityPts k tx ty pts) (scaledGrads k grad) n =
      { centrex := k * (fit_param libmReal dsyev pts grad n).centrex + tx
        centrey := k * (fit_param libmReal dsyev pts grad n).centrey + ty
        ax := k * (fit_param libmReal dsyev pts grad n).ax
        ay := k * (fit_param libmReal dsyev pts grad n).ay
        orientation := (fit_param libmReal dsyev pts grad n).orientation } := by
  obtain ⟨h0, h4, h2, h5⟩ := vgg_conditioner_similarity k tx ty hk pts n hn
  obtain ⟨z1, z3, -, -, -, z4⟩ := vgg_conditioner_compute_zeros libmReal pts n
  obtain ⟨y1, y3, -, -, -, -⟩ :=
    vgg_conditioner_compute_zeros libmReal (similarityPts k tx ty pts) n
  have hloop := get_equations_loop_similarity k tx ty hk pts grad n hn (fun _ => 0)
  have hsim := unnormalise_similarity k tx ty _ _
    (solution_matrix (dsyev (gram (get_equations_loop (vgg_conditioner_compute libmReal pts n)
      pts grad n (fun _ => 0)) n))) z1 z3 z4 y1 y3 h0 h4 h2 h5 rfl rfl rfl
  have hfp : ∀ (P G : Nat → ℝ), fit_param libmReal dsyev P G n
      = ellipse2param_compute libmReal (unnormalise (vgg_conditioner_compute libmReal P n)
          (solution_matrix (dsyev (gram (get_equations_loop (vgg_conditioner_compute libmReal P n)
            P G n (fun _ => 0)) n)))) := fun _ _ => rfl
  rw [hfp] at hsent
  rw [hfp, hfp, hloop]
  generalize unnormalise (vgg_conditioner_compute libmReal pts n)
    (solution_matrix (dsyev (gram (get_equations_loop (vgg_conditioner_compute libmReal pts n)
      pts grad n (fun _ => 0)) n))) = p at hsim hsent ⊢
  generalize unnormalise (vgg_conditioner_compute libmReal (similarityPts k tx ty pts) n)
    (solution_matrix (dsyev (gram (get_equations_loop (vgg_conditioner_compute libmReal pts n)
      pts grad n (fun _ => 0)) n))) = p' at hsim ⊢
  have hnd : (ellipse2param_rotated libmReal p).Auu ≠ 0
      ∧ (ellipse2param_rotated libmReal p).Avv ≠ 0 := by
    by_contra hcon
    have hor : (ellipse2param_rotated libmReal p).Auu = 0
        ∨ (ellipse2param_rotated libmReal p).Avv = 0 := by
      by_contra hno
      exact hcon ⟨fun h => hno (Or.inl h), fun h => hno (Or.inr h)⟩
    apply hsent
    simp only [ellipse2param_compute, hor, if_true]
  exact ellipse2param_compute_similarity k tx ty hk p p' hsim hnd.1 hnd.2

/-- The normalisation matrix of the two points (0,0), (2,0). -/
theorem twoPts_vgg :
    vgg_conditioner_compute libmReal (twoPts : Nat → ℝ) 2 0 = 2 ∧
    vgg_conditioner_compute libmReal (twoPts : Nat → ℝ) 2 2 = -2 ∧
    vgg_conditioner_compute libmReal (twoPts : Nat → ℝ) 2 5 = 0 := by
  have h2 : Real.sqrt 2 ≠ 0 := by positivity
  have e1 : ((0 : ℝ) + 2) / 2 = 1 := by norm_num
  have e2 : ((0 : ℝ) - 1) * (0 - 1) + (2 - 1) * (2 - 1) = 2 := by norm_num
  have hs : ∀ x : ℝ, libmReal.sqrt x = Real.sqrt x := fun _ => rfl
  simp only [vgg_conditioner_compute, forSum, List.range_succ, List.range_zero, List.nil_append,
    List.foldl_cons, List.foldl_nil, List.cons_append, twoPts, arr, hs]
  norm_num [e1, e2]

/-- The centre abscissa fitted to the two points (0,0), (2,0) when the solver
returns the unit circle. -/
theorem twoPts_fit_centrex :
    (fit_param libmReal constSolver (twoPts : Nat → ℝ) twoGrads 2).centrex = 1 := by
  obtain ⟨t0, t2, t5⟩ := twoPts_vgg
  obtain ⟨z1, z3, -, -, -, z4⟩ := vgg_conditioner_compute_zeros libmReal (twoPts : Nat → ℝ) 2
  have hfp : fit_param libmReal constSolver (twoPts : Nat → ℝ) twoGrads 2
      = ellipse2param_compute libmReal (unnormalise (vgg_conditioner_compute libmReal twoPts 2)
          (solution_matrix (arr [1, 0, 0, 1, 0, -1]))) := rfl
  obtain ⟨a0, a1, a4, a2, a5, a8⟩ := unnormalise_entries
    (vgg_conditioner_compute libmReal (twoPts : Nat → ℝ) 2)
    (solution_matrix (arr [1, 0, 0, 1, 0, -1])) z1 z3 rfl rfl rfl
  have s0 : solution_matrix (arr [1, 0, 0, 1, 0, -1] : Nat → ℝ) 0 = 1 := by
    simp [solution_matrix, arr]
  have s1 : solution_matrix (arr [1, 0, 0, 1, 0, -1] : Nat → ℝ) 1 = 0 := by
    simp [solution_matrix, arr]
  have s2 : solution_matrix (arr [1, 0, 0, 1, 0, -1] : Nat → ℝ) 2 = 0 := by
    simp [solution_matrix, arr]
  have s4 : solution_matrix (arr [1, 0, 0, 1, 0, -1] : Nat → ℝ) 4 = 1 := by
    simp [solution_matrix, arr]
  have s5 : solution_matrix (arr [1, 0, 0, 1, 0, -1] : Nat → ℝ) 5 = 0 := by
    simp [solution_matrix, arr]
  have s8 : solution_matrix (arr [1, 0, 0, 1, 0, -1] : Nat → ℝ) 8 = -1 := by
    simp [solution_matrix, arr]
  simp only [z4, t0, t2, t5, s0, s1, s2, s4, s5, s8] at a0 a1 a4 a2 a5 a8
  rw [hfp]
  generalize unnormalise (vgg_conditioner_compute libmReal (twoPts : Nat → ℝ) 2)
    (solution_matrix (arr [1, 0, 0, 1, 0, -1])) = p at a0 a1 a4 a2 a5 a8 ⊢
  have h := atan2_zero_pos 0 le_rfl
  have hc : libmReal.cos 0 = 1 := Real.cos_zero
  have hsn : libmReal.sin 0 = 0 := Real.sin_zero
  simp only [ellipse2param_compute, ellipse2param_else, ellipse2param_centre,
    ellipse2param_rotated, a0, a1, a4, a2, a5, a8, mul_zero, sub_self, h, hc, hsn]
  norm_num

open Polynomial in
/-- A real polynomial of degree at most four with five distinct roots has
zero coefficients. -/
theorem quartic_coeffs_zero (a4 a3 a2 a1 a0 : ℝ) (s : Finset ℝ) (hs : 5 ≤ s.card)
    (hroot : ∀ t ∈ s, a4 * t ^ 4 + a3 * t ^ 3 + a2 * t ^ 2 + a1 * t + a0 = 0) :
    a4 = 0 ∧ a3 = 0 ∧ a2 = 0 ∧ a1 = 0 ∧ a0 = 0 := by
  let P : ℝ[X] := C a4 * X ^ 4 + C a3 * X ^ 3 + C a2 * X ^ 2 + C a1 * X + C a0
  have hdeg : P.natDegree ≤ 4 := by
    have h4 : (C a4 * X ^ 4 : ℝ[X]).natDegree ≤ 4 := natDegree_C_mul_X_pow_le a4 4
    have h3 : (C a3 * X ^ 3 : ℝ[X]).natDegree ≤ 4 :=
      (natDegree_C_mul_X_pow_le a3 3).trans (by norm_num)
    have h2 : (C a2 * X ^ 2 : ℝ[X]).natDegree ≤ 4 :=
      (natDegree_C_mul_X_pow_le a2 2).trans (by norm_num)
    have h1 : (C a1 * X : ℝ[X]).natDegree ≤ 4 := by
      have := natDegree_C_mul_X_pow_le a1 1
      rw [pow_one] at this
      exact this.trans (by norm_num)
    have h0 : (C a0 : ℝ[X]).natDegree ≤ 4 := by rw [natDegree_C]; norm_num
    exact natDegree_add_le_of_degree_le (natDegree_add_le_of_degree_le
      (natDegree_add_le_of_degree_le (natDegree_add_le_of_degree_le h4 h3) h2) h1) h0
  have heval : ∀ t ∈ s, P.eval t = 0 := by
    intro t ht
    have := hroot t ht
    simp only [P, eval_add, eval_mul, eval_C, eval_pow, eval_X]
    exact this
  have hP : P = 0 :=
    eq_zero_of_natDegree_lt_card_of_eval_eq_zero' P s heval (by omega)
  have c4 : P.coeff 4 = a4 := by
    simp [P, coeff_C_mul, coeff_X_pow, coeff_X, coeff_C]
  have c3 : P.coeff 3 = a3 := by
    simp [P, coeff_C_mul, coeff_X_pow, coeff_X, coeff_C]
  have c2 : P.coeff 2 = a2 := by
    simp [P, coeff_C_mul, coeff_X_pow, coeff_X, coeff_C]
  have c1 : P.coeff 1 = a1 := by
    simp [P, coeff_C_mul, coeff_X_pow, coeff_X, coeff_C]
  have c0 : P.coeff 0 = a0 := by
    simp [P, coeff_C_mul, coeff_X_pow, coeff_X, coeff_C]
  rw [hP] at c4 c3 c2 c1 c0
  simp only [coeff_zero] at c4 c3 c2 c1 c0
  exact ⟨c4.symm, c3.symm, c2.symm, c1.symm, c0.symm⟩

/-- A conic `g(u, w) = α u² + β u w + γ w² + δ u + ε w + ζ` that vanishes at six
distinct points of the unit circle is a multiple of `u² + w² - 1`. -/
theorem circle_conic (α β γ δ ε ζ : ℝ) (n : ℕ) (u w : ℕ → ℝ) (hn : 6 ≤ n)
    (hcirc : ∀ i, i < n → u i ^ 2 + w i ^ 2 = 1)
    (hdist : ∀ i j, i < n → j < n → u i = u j → w i = w j → i = j)
    (hzero : ∀ i, i < n →
      α * u i ^ 2 + β * u i * w i + γ * w i ^ 2 + δ * u i + ε * w i + ζ = 0) :
    β = 0 ∧ ε = 0 ∧ δ = 0 ∧ γ = α ∧ ζ = -α := by
  classical
  -- the points other than (-1, 0), and their stereographic parameters
  set S : Finset ℕ := (Finset.range n).filter (fun i => u i ≠ -1) with hS
  set Sc : Finset ℕ := (Finset.range n).filter (fun i => ¬ u i ≠ -1) with hSc
  have hcardc : Sc.card ≤ 1 := by
    rw [Finset.card_le_one]
    intro i hi j hj
    simp only [hSc, Finset.mem_filter, Finset.mem_range, not_not] at hi hj
    have hwi : w i = 0 := by
      have := hcirc i hi.1
      rw [hi.2] at this
      have h0 : w i ^ 2 = 0 := by linarith
      exact pow_eq_zero_iff (two_ne_zero) |>.mp h0
    have hwj : w j = 0 := by
      have := hcirc j hj.1
      rw [hj.2] at this
      have h0 : w j ^ 2 = 0 := by linarith
      exact pow_eq_zero_iff (two_ne_zero) |>.mp h0
    exact hdist i j hi.1 hj.1 (by rw [hi.2, hj.2]) (by rw [hwi, hwj])
  have hcard : 5 ≤ S.card := by
    have := Finset.filter_card_add_filter_neg_card_eq_card (s := Finset.range n)
      (fun i => u i ≠ -1)
    rw [Finset.card_range, ← hS, ← hSc] at this
    omega
  have hd : ∀ i ∈ S, 1 + u i ≠ 0 := by
    intro i hi h
    simp only [hS, Finset.mem_filter] at hi
    exact hi.2 (by linarith)
  have hw2 : ∀ i ∈ S, w i ^ 2 = (2 - (1 + u i)) * (1 + u i) := by
    intro i hi
    simp only [hS, Finset.mem_filter, Finset.mem_range] at hi
    have := hcirc i hi.1
    linear_combination this
  have hpar : ∀ i ∈ S, (1 + u i) * (1 + (w i / (1 + u i)) ^ 2) = 2 := by
    intro i hi
    have h1 := hd i hi
    have h2 := hw2 i hi
    have hw : w i / (1 + u i) * (1 + u i) = w i := div_mul_cancel₀ _ h1
    have h3 : (1 + u i) * ((1 + u i) * (1 + (w i / (1 + u i)) ^ 2) - 2) = 0 := by
      linear_combination (w i / (1 + u i) * (1 + u i) + w i) * hw + h2
    rcases mul_eq_zero.mp h3 with h | h
    · exact absurd h h1
    · linarith
  have hinj : Set.InjOn (fun i => w i / (1 + u i)) (S : Set ℕ) := by
    intro i hi j hj hij
    simp only at hij
    have hi' := hi
    have hj' := hj
    simp only [Finset.mem_coe, hS, Finset.mem_filter, Finset.mem_range] at hi' hj'
    have e1 := hpar i hi
    have e2 := hpar j hj
    rw [hij] at e1
    have hpos : (0 : ℝ) < 1 + (w j / (1 + u j)) ^ 2 := by positivity
    have hdd : 1 + u i = 1 + u j := by
      have : (1 + u i - (1 + u j)) * (1 + (w j / (1 + u j)) ^ 2) = 0 := by
        linear_combination e1 - e2
      rcases mul_eq_zero.mp this with h | h
      · linarith
      · exact absurd h hpos.ne'
    have hww : w i = w j := by
      have a1 : w i = w i / (1 + u i) * (1 + u i) := by
        field_simp [hd i hi]
      have a2 : w j = w j / (1 + u j) * (1 + u j) := by
        field_simp [hd j hj]
      rw [a1, a2, hij, hdd]
    exact hdist i j hi'.1 hj'.1 (by linarith) hww
  have hq := quartic_coeffs_zero (α - δ + ζ) (-2 * β + 2 * ε) (-2 * α + 4 * γ + 2 * ζ)
    (2 * β + 2 * ε) (α + δ + ζ) (S.image (fun i => w i / (1 + u i)))
    (by rw [Finset.card_image_of_injOn hinj]; exact hcard)
    (by
      intro t ht
      obtain ⟨i, hi, rfl⟩ := Finset.mem_image.mp ht
      have h1 := hd i hi
      have h2 := hw2 i hi
      have hi' := hi
      simp only [hS, Finset.mem_filter, Finset.mem_range] at hi'
      have hz := hzero i hi'.1
      have key : (α - δ + ζ) * w i ^ 4 + (-2 * β + 2 * ε) * w i ^ 3 * (1 + u i)
          + (-2 * α + 4 * γ + 2 * ζ) * w i ^ 2 * (1 + u i) ^ 2
          + (2 * β + 2 * ε) * w i * (1 + u i) ^ 3 + (α + δ + ζ) * (1 + u i) ^ 4 = 0 := by
        linear_combination (4 * (1 + u i) ^ 2) * hz
          + ((α - δ + ζ) * (w i ^ 2 + (2 - (1 + u i)) * (1 + u i))
            + (-2 * β + 2 * ε) * w i * (1 + u i)
            + (-2 * α + 4 * γ + 2 * ζ) * (1 + u i) ^ 2 - 4 * γ * (1 + u i) ^ 2) * h2
      have hform : (α - δ + ζ) * (w i / (1 + u i)) ^ 4 + (-2 * β + 2 * ε) * (w i / (1 + u i)) ^ 3
          + (-2 * α + 4 * γ + 2 * ζ) * (w i / (1 + u i)) ^ 2
          + (2 * β + 2 * ε) * (w i / (1 + u i)) + (α + δ + ζ)
          = ((α - δ + ζ) * w i ^ 4 + (-2 * β + 2 * ε) * w i ^ 3 * (1 + u i)
          + (-2 * α + 4 * γ + 2 * ζ) * w i ^ 2 * (1 + u i) ^ 2
          + (2 * β + 2 * ε) * w i * (1 + u i) ^ 3 + (α + δ + ζ) * (1 + u i) ^ 4)
            / (1 + u i) ^ 4 := by
        field_simp
        ring
      rw [hform, key, zero_div])
  obtain ⟨q4, q3, q2, q1, q0⟩ := hq
  refine ⟨?_, ?_, ?_, ?_, ?_⟩
  · linarith
  · linarith
  · linarith
  · linarith
  · linarith

/-- A point is recovered from its coordinates along the axes of the ellipse. -/
theorem point_of_along (E : Param ℝ) (x y : ℝ) :
    x = E.centrex + alongU libmReal E x y * Real.cos E.orientation
          - alongV libmReal E x y * Real.sin E.orientation ∧
    y = E.centrey + alongU libmReal E x y * Real.sin E.orientation
          + alongV libmReal E x y * Real.cos E.orientation := by
  have hcs := Real.cos_sq_add_sin_sq E.orientation
  have hc : libmReal.cos E.orientation = Real.cos E.orientation := rfl
  have hs : libmReal.sin E.orientation = Real.sin E.orientation := rfl
  simp only [alongU, alongV, hc, hs]
  constructor
  · linear_combination (-(x - E.centrex)) * hcs
  · linear_combination (-(y - E.centrey)) * hcs

/-- A conic through six distinct points of an ellipse is a multiple of the
conic of that ellipse. -/
theorem conic_through_ellipse_points (C : Nat → ℝ) (E : Param ℝ) (hA : 0 < E.ax)
    (hB : 0 < E.ay) (pts : Nat → ℝ) (n : Nat) (hn : 6 ≤ n) (hdist : DistinctPts pts n)
    (hon : SampledOn libmReal E pts n)
    (hC : ∀ i, i < n → conicValue C (pts (2 * i)) (pts (2 * i + 1)) = 0) :
    ∃ μ : ℝ, ∀ x y, conicValue C x y = μ * conicValue (conicOfEllipse libmReal E) x y := by
  have hA0 : E.ax ≠ 0 := hA.ne'
  have hB0 : E.ay ≠ 0 := hB.ne'
  -- the conic in the coordinates (u, w) = (U / A, V / B)
  have hparam : ∃ α β γ δ ε ζ : ℝ, ∀ (x y : ℝ),
      conicValue C x y
        = α * (alongU libmReal E x y / E.ax) ^ 2
          + β * (alongU libmReal E x y / E.ax) * (alongV libmReal E x y / E.ay)
          + γ * (alongV libmReal E x y / E.ay) ^ 2
          + δ * (alongU libmReal E x y / E.ax)
          + ε * (alongV libmReal E x y / E.ay)
          + ζ := by
    refine ⟨C 0 * (E.ax * Real.cos E.orientation) ^ 2
            + 2 * C 1 * (E.ax * Real.cos E.orientation) * (E.ax * Real.sin E.orientation)
            + C 4 * (E.ax * Real.sin E.orientation) ^ 2,
      2 * C 0 * (E.ax * Real.cos E.orientation) * (-E.ay * Real.sin E.orientation)
            + 2 * C 1 * ((E.ax * Real.cos E.orientation) * (E.ay * Real.cos E.orientation)
              + (-E.ay * Real.sin E.orientation) * (E.ax * Real.sin E.orientation))
            + 2 * C 4 * (E.ax * Real.sin E.orientation) * (E.ay * Real.cos E.orientation),
      C 0 * (-E.ay * Real.sin E.orientation) ^ 2
            + 2 * C 1 * (-E.ay * Real.sin E.orientation) * (E.ay * Real.cos E.orientation)
            + C 4 * (E.ay * Real.cos E.orientation) ^ 2,
      2 * C 0 * E.centrex * (E.ax * Real.cos E.orientation)
            + 2 * C 1 * (E.centrex * (E.ax * Real.sin E.orientation)
              + (E.ax * Real.cos E.orientation) * E.centrey)
            + 2 * C 4 * E.centrey * (E.ax * Real.sin E.orientation)
            + 2 * C 2 * (E.ax * Real.cos E.orientation)
            + 2 * C 5 * (E.ax * Real.sin E.orientation),
      2 * C 0 * E.centrex * (-E.ay * Real.sin E.orientation)
            + 2 * C 1 * (E.centrex * (E.ay * Real.cos E.orientation)
              + (-E.ay * Real.sin E.orientation) * E.centrey)
            + 2 * C 4 * E.centrey * (E.ay * Real.cos E.orientation)
            + 2 * C 2 * (-E.ay * Real.sin E.orientation)
            + 2 * C 5 * (E.ay * Real.cos E.orientation),
      conicValue C E.centrex E.centrey, ?_⟩
    intro x y
    obtain ⟨hx, hy⟩ := point_of_along E x y
    have hu : E.ax * (alongU libmReal E x y / E.ax) = alongU libmReal E x y :=
      mul_div_cancel₀ _ hA0
    have hw : E.ay * (alongV libmReal E x y / E.ay) = alongV libmReal E x y :=
      mul_div_cancel₀ _ hB0
    generalize alongU libmReal E x y / E.ax = u at hu ⊢
    generalize alongV libmReal E x y / E.ay = w at hw ⊢
    rw [← hu, ← hw] at hx hy
    have e : conicValue C x y
        = conicValue C (E.centrex + E.ax * u * Real.cos E.orientation
            - E.ay * w * Real.sin E.orientation)
          (E.centrey + E.ax * u * Real.sin E.orientation
            + E.ay * w * Real.cos E.orientation) := by
      rw [← hx, ← hy]
    rw [e]
    simp only [conicValue]
    ring
  obtain ⟨α, β, γ, δ, ε, ζ, hparam⟩ := hparam
  obtain ⟨hb, he, hd, hg, hz⟩ := circle_conic α β γ δ ε ζ n
    (fun i => alongU libmReal E (pts (2 * i)) (pts (2 * i + 1)) / E.ax)
    (fun i => alongV libmReal E (pts (2 * i)) (pts (2 * i + 1)) / E.ay) hn
    (by
      intro i hi
      have := hon i hi
      simp only [OnEllipse] at this
      simp only [div_pow]
      exact this)
    (by
      intro i j hi hj h1 h2
      simp only at h1 h2
      have hU : alongU libmReal E (pts (2 * i)) (pts (2 * i + 1))
          = alongU libmReal E (pts (2 * j)) (pts (2 * j + 1)) := by
        field_simp at h1; exact h1
      have hV : alongV libmReal E (pts (2 * i)) (pts (2 * i + 1))
          = alongV libmReal E (pts (2 * j)) (pts (2 * j + 1)) := by
        field_simp at h2; exact h2
      obtain ⟨xi, yi⟩ := point_of_along E (pts (2 * i)) (pts (2 * i + 1))
      obtain ⟨xj, yj⟩ := point_of_along E (pts (2 * j)) (pts (2 * j + 1))
      exact hdist i j hi hj (by rw [xi, xj, hU, hV]) (by rw [yi, yj, hU, hV]))
    (by
      intro i hi
      have := hparam (pts (2 * i)) (pts (2 * i + 1))
      rw [hC i hi] at this
      simp only
      linear_combination -this)
  refine ⟨α, fun x y => ?_⟩
  rw [hparam x y, (conicOfEllipse_value libmReal E x y).1, hb, he, hd, hg, hz]
  simp only [div_pow]
  ring

/-- Positivity of the quadratic form of an ellipse on a unit vector. -/
theorem ellipse_form_pos (A B a b : ℝ) (hA : 0 < A) (hB : 0 < B) (h : a ^ 2 + b ^ 2 = 1) :
    0 < a ^ 2 / A ^ 2 + b ^ 2 / B ^ 2 := by
  have hA2 : 0 < A ^ 2 := by positivity
  have hB2 : 0 < B ^ 2 := by positivity
  by_cases ha : a = 0
  · have hb : b ^ 2 = 1 := by rw [ha] at h; linarith
    rw [ha, hb]
    have : 0 < 1 / B ^ 2 := by positivity
    simpa using this
  · have h1 : 0 < a ^ 2 / A ^ 2 := by positivity
    have h2 : 0 ≤ b ^ 2 / B ^ 2 := by positivity
    linarith

/-- The quadratic part of a conic that is a multiple of the conic of an
ellipse is the same multiple of the ellipse's quadratic form. -/
theorem quad_of_multiple (p : Nat → ℝ) (E : Param ℝ) (μ : ℝ)
    (h : ∀ x y, conicValue p x y = μ * conicValue (conicOfEllipse libmReal E) x y)
    (dx dy : ℝ) :
    p 0 * dx ^ 2 + 2 * p 1 * dx * dy + p 4 * dy ^ 2
      = μ * ((dx * Real.cos E.orientation + dy * Real.sin E.orientation) ^ 2 / E.ax ^ 2
        + (-dx * Real.sin E.orientation + dy * Real.cos E.orientation) ^ 2 / E.ay ^ 2) := by
  have h1 := h dx dy
  have h2 := h (-dx) (-dy)
  have h3 := h 0 0
  rw [(conicOfEllipse_value libmReal E _ _).1] at h1 h2 h3
  simp only [conicValue, alongU, alongV] at h1 h2 h3
  have hc : libmReal.cos E.orientation = Real.cos E.orientation := rfl
  have hs : libmReal.sin E.orientation = Real.sin E.orientation := rfl
  rw [hc, hs] at h1 h2 h3
  linear_combination (1 / 2) * h1 + (1 / 2) * h2 - h3

/-- What `ellipse2param` computes on a non-zero multiple of the conic of an
ellipse: the non-degenerate branch, the centre of the ellipse, and its squared
semi-axes, possibly exchanged. -/
theorem ellipse2param_centre_of_multiple (p : Nat → ℝ) (E : Param ℝ) (hA : 0 < E.ax)
    (hB : 0 < E.ay) (μ : ℝ) (hμ : μ ≠ 0)
    (h : ∀ x y, conicValue p x y = μ * conicValue (conicOfEllipse libmReal E) x y) :
    (ellipse2param_rotated libmReal p).Auu ≠ 0 ∧
    (ellipse2param_rotated libmReal p).Avv ≠ 0 ∧
    (ellipse2param_centre (ellipse2param_rotated libmReal p)).uCentre = E.centrex ∧
    (ellipse2param_centre (ellipse2param_rotated libmReal p)).vCentre = E.centrey ∧
    (((ellipse2param_centre (ellipse2param_rotated libmReal p)).Ru = E.ax ^ 2 ∧
        (ellipse2param_centre (ellipse2param_rotated libmReal p)).Rv = E.ay ^ 2) ∨
      ((ellipse2param_centre (ellipse2param_rotated libmReal p)).Ru = E.ay ^ 2 ∧
        (ellipse2param_centre (ellipse2param_rotated libmReal p)).Rv = E.ax ^ 2)) := by
  obtain ⟨hcs', htr, hdet, -⟩ := rotated_facts p
  have hcs := Real.cos_sq_add_sin_sq E.orientation
  have hA0 : E.ax ≠ 0 := hA.ne'
  have hB0 : E.ay ≠ 0 := hB.ne'
  have dAuu : (ellipse2param_rotated libmReal p).Auu
      = p 0 * ((ellipse2param_rotated libmReal p).cost * (ellipse2param_rotated libmReal p).cost)
        + p 4 * ((ellipse2param_rotated libmReal p).sint * (ellipse2param_rotated libmReal p).sint)
        + 2 * p 1 * ((ellipse2param_rotated libmReal p).sint
          * (ellipse2param_rotated libmReal p).cost) := rfl
  have dAvv : (ellipse2param_rotated libmReal p).Avv
      = p 0 * ((ellipse2param_rotated libmReal p).sint * (ellipse2param_rotated libmReal p).sint)
        + p 4 * ((ellipse2param_rotated libmReal p).cost * (ellipse2param_rotated libmReal p).cost)
        - 2 * p 1 * ((ellipse2param_rotated libmReal p).sint
          * (ellipse2param_rotated libmReal p).cost) := rfl
  have qu := quad_of_multiple p E μ h (ellipse2param_rotated libmReal p).cost
    (ellipse2param_rotated libmReal p).sint
  have qv := quad_of_multiple p E μ h (-(ellipse2param_rotated libmReal p).sint)
    (ellipse2param_rotated libmReal p).cost
  have q0 := quad_of_multiple p E μ h 1 0
  have q4 := quad_of_multiple p E μ h 0 1
  have q1 := quad_of_multiple p E μ h 1 1
  have pu := ellipse_form_pos E.ax E.ay
    ((ellipse2param_rotated libmReal p).cost * Real.cos E.orientation
      + (ellipse2param_rotated libmReal p).sint * Real.sin E.orientation)
    (-(ellipse2param_rotated libmReal p).cost * Real.sin E.orientation
      + (ellipse2param_rotated libmReal p).sint * Real.cos E.orientation) hA hB
    (by linear_combination (Real.cos E.orientation ^ 2 + Real.sin E.orientation ^ 2) * hcs'
      + hcs)
  have pv := ellipse_form_pos E.ax E.ay
    (-(ellipse2param_rotated libmReal p).sint * Real.cos E.orientation
      + (ellipse2param_rotated libmReal p).cost * Real.sin E.orientation)
    (- -(ellipse2param_rotated libmReal p).sint * Real.sin E.orientation
      + (ellipse2param_rotated libmReal p).cost * Real.cos E.orientation) hA hB
    (by linear_combination (Real.cos E.orientation ^ 2 + Real.sin E.orientation ^ 2) * hcs'
      + hcs)
  have eAuu : (ellipse2param_rotated libmReal p).Auu
      = μ * (((ellipse2param_rotated libmReal p).cost * Real.cos E.orientation
        + (ellipse2param_rotated libmReal p).sint * Real.sin E.orientation) ^ 2 / E.ax ^ 2
        + (-(ellipse2param_rotated libmReal p).cost * Real.sin E.orientation
        + (ellipse2param_rotated libmReal p).sint * Real.cos E.orientation) ^ 2 / E.ay ^ 2) := by
    rw [dAuu, ← qu]; ring
  have eAvv : (ellipse2param_rotated libmReal p).Avv
      = μ * ((-(ellipse2param_rotated libmReal p).sint * Real.cos E.orientation
        + (ellipse2param_rotated libmReal p).cost * Real.sin E.orientation) ^ 2 / E.ax ^ 2
        + (- -(ellipse2param_rotated libmReal p).sint * Real.sin E.orientation
        + (ellipse2param_rotated libmReal p).cost * Real.cos E.orientation) ^ 2 / E.ay ^ 2) := by
    rw [dAvv, ← qv]; ring
  have hAuu : (ellipse2param_rotated libmReal p).Auu ≠ 0 := by
    rw [eAuu]; exact mul_ne_zero hμ pu.ne'
  have hAvv : (ellipse2param_rotated libmReal p).Avv ≠ 0 := by
    rw [eAvv]; exact mul_ne_zero hμ pv.ne'
  -- the conic in the centred coordinates of the output
  have hform := conic_rotated_centred p hAuu hAvv
  -- the centre: the conic takes the same value at `E`'s centre and at its mirror image
  have hmirror : conicValue p
        (2 * (ellipse2param_centre (ellipse2param_rotated libmReal p)).uCentre - E.centrex)
        (2 * (ellipse2param_centre (ellipse2param_rotated libmReal p)).vCentre - E.centrey)
      = conicValue p E.centrex E.centrey := by
    have a := hform
      (2 * (ellipse2param_centre (ellipse2param_rotated libmReal p)).uCentre - E.centrex)
      (2 * (ellipse2param_centre (ellipse2param_rotated libmReal p)).vCentre - E.centrey)
    have b := hform E.centrex E.centrey
    simp only [conicValue]
    rw [a, b]
    ring
  rw [h, h, (conicOfEllipse_value libmReal E _ _).1, (conicOfEllipse_value libmReal E _ _).1]
    at hmirror
  have hc : libmReal.cos E.orientation = Real.cos E.orientation := rfl
  have hs : libmReal.sin E.orientation = Real.sin E.orientation := rfl
  simp only [alongU, alongV, hc, hs] at hmirror
  generalize (ellipse2param_centre (ellipse2param_rotated libmReal p)).uCentre = uC at *
  generalize (ellipse2param_centre (ellipse2param_rotated libmReal p)).vCentre = vC at *
  have hsum0 : ((uC - E.centrex) * Real.cos E.orientation
        + (vC - E.centrey) * Real.sin E.orientation) ^ 2 / E.ax ^ 2
      + (-(uC - E.centrex) * Real.sin E.orientation
        + (vC - E.centrey) * Real.cos E.orientation) ^ 2 / E.ay ^ 2 = 0 := by
    apply mul_left_cancel₀ (mul_ne_zero (four_ne_zero (α := ℝ)) hμ)
    linear_combination hmirror
  have hX2 : 0 ≤ ((uC - E.centrex) * Real.cos E.orientation
        + (vC - E.centrey) * Real.sin E.orientation) ^ 2 / E.ax ^ 2 := by positivity
  have hY2 : 0 ≤ (-(uC - E.centrex) * Real.sin E.orientation
        + (vC - E.centrey) * Real.cos E.orientation) ^ 2 / E.ay ^ 2 := by positivity
  obtain ⟨hX, hY⟩ := (add_eq_zero_iff_of_nonneg hX2 hY2).mp hsum0
  have hX0 : (uC - E.centrex) * Real.cos E.orientation
      + (vC - E.centrey) * Real.sin E.orientation = 0 := by
    have := (div_eq_zero_iff.mp hX).resolve_right (pow_ne_zero 2 hA0)
    exact pow_eq_zero_iff (two_ne_zero) |>.mp this
  have hY0 : -(uC - E.centrex) * Real.sin E.orientation
      + (vC - E.centrey) * Real.cos E.orientation = 0 := by
    have := (div_eq_zero_iff.mp hY).resolve_right (pow_ne_zero 2 hB0)
    exact pow_eq_zero_iff (two_ne_zero) |>.mp this
  have huC : uC = E.centrex := by
    linear_combination Real.cos E.orientation * hX0 - Real.sin E.orientation * hY0
      - (uC - E.centrex) * hcs
  have hvC : vC = E.centrey := by
    linear_combination Real.sin E.orientation * hX0 + Real.cos E.orientation * hY0
      - (vC - E.centrey) * hcs
  -- the constant term
  have hw : (ellipse2param_centre (ellipse2param_rotated libmReal p)).wCentre = -μ := by
    have a := hform uC vC
    have b := h uC vC
    rw [(conicOfEllipse_value libmReal E _ _).1] at b
    simp only [conicValue, alongU, alongV, huC, hvC] at a b
    rw [b] at a
    simp only [sub_self, zero_mul, neg_zero, add_zero, mul_zero, ne_eq, OfNat.ofNat_ne_zero,
      not_false_eq_true, zero_pow, zero_div, zero_sub, mul_neg, mul_one, zero_add] at a
    exact a.symm
  have hRu : (ellipse2param_centre (ellipse2param_rotated libmReal p)).Ru
      = μ / (ellipse2param_rotated libmReal p).Auu := by
    show -(ellipse2param_centre (ellipse2param_rotated libmReal p)).wCentre
      / (ellipse2param_rotated libmReal p).Auu = _
    rw [hw, neg_neg]
  have hRv : (ellipse2param_centre (ellipse2param_rotated libmReal p)).Rv
      = μ / (ellipse2param_rotated libmReal p).Avv := by
    show -(ellipse2param_centre (ellipse2param_rotated libmReal p)).wCentre
      / (ellipse2param_rotated libmReal p).Avv = _
    rw [hw, neg_neg]
  refine ⟨hAuu, hAvv, huC, hvC, ?_⟩
  rw [hRu, hRv]
  -- trace and determinant of the quadratic part
  have hiA : E.ax ^ 2 * (E.ax ^ 2)⁻¹ = 1 := mul_inv_cancel₀ (pow_ne_zero 2 hA0)
  have hiB : E.ay ^ 2 * (E.ay ^ 2)⁻¹ = 1 := mul_inv_cancel₀ (pow_ne_zero 2 hB0)
  simp only [div_eq_mul_inv] at q0 q4 q1
  generalize (E.ax ^ 2)⁻¹ = iA at *
  generalize (E.ay ^ 2)⁻¹ = iB at *
  generalize (ellipse2param_rotated libmReal p).Auu = Auu at *
  generalize (ellipse2param_rotated libmReal p).Avv = Avv at *
  generalize Real.cos E.orientation = c at *
  generalize Real.sin E.orientation = s at *
  have e0 : p 0 = μ * (c ^ 2 * iA + s ^ 2 * iB) := by linear_combination q0
  have e4 : p 4 = μ * (s ^ 2 * iA + c ^ 2 * iB) := by linear_combination q4
  have e1 : p 1 = μ * (c * s * iA - c * s * iB) := by
    linear_combination (1 / 2) * q1 - (1 / 2) * q0 - (1 / 2) * q4
  have htr' : Auu + Avv = μ * (iA + iB) := by
    rw [htr, e0, e4]
    linear_combination μ * (iA + iB) * hcs
  have hdet' : Auu * Avv = μ ^ 2 * (iA * iB) := by
    rw [hdet, e0, e4, e1]
    linear_combination μ ^ 2 * iA * iB * (c ^ 2 + s ^ 2 + 1) * hcs
  have hprod : (Auu - μ * iA) * (Auu - μ * iB) = 0 := by
    linear_combination Auu * htr' - hdet'
  rcases mul_eq_zero.mp hprod with hcase | hcase
  · left
    have hu : Auu = μ * iA := by linarith
    have hv : Avv = μ * iB := by linarith
    have hiA0 : iA ≠ 0 := by
      rintro rfl
      simp at hiA
    have hiB0 : iB ≠ 0 := by
      rintro rfl
      simp at hiB
    constructor
    · rw [hu]; field_simp; linear_combination (-μ) * hiA
    · rw [hv]; field_simp; linear_combination (-μ) * hiB
  · right
    have hu : Auu = μ * iB := by linarith
    have hv : Avv = μ * iA := by linarith
    have hiA0 : iA ≠ 0 := by
      rintro rfl
      simp at hiA
    have hiB0 : iB ≠ 0 := by
      rintro rfl
      simp at hiB
    constructor
    · rw [hu]; field_simp; linear_combination (-μ) * hiB
    · rw [hv]; field_simp; linear_combination (-μ) * hiA

/-- On a non-zero multiple of the conic of an ellipse, `ellipse2param` returns
the centre of the ellipse, its semi-axes (possibly exchanged), and parameters
that describe exactly the points of the ellipse. -/
theorem ellipse2param_compute_of_multiple (p : Nat → ℝ) (E : Param ℝ) (hA : 0 < E.ax)
    (hB : 0 < E.ay) (μ : ℝ) (hμ : μ ≠ 0)
    (h : ∀ x y, conicValue p x y = μ * conicValue (conicOfEllipse libmReal E) x y) :
    (ellipse2param_compute libmReal p).centrex = E.centrex ∧
    (ellipse2param_compute libmReal p).centrey = E.centrey ∧
    (((ellipse2param_compute libmReal p).ax = E.ax ∧
        (ellipse2param_compute libmReal p).ay = E.ay) ∨
      ((ellipse2param_compute libmReal p).ax = E.ay ∧
        (ellipse2param_compute libmReal p).ay = E.ax)) ∧
    ∀ x y, OnEllipse libmReal (ellipse2param_compute libmReal p) x y
      ↔ OnEllipse libmReal E x y := by
  obtain ⟨hAuu, hAvv, huC, hvC, hR⟩ := ellipse2param_centre_of_multiple p E hA hB μ hμ h
  have hA2 : 0 < E.ax ^ 2 := by positivity
  have hB2 : 0 < E.ay ^ 2 := by positivity
  have hRu : 0 < (ellipse2param_centre (ellipse2param_rotated libmReal p)).Ru := by
    rcases hR with ⟨h1, -⟩ | ⟨h1, -⟩ <;> rw [h1] <;> assumption
  have hRv : 0 < (ellipse2param_centre (ellipse2param_rotated libmReal p)).Rv := by
    rcases hR with ⟨-, h1⟩ | ⟨-, h1⟩ <;> rw [h1] <;> assumption
  have hbr : ¬ ((ellipse2param_rotated libmReal p).Auu = 0
      ∨ (ellipse2param_rotated libmReal p).Avv = 0) := by
    rintro (h | h)
    · exact hAuu h
    · exact hAvv h
  have hcomp : ellipse2param_compute libmReal p
      = ellipse2param_else libmReal (ellipse2param_rotated libmReal p) := by
    simp only [ellipse2param_compute, hbr, if_false]
  have hax : (ellipse2param_compute libmReal p).ax
      = Real.sqrt (ellipse2param_centre (ellipse2param_rotated libmReal p)).Ru := by
    rw [hcomp]
    simp only [ellipse2param_else, gt_iff_lt, hRu, if_true, pow_half]
  have hay : (ellipse2param_compute libmReal p).ay
      = Real.sqrt (ellipse2param_centre (ellipse2param_rotated libmReal p)).Rv := by
    rw [hcomp]
    simp only [ellipse2param_else, gt_iff_lt, hRv, if_true, pow_half]
  refine ⟨?_, ?_, ?_, ?_⟩
  · rw [hcomp]; exact huC
  · rw [hcomp]; exact hvC
  · rw [hax, hay]
    rcases hR with ⟨h1, h2⟩ | ⟨h1, h2⟩
    · left; rw [h1, h2]; exact ⟨Real.sqrt_sq hA.le, Real.sqrt_sq hB.le⟩
    · right; rw [h1, h2]; exact ⟨Real.sqrt_sq hB.le, Real.sqrt_sq hA.le⟩
  · intro x y
    have hd := (ellipse2param_compute_describes_conic p hAuu hAvv hRu hRv).2 x y
    have hE := onEllipse_iff_conicValue libmReal E x y
    have hp : conicValue p x y
        = p 0 * x ^ 2 + 2 * p 1 * x * y + p 4 * y ^ 2 + 2 * p 2 * x + 2 * p 5 * y + p 8 := rfl
    constructor
    · intro hq
      have h0 : conicValue p x y = 0 := by rw [hp]; exact hd.mpr hq
      rw [h] at h0
      exact hE.mpr ((mul_eq_zero.mp h0).resolve_left hμ)
    · intro hq
      have h0 : conicValue p x y = 0 := by rw [h, hE.mp hq, mul_zero]
      rw [hp] at h0
      exact hd.mp h0

/-- The scale of the normaliser is positive when the points are not all
identical. -/
theorem vgg_scale_pos (pts : Nat → ℝ) (n : Nat) (hne : NotAllIdentical pts n) :
    0 < vgg_conditioner_compute libmReal pts n 0 := by
  have key : ∀ (f : Nat → ℝ) (m : ℝ) (i j : Nat), i < n → j < n → f i ≠ f j →
      0 < Real.sqrt (∑ k in Finset.range n, (f k - m) * (f k - m)) := by
    intro f m i j hi hj hij
    apply Real.sqrt_pos.mpr
    have hnn : ∀ k ∈ Finset.range n, 0 ≤ (f k - m) * (f k - m) :=
      fun k _ => mul_self_nonneg _
    by_cases him : f i = m
    · have hjm : f j ≠ m := fun h => hij (him.trans h.symm)
      exact Finset.sum_pos' hnn ⟨j, Finset.mem_range.mpr hj,
        mul_self_pos.mpr (sub_ne_zero.mpr hjm)⟩
    · exact Finset.sum_pos' hnn ⟨i, Finset.mem_range.mpr hi,
        mul_self_pos.mpr (sub_ne_zero.mpr him)⟩
  have hs : ∀ x : ℝ, libmReal.sqrt x = Real.sqrt x := fun _ => rfl
  obtain ⟨i, j, hi, hj, hij⟩ := hne
  show 0 < libmReal.sqrt 2 / ((libmReal.sqrt (forSum n (fun i => (pts (2 * i)
      - forSum n (fun i => pts (2 * i)) 0 / (n : ℝ)) * (pts (2 * i)
      - forSum n (fun i => pts (2 * i)) 0 / (n : ℝ))) 0)
    + libmReal.sqrt (forSum n (fun i => (pts (2 * i + 1)
      - forSum n (fun i => pts (2 * i + 1)) 0 / (n : ℝ)) * (pts (2 * i + 1)
      - forSum n (fun i => pts (2 * i + 1)) 0 / (n : ℝ))) 0)) / 2)
  simp only [hs, forSum_zero]
  have h2 : 0 < Real.sqrt 2 := by positivity
  have hx := Real.sqrt_nonneg (∑ k in Finset.range n, (pts (2 * k)
      - (∑ i in Finset.range n, pts (2 * i)) / (n : ℝ)) * (pts (2 * k)
      - (∑ i in Finset.range n, pts (2 * i)) / (n : ℝ)))
  have hy := Real.sqrt_nonneg (∑ k in Finset.range n, (pts (2 * k + 1)
      - (∑ i in Finset.range n, pts (2 * i + 1)) / (n : ℝ)) * (pts (2 * k + 1)
      - (∑ i in Finset.range n, pts (2 * i + 1)) / (n : ℝ)))
  rcases hij with hij | hij
  · have := key (fun k => pts (2 * k)) ((∑ i in Finset.range n, pts (2 * i)) / (n : ℝ))
      i j hi hj hij
    apply div_pos h2
    linarith
  · have := key (fun k => pts (2 * k + 1)) ((∑ i in Finset.range n, pts (2 * i + 1)) / (n : ℝ))
      i j hi hj hij
    apply div_pos h2
    linarith

/-- A conic that vanishes everywhere has zero coefficients. -/
theorem conic_entries_zero (C : Nat → ℝ) (h : ∀ x y, conicValue C x y = 0) :
    C 0 = 0 ∧ C 1 = 0 ∧ C 4 = 0 ∧ C 2 = 0 ∧ C 5 = 0 ∧ C 8 = 0 := by
  have h00 := h 0 0
  have h10 := h 1 0
  have hm0 := h (-1) 0
  have h01 := h 0 1
  have h0m := h 0 (-1)
  have h11 := h 1 1
  simp only [conicValue] at h00 h10 hm0 h01 h0m h11
  refine ⟨?_, ?_, ?_, ?_, ?_, ?_⟩
  · linear_combination (1 / 2) * h10 + (1 / 2) * hm0 - h00
  · linear_combination (1 / 2) * h11 - (1 / 2) * h10 - (1 / 2) * h01 + (1 / 2) * h00
  · linear_combination (1 / 2) * h01 + (1 / 2) * h0m - h00
  · linear_combination (1 / 4) * h10 - (1 / 4) * hm0
  · linear_combination (1 / 4) * h01 - (1 / 4) * h0m
  · linear_combination h00

/-- A non-zero vector that every row annihilates is a solver vector for the
smallest eigenvalue (zero) of the Gram matrix. -/
theorem smallestEigvec_of_kernel (eq x : Nat → ℝ) (n : Nat)
    (hx : ∃ i, i < 6 ∧ x i ≠ 0) (hker : ∀ k, k < 4 * n → rowDot eq x k = 0) :
    SmallestEigvec (gram eq n) x := by
  refine ⟨hx, 0, ?_, ?_⟩
  · intro i hi
    rw [gramApply_gram eq x n i hi, zero_mul]
    apply Finset.sum_eq_zero
    intro k hk
    rw [hker k (Finset.mem_range.mp hk), mul_zero]
  · intro y mu ⟨i0, hi0, hy0⟩ hy
    have hq := quadratic_form_gram eq y n
    have hq2 : ∑ i in Finset.range 6, y i * gramApply (gram eq n) y i
        = mu * ∑ i in Finset.range 6, y i ^ 2 := by
      rw [Finset.mul_sum]
      apply Finset.sum_congr rfl
      intro i hi
      rw [hy i (Finset.mem_range.mp hi)]
      ring
    have hpos : 0 < ∑ i in Finset.range 6, y i ^ 2 := by
      apply Finset.sum_pos'
      · intro i _
        exact sq_nonneg _
      · exact ⟨i0, Finset.mem_range.mpr hi0, by positivity⟩
    have hnn : 0 ≤ ∑ k in Finset.range (4 * n), rowDot eq y k ^ 2 :=
      Finset.sum_nonneg (fun k _ => sq_nonneg _)
    rw [← hq, hq2] at hnn
    by_contra hneg
    push_neg at hneg
    have := mul_neg_of_neg_of_pos hneg hpos
    linarith

/-- The normalised coefficient vector of an ellipse is annihilated by every
row built from points on the ellipse with gradients along its normals. -/
theorem rowDot_normalisedConic (E : Param ℝ) (T pts grad : Nat → ℝ) (n : Nat)
    (z1 : T 1 = 0) (z3 : T 3 = 0) (z4 : T 4 = T 0) (hv0 : T 0 ≠ 0)
    (hon : SampledOn libmReal E pts n) (hgrad : GradientsNormal libmReal E pts grad n) :
    ∀ k, k < 4 * n →
      rowDot (get_equations_loop T pts grad n (fun _ => 0))
        (normalisedConic T (conicOfEllipse libmReal E)) k = 0 := by
  have hsym : conicOfEllipse libmReal E 3 = conicOfEllipse libmReal E 1 := rfl
  intro k hk
  have hi : k / 4 < n := by omega
  obtain ⟨lam, hg0, hg1⟩ := hgrad (k / 4) hi
  obtain ⟨hval, hnor⟩ := unnormalise_normalisedConic T (conicOfEllipse libmReal E) z1 z3 z4 hv0
    hsym (pts (2 * (k / 4))) (pts (2 * (k / 4) + 1))
  have hEn := (conicOfEllipse_value libmReal E (pts (2 * (k / 4))) (pts (2 * (k / 4) + 1))).2
  obtain ⟨r0, r1, r2, r3⟩ := rowDot_zero_of_on_conic T pts grad n (fun _ => 0)
    (normalisedConic T (conicOfEllipse libmReal E)) (k / 4) hi z1 z3 z4 lam
    (by rw [hval]; exact (onEllipse_iff_conicValue libmReal E _ _).mp (hon (k / 4) hi))
    (by rw [hnor, hEn]; exact hg0)
    (by rw [hnor, hEn]; exact hg1)
  have hk4 : k = 4 * (k / 4) + k % 4 := by omega
  have hlt : k % 4 < 4 := Nat.mod_lt _ (by norm_num)
  rw [hk4]
  generalize k / 4 = i at *
  generalize k % 4 = r at *
  interval_cases r
  · exact r0
  · exact r1
  · exact r2
  · exact r3

/-- The normalised coefficient vector of an ellipse is not zero. -/
theorem normalisedConic_ne_zero (E : Param ℝ) (T : Nat → ℝ) (hA : 0 < E.ax) (hB : 0 < E.ay)
    (hv0 : T 0 ≠ 0) : ∃ i, i < 6 ∧ normalisedConic T (conicOfEllipse libmReal E) i ≠ 0 := by
  refine ⟨0, by norm_num, ?_⟩
  show conicOfEllipse libmReal E 0 / T 0 ^ 2 ≠ 0
  have hpos : 0 < conicOfEllipse libmReal E 0 := by
    have := ellipse_form_pos E.ax E.ay (Real.cos E.orientation) (Real.sin E.orientation) hA hB
      (Real.cos_sq_add_sin_sq E.orientation)
    have e : conicOfEllipse libmReal E 0
        = Real.cos E.orientation ^ 2 / E.ax ^ 2 + Real.sin E.orientation ^ 2 / E.ay ^ 2 := by
      show Real.cos E.orientation * Real.cos E.orientation / E.ax ^ 2
        + Real.sin E.orientation * Real.sin E.orientation / E.ay ^ 2 = _
      ring
    rw [e]; exact this
  exact div_ne_zero hpos.ne' (pow_ne_zero 2 hv0)

/-- Pairwise distinct points, at least two of them, are not all identical. -/
theorem notAllIdentical_of_distinct (pts : Nat → ℝ) (n : Nat) (hn : 2 ≤ n)
    (hdist : DistinctPts pts n) : NotAllIdentical pts n := by
  refine ⟨0, 1, by omega, by omega, ?_⟩
  by_contra hcon
  push_neg at hcon
  have := hdist 0 1 (by omega) (by omega) hcon.1 hcon.2
  omega

/-- With gradients along the normals of an ellipse and at least six distinct
points on it, a solver vector for the smallest eigenvalue yields a non-zero
multiple of the conic of the ellipse. -/
theorem fit_conic_of_ellipse (dsyev : (Nat → ℝ) → (Nat → ℝ)) (E : Param ℝ)
    (pts grad : Nat → ℝ) (n : Nat) (hA : 0 < E.ax) (hB : 0 < E.ay) (hn : 6 ≤ n)
    (hdist : DistinctPts pts n) (hon : SampledOn libmReal E pts n)
    (hgrad : GradientsNormal libmReal E pts grad n)
    (hsolver : SmallestEigvec
      (gram (get_equations_loop (vgg_conditioner_compute libmReal pts n) pts grad n
        (fun _ => 0)) n)
      (dsyev (gram (get_equations_loop (vgg_conditioner_compute libmReal pts n) pts grad n
        (fun _ => 0)) n))) :
    ∃ μ : ℝ, μ ≠ 0 ∧ ∀ x y,
      conicValue (fit_ellipse_conic dsyev
          (get_equations_loop (vgg_conditioner_compute libmReal pts n) pts grad n (fun _ => 0))
          (vgg_conditioner_compute libmReal pts n) n) x y
        = μ * conicValue (conicOfEllipse libmReal E) x y := by
  unfold fit_ellipse_conic
  obtain ⟨z1, z3, -, -, -, z4⟩ := vgg_conditioner_compute_zeros libmReal pts n
  have hne := notAllIdentical_of_distinct pts n (by omega) hdist
  have hv := vgg_scale_pos pts n hne
  have hv0 : vgg_conditioner_compute libmReal pts n 0 ≠ 0 := hv.ne'
  generalize vgg_conditioner_compute libmReal pts n = T at *
  have hker := rowDot_normalisedConic E T pts grad n z1 z3 z4 hv0 hon hgrad
  have hx0 := normalisedConic_ne_zero E T hA hB hv0
  have hrows := rowDot_eq_zero_of_smallest _ _ _ n hsolver hx0 hker
  generalize dsyev (gram (get_equations_loop T pts grad n (fun _ => 0)) n) = x at *
  have hnz := hsolver.1
  -- the fitted conic passes through the points
  have hC : ∀ i, i < n →
      conicValue (unnormalise T (solution_matrix x)) (pts (2 * i)) (pts (2 * i + 1)) = 0 := by
    intro i hi
    exact on_conic_of_rowDot_zero T pts grad n (fun _ => 0) x i hi z1 z3 z4
      (hrows (4 * i + 3) (by omega))
  obtain ⟨μ, hμ⟩ := conic_through_ellipse_points (unnormalise T (solution_matrix x)) E hA hB
    pts n hn hdist hon hC
  refine ⟨μ, ?_, hμ⟩
  rintro rfl
  obtain ⟨c0, c1, c4, c2, c5, c8⟩ := conic_entries_zero (unnormalise T (solution_matrix x))
    (fun a b => by rw [hμ, zero_mul])
  obtain ⟨a0, a1, a4, a2, a5, a8⟩ := unnormalise_entries T (solution_matrix x) z1 z3 rfl rfl rfl
  rw [z4] at a1 a4 a5
  have s0 : solution_matrix x 0 = x 0 := rfl
  have s1 : solution_matrix x 1 = x 1 := rfl
  have s2 : solution_matrix x 2 = x 2 := rfl
  have s4 : solution_matrix x 4 = x 3 := rfl
  have s5 : solution_matrix x 5 = x 4 := rfl
  have s8 : solution_matrix x 8 = x 5 := rfl
  rw [c0, s0] at a0
  rw [c1, s1] at a1
  rw [c4, s4] at a4
  rw [c2, s0, s1, s2] at a2
  rw [c5, s1, s4, s5] at a5
  rw [c8, s0, s1, s4, s2, s5, s8] at a8
  have x0 : x 0 = 0 := by
    rcases mul_eq_zero.mp a0.symm with h | h
    · exact absurd (mul_self_eq_zero.mp h) hv0
    · exact h
  have x1 : x 1 = 0 := by
    rcases mul_eq_zero.mp a1.symm with h | h
    · exact absurd (mul_self_eq_zero.mp h) hv0
    · exact h
  have x3 : x 3 = 0 := by
    rcases mul_eq_zero.mp a4.symm with h | h
    · exact absurd (mul_self_eq_zero.mp h) hv0
    · exact h
  have x2 : x 2 = 0 := by
    rw [x0, x1] at a2
    rcases mul_eq_zero.mp a2.symm with h | h
    · exact absurd h hv0
    · linarith
  have x4 : x 4 = 0 := by
    rw [x1, x3] at a5
    rcases mul_eq_zero.mp a5.symm with h | h
    · exact absurd h hv0
    · linarith
  have x5 : x 5 = 0 := by
    rw [x0, x1, x3, x2, x4] at a8
    linarith
  obtain ⟨i, hi, hxi⟩ := hnz
  interval_cases i
  · exact hxi x0
  · exact hxi x1
  · exact hxi x2
  · exact hxi x3
  · exact hxi x4
  · exact hxi x5

/-- The entries of `circlePts`. -/
theorem circlePts_values :
    ((circlePts : Nat → ℝ) 0 = 3 / 5 ∧ (circlePts : Nat → ℝ) 1 = 4 / 5 ∧
     (circlePts : Nat → ℝ) 2 = 3 / 5 ∧ (circlePts : Nat → ℝ) 3 = -(4 / 5) ∧
     (circlePts : Nat → ℝ) 4 = -(3 / 5) ∧ (circlePts : Nat → ℝ) 5 = 4 / 5 ∧
     (circlePts : Nat → ℝ) 6 = -(3 / 5) ∧ (circlePts : Nat → ℝ) 7 = -(4 / 5)) ∧
    ((circlePts : Nat → ℝ) 8 = 4 / 5 ∧ (circlePts : Nat → ℝ) 9 = 3 / 5 ∧
     (circlePts : Nat → ℝ) 10 = 4 / 5 ∧ (circlePts : Nat → ℝ) 11 = -(3 / 5) ∧
     (circlePts : Nat → ℝ) 12 = -(4 / 5) ∧ (circlePts : Nat → ℝ) 13 = 3 / 5 ∧
     (circlePts : Nat → ℝ) 14 = -(4 / 5) ∧ (circlePts : Nat → ℝ) 15 = -(3 / 5)) ∧
    ((circlePts : Nat → ℝ) 16 = 5 / 13 ∧ (circlePts : Nat → ℝ) 17 = 12 / 13 ∧
     (circlePts : Nat → ℝ) 18 = 5 / 13 ∧ (circlePts : Nat → ℝ) 19 = -(12 / 13) ∧
     (circlePts : Nat → ℝ) 20 = -(5 / 13) ∧ (circlePts : Nat → ℝ) 21 = 12 / 13 ∧
     (circlePts : Nat → ℝ) 22 = -(5 / 13) ∧ (circlePts : Nat → ℝ) 23 = -(12 / 13)) ∧
    ((circlePts : Nat → ℝ) 24 = 12 / 13 ∧ (circlePts : Nat → ℝ) 25 = 5 / 13 ∧
     (circlePts : Nat → ℝ) 26 = 12 / 13 ∧ (circlePts : Nat → ℝ) 27 = -(5 / 13) ∧
     (circlePts : Nat → ℝ) 28 = -(12 / 13) ∧ (circlePts : Nat → ℝ) 29 = 5 / 13 ∧
     (circlePts : Nat → ℝ) 30 = -(12 / 13) ∧ (circlePts : Nat → ℝ) 31 = -(5 / 13)) :=
  ⟨⟨rfl, rfl, rfl, rfl, rfl, rfl, rfl, rfl⟩, ⟨rfl, rfl, rfl, rfl, rfl, rfl, rfl, rfl⟩,
   ⟨rfl, rfl, rfl, rfl, rfl, rfl, rfl, rfl⟩, ⟨rfl, rfl, rfl, rfl, rfl, rfl, rfl, rfl⟩⟩

/-- A sum over the sixteen points, written out. -/
theorem circlePts_sum (F : ℝ → ℝ → ℝ) :
    ∑ i in Finset.range 16, F ((circlePts : Nat → ℝ) (2 * i)) (circlePts (2 * i + 1))
      = F (3 / 5) (4 / 5) + F (3 / 5) (-(4 / 5)) + F (-(3 / 5)) (4 / 5) + F (-(3 / 5)) (-(4 / 5))
        + F (4 / 5) (3 / 5) + F (4 / 5) (-(3 / 5)) + F (-(4 / 5)) (3 / 5) + F (-(4 / 5)) (-(3 / 5))
        + F (5 / 13) (12 / 13) + F (5 / 13) (-(12 / 13)) + F (-(5 / 13)) (12 / 13)
        + F (-(5 / 13)) (-(12 / 13))
        + F (12 / 13) (5 / 13) + F (12 / 13) (-(5 / 13)) + F (-(12 / 13)) (5 / 13)
        + F (-(12 / 13)) (-(5 / 13)) := by
  obtain ⟨⟨h0, h1, h2, h3, h4, h5, h6, h7⟩, ⟨h8, h9, h10, h11, h12, h13, h14, h15⟩,
    ⟨h16, h17, h18, h19, h20, h21, h22, h23⟩, ⟨h24, h25, h26, h27, h28, h29, h30, h31⟩⟩ :=
    circlePts_values
  simp only [Finset.sum_range_succ, Finset.sum_range_zero, zero_add, Nat.reduceMul,
    Nat.reduceAdd, h0, h1, h2, h3, h4, h5, h6, h7, h8, h9, h10, h11, h12, h13, h14, h15,
    h16, h17, h18, h19, h20, h21, h22, h23, h24, h25, h26, h27, h28, h29, h30, h31]

/-- Membership in the unit circle. -/
theorem onEllipse_unitCircle (x y : ℝ) :
    OnEllipse libmReal unitCircle x y ↔ x ^ 2 + y ^ 2 = 1 := by
  have hc : libmReal.cos 0 = 1 := Real.cos_zero
  have hs : libmReal.sin 0 = 0 := Real.sin_zero
  simp only [OnEllipse, alongU, alongV, unitCircle, hc, hs]
  constructor <;> intro h <;> linear_combination h

/-- The normal of the unit circle at `(x, y)` is `(x, y)`. -/
theorem ellipseNormal_unitCircle (x y : ℝ) :
    ellipseNormal libmReal unitCircle x y = (x, y) := by
  have hc : libmReal.cos 0 = 1 := Real.cos_zero
  have hs : libmReal.sin 0 = 0 := Real.sin_zero
  simp only [ellipseNormal, alongU, alongV, unitCircle, hc, hs]
  ext <;> simp

/-- The sixteen points lie on the unit circle. -/
theorem circlePts_sampled : SampledOn libmReal unitCircle (circlePts : Nat → ℝ) 16 := by
  obtain ⟨⟨h0, h1, h2, h3, h4, h5, h6, h7⟩, ⟨h8, h9, h10, h11, h12, h13, h14, h15⟩,
    ⟨h16, h17, h18, h19, h20, h21, h22, h23⟩, ⟨h24, h25, h26, h27, h28, h29, h30, h31⟩⟩ :=
    circlePts_values
  intro i hi
  rw [onEllipse_unitCircle]
  interval_cases i <;>
    simp only [Nat.reduceMul, Nat.reduceAdd, h0, h1, h2, h3, h4, h5, h6, h7, h8, h9, h10, h11, h12, h13, h14, h15,
      h16, h17, h18, h19, h20, h21, h22, h23, h24, h25, h26, h27, h28, h29, h30, h31] <;>
    norm_num

/-- The sixteen points are pairwise distinct. -/
theorem circlePts_distinct : DistinctPts (circlePts : Nat → ℝ) 16 := by
  have hcast : ∀ q, q < 32 → (circlePts : Nat → ℝ) q
      = ((([39, 52, 39, -52, -39, 52, -39, -52, 52, 39, 52, -39, -52, 39, -52, -39,
            25, 60, 25, -60, -25, 60, -25, -60, 60, 25, 60, -25, -60, 25, -60, -25] :
            List Int).getD q 0 : Int) : ℝ) / 65 := by
    obtain ⟨⟨h0, h1, h2, h3, h4, h5, h6, h7⟩, ⟨h8, h9, h10, h11, h12, h13, h14, h15⟩,
      ⟨h16, h17, h18, h19, h20, h21, h22, h23⟩, ⟨h24, h25, h26, h27, h28, h29, h30, h31⟩⟩ :=
      circlePts_values
    intro q hq
    interval_cases q <;>
      simp only [h0, h1, h2, h3, h4, h5, h6, h7, h8, h9, h10, h11, h12, h13, h14, h15,
      h16, h17, h18, h19, h20, h21, h22, h23, h24, h25, h26, h27, h28, h29, h30, h31,
        List.getD_cons_zero, List.getD_cons_succ] <;>
      norm_num
  have hdec : ∀ i, i < 16 → ∀ j, j < 16 →
      ([39, 52, 39, -52, -39, 52, -39, -52, 52, 39, 52, -39, -52, 39, -52, -39,
        25, 60, 25, -60, -25, 60, -25, -60, 60, 25, 60, -25, -60, 25, -60, -25] :
        List Int).getD (2 * i) 0
      = ([39, 52, 39, -52, -39, 52, -39, -52, 52, 39, 52, -39, -52, 39, -52, -39,
        25, 60, 25, -60, -25, 60, -25, -60, 60, 25, 60, -25, -60, 25, -60, -25] :
        List Int).getD (2 * j) 0 →
      ([39, 52, 39, -52, -39, 52, -39, -52, 52, 39, 52, -39, -52, 39, -52, -39,
        25, 60, 25, -60, -25, 60, -25, -60, 60, 25, 60, -25, -60, 25, -60, -25] :
        List Int).getD (2 * i + 1) 0
      = ([39, 52, 39, -52, -39, 52, -39, -52, 52, 39, 52, -39, -52, 39, -52, -39,
        25, 60, 25, -60, -25, 60, -25, -60, 60, 25, 60, -25, -60, 25, -60, -25] :
        List Int).getD (2 * j + 1) 0 → i = j := by
    decide
  intro i j hi hj hx hy
  rw [hcast _ (by omega), hcast _ (by omega)] at hx hy
  have h65 : (65 : ℝ) ≠ 0 := by norm_num
  exact hdec i hi j hj (Int.cast_injective ((div_left_inj' h65).mp hx))
    (Int.cast_injective ((div_left_inj' h65).mp hy))

/-- The array `circleNormals` holds normals of the unit circle. -/
theorem circleNormals_normal :
    GradientsNormal libmReal unitCircle (circlePts : Nat → ℝ) circleNormals 16 := by
  intro i _
  refine ⟨1, ?_, ?_⟩ <;> rw [ellipseNormal_unitCircle] <;> simp [circleNormals]

/-- The array `circleTangents` holds tangent directions of the unit circle. -/
theorem circleTangents_tangent :
    GradientsTangent libmReal unitCircle (circlePts : Nat → ℝ) circleTangents 16 := by
  intro i _
  have e0 : (2 * i) % 2 = 0 := by omega
  have e1 : ¬ (2 * i + 1) % 2 = 0 := by omega
  refine ⟨1, one_ne_zero, ?_, ?_⟩ <;> rw [ellipseNormal_unitCircle] <;>
    simp [circleTangents, e0, e1]

/-- The normalisation matrix of the sixteen points: scale `1/2`, no shift. -/
theorem circlePts_vgg :
    vgg_conditioner_compute libmReal (circlePts : Nat → ℝ) 16 0 = 1 / 2 ∧
    vgg_conditioner_compute libmReal (circlePts : Nat → ℝ) 16 2 = 0 ∧
    vgg_conditioner_compute libmReal (circlePts : Nat → ℝ) 16 5 = 0 := by
  have hsx : forSum 16 (fun i => (circlePts : Nat → ℝ) (2 * i)) 0 = 0 := by
    rw [forSum_zero]
    refine (circlePts_sum (fun X _ => X)).trans ?_
    norm_num
  have hsy : forSum 16 (fun i => (circlePts : Nat → ℝ) (2 * i + 1)) 0 = 0 := by
    rw [forSum_zero]
    refine (circlePts_sum (fun _ Y => Y)).trans ?_
    norm_num
  have hqx : forSum 16 (fun i => ((circlePts : Nat → ℝ) (2 * i) - 0) * (circlePts (2 * i) - 0)) 0
      = 8 := by
    rw [forSum_zero]
    refine (circlePts_sum (fun X _ => (X - 0) * (X - 0))).trans ?_
    norm_num
  have hqy : forSum 16
      (fun i => ((circlePts : Nat → ℝ) (2 * i + 1) - 0) * (circlePts (2 * i + 1) - 0)) 0 = 8 := by
    rw [forSum_zero]
    refine (circlePts_sum (fun _ Y => (Y - 0) * (Y - 0))).trans ?_
    norm_num
  have hs : ∀ x : ℝ, libmReal.sqrt x = Real.sqrt x := fun _ => rfl
  have h8 : Real.sqrt 8 = 2 * Real.sqrt 2 := by
    have e : (8 : ℝ) = 2 ^ 2 * 2 := by norm_num
    rw [e, Real.sqrt_mul (by norm_num), Real.sqrt_sq (by norm_num)]
  have h2 : Real.sqrt 2 ≠ 0 := by positivity
  have hv : vgg_conditioner_compute libmReal (circlePts : Nat → ℝ) 16 0 = 1 / 2 := by
    show libmReal.sqrt 2 / ((libmReal.sqrt _ + libmReal.sqrt _) / 2) = 1 / 2
    rw [hsx, hsy]
    simp only [zero_div]
    rw [hqx, hqy, hs, hs, h8]
    field_simp
    ring
  refine ⟨hv, ?_, ?_⟩
  · show -(vgg_conditioner_compute libmReal (circlePts : Nat → ℝ) 16 0)
      * (forSum 16 (fun i => (circlePts : Nat → ℝ) (2 * i)) 0 / ((16 : Nat) : ℝ)) = 0
    rw [hsx]; simp
  · show -(vgg_conditioner_compute libmReal (circlePts : Nat → ℝ) 16 0)
      * (forSum 16 (fun i => (circlePts : Nat → ℝ) (2 * i + 1)) 0 / ((16 : Nat) : ℝ)) = 0
    rw [hsy]; simp

/-- The unit circle in the normalised coordinates of the sixteen points. -/
theorem circle_normalisedConic :
    normalisedConic (vgg_conditioner_compute libmReal (circlePts : Nat → ℝ) 16)
      (conicOfEllipse libmReal unitCircle) = arr [4, 0, 0, 4, 0, -1] := by
  obtain ⟨t0, t2, t5⟩ := circlePts_vgg
  have hc : libmReal.cos 0 = 1 := Real.cos_zero
  have hs : libmReal.sin 0 = 0 := Real.sin_zero
  unfold normalisedConic
  rw [t0, t2, t5]
  simp only [conicOfEllipse, unitCircle, hc, hs, arr, List.getD_cons_zero, List.getD_cons_succ]
  norm_num

/-- With the normals as gradients the vector of the unit circle is an
eigenvector for the smallest eigenvalue of the Gram matrix. -/
theorem circleSolver_smallest :
    SmallestEigvec
      (gram (get_equations_loop (vgg_conditioner_compute libmReal (circlePts : Nat → ℝ) 16)
        circlePts circleNormals 16 (fun _ => 0)) 16)
      (circleSolver (gram (get_equations_loop
        (vgg_conditioner_compute libmReal (circlePts : Nat → ℝ) 16)
        circlePts circleNormals 16 (fun _ => 0)) 16)) := by
  obtain ⟨z1, z3, -, -, -, z4⟩ :=
    vgg_conditioner_compute_zeros libmReal (circlePts : Nat → ℝ) 16
  have hv0 : vgg_conditioner_compute libmReal (circlePts : Nat → ℝ) 16 0 ≠ 0 := by
    rw [circlePts_vgg.1]; norm_num
  have hx : circleSolver (gram (get_equations_loop
        (vgg_conditioner_compute libmReal (circlePts : Nat → ℝ) 16)
        circlePts circleNormals 16 (fun _ => 0)) 16)
      = normalisedConic (vgg_conditioner_compute libmReal (circlePts : Nat → ℝ) 16)
          (conicOfEllipse libmReal unitCircle) := circle_normalisedConic.symm
  rw [hx]
  exact smallestEigvec_of_kernel _ _ 16
    (normalisedConic_ne_zero unitCircle _ (by norm_num [unitCircle]) (by norm_num [unitCircle]) hv0)
    (rowDot_normalisedConic unitCircle _ circlePts circleNormals 16 z1 z3 z4 hv0
      circlePts_sampled circleNormals_normal)

/-- Normalised points and directions for the tangent gradients: each
direction is the opposite of its point. -/
theorem circleTangents_radial (i : Nat) :
    pnormx (vgg_conditioner_compute libmReal (circlePts : Nat → ℝ) 16) circlePts i
      = circlePts (2 * i) / 2 ∧
    pnormy (vgg_conditioner_compute libmReal (circlePts : Nat → ℝ) 16) circlePts i
      = circlePts (2 * i + 1) / 2 ∧
    dirnormx (vgg_conditioner_compute libmReal (circlePts : Nat → ℝ) 16) circleTangents i
      = -pnormx (vgg_conditioner_compute libmReal (circlePts : Nat → ℝ) 16) circlePts i ∧
    dirnormy (vgg_conditioner_compute libmReal (circlePts : Nat → ℝ) 16) circleTangents i
      = -pnormy (vgg_conditioner_compute libmReal (circlePts : Nat → ℝ) 16) circlePts i := by
  obtain ⟨t0, t2, t5⟩ := circlePts_vgg
  obtain ⟨z1, z3, -, -, -, z4⟩ :=
    vgg_conditioner_compute_zeros libmReal (circlePts : Nat → ℝ) 16
  have e0 : (2 * i) % 2 = 0 := by omega
  have e1 : ¬ (2 * i + 1) % 2 = 0 := by omega
  have g0 : (circleTangents : Nat → ℝ) (2 * i) = -circlePts (2 * i + 1) := by
    simp only [circleTangents, e0, if_true]
  have g1 : (circleTangents : Nat → ℝ) (2 * i + 1) = circlePts (2 * i) := by
    simp only [circleTangents, e1, if_false, Nat.add_sub_cancel]
  simp only [pnormx, pnormy, dirnormx, dirnormy, z1, z3, z4, t0, t2, t5, g0, g1]
  refine ⟨by ring, by ring, by ring, by ring⟩

/-- The Gram matrix of the sixteen points with tangent gradients, applied to
a vector. -/
theorem circleTangents_gramApply (y : Nat → ℝ) :
    gramApply (gram (get_equations_loop (vgg_conditioner_compute libmReal (circlePts : Nat → ℝ) 16)
        circlePts circleTangents 16 (fun _ => 0)) 16) y 0
      = 11487841 / 17850625 * y 0 + 6362784 / 17850625 * y 3 + 2 * y 5 ∧
    gramApply (gram (get_equations_loop (vgg_conditioner_compute libmReal (circlePts : Nat → ℝ) 16)
        circlePts circleTangents 16 (fun _ => 0)) 16) y 1
      = 25451136 / 17850625 * y 1 ∧
    gramApply (gram (get_equations_loop (vgg_conditioner_compute libmReal (circlePts : Nat → ℝ) 16)
        circlePts circleTangents 16 (fun _ => 0)) 16) y 2
      = 21 / 2 * y 2 ∧
    gramApply (gram (get_equations_loop (vgg_conditioner_compute libmReal (circlePts : Nat → ℝ) 16)
        circlePts circleTangents 16 (fun _ => 0)) 16) y 3
      = 6362784 / 17850625 * y 0 + 11487841 / 17850625 * y 3 + 2 * y 5 ∧
    gramApply (gram (get_equations_loop (vgg_conditioner_compute libmReal (circlePts : Nat → ℝ) 16)
        circlePts circleTangents 16 (fun _ => 0)) 16) y 4
      = 21 / 2 * y 4 ∧
    gramApply (gram (get_equations_loop (vgg_conditioner_compute libmReal (circlePts : Nat → ℝ) 16)
        circlePts circleTangents 16 (fun _ => 0)) 16) y 5
      = 2 * y 0 + 2 * y 3 + 20 * y 5 := by
  have hpx := fun i => (circleTangents_radial i).1
  have hpy := fun i => (circleTangents_radial i).2.1
  obtain ⟨g0, g1, g2, g3, g4, g5⟩ := gramApply_radial
    (vgg_conditioner_compute libmReal (circlePts : Nat → ℝ) 16) circlePts circleTangents 16
    (fun _ => 0) y (fun i _ => (circleTangents_radial i).2.2)
  rw [g0, g1, g2, g3, g4, g5]
  simp only [hpx, hpy]
  refine ⟨?_, ?_, ?_, ?_, ?_, ?_⟩
  · refine (circlePts_sum (fun X Y => (X / 2) ^ 2 * (2 * ((X / 2) * (y 0 * (X / 2) + y 1 * (Y / 2) + y 2) + (Y / 2) * (y 1 * (X / 2) + y 3 * (Y / 2) + y 4)) + (y 2 * (X / 2) + y 4 * (Y / 2) + y 5)))).trans ?_
    ring
  · refine (circlePts_sum (fun X Y => 2 * (X / 2) * (Y / 2) * (2 * ((X / 2) * (y 0 * (X / 2) + y 1 * (Y / 2) + y 2) + (Y / 2) * (y 1 * (X / 2) + y 3 * (Y / 2) + y 4)) + (y 2 * (X / 2) + y 4 * (Y / 2) + y 5)))).trans ?_
    ring
  · refine (circlePts_sum (fun X Y => (X / 2) * (((X / 2) ^ 2 + (Y / 2) ^ 2 + 2) * (y 2 * (X / 2) + y 4 * (Y / 2) + y 5) + 3 * ((X / 2) * (y 0 * (X / 2) + y 1 * (Y / 2) + y 2) + (Y / 2) * (y 1 * (X / 2) + y 3 * (Y / 2) + y 4))))).trans ?_
    ring
  · refine (circlePts_sum (fun X Y => (Y / 2) ^ 2 * (2 * ((X / 2) * (y 0 * (X / 2) + y 1 * (Y / 2) + y 2) + (Y / 2) * (y 1 * (X / 2) + y 3 * (Y / 2) + y 4)) + (y 2 * (X / 2) + y 4 * (Y / 2) + y 5)))).trans ?_
    ring
  · refine (circlePts_sum (fun X Y => (Y / 2) * (((X / 2) ^ 2 + (Y / 2) ^ 2 + 2) * (y 2 * (X / 2) + y 4 * (Y / 2) + y 5) + 3 * ((X / 2) * (y 0 * (X / 2) + y 1 * (Y / 2) + y 2) + (Y / 2) * (y 1 * (X / 2) + y 3 * (Y / 2) + y 4))))).trans ?_
    ring
  · refine (circlePts_sum (fun X Y => ((X / 2) ^ 2 + (Y / 2) ^ 2 + 1) * (y 2 * (X / 2) + y 4 * (Y / 2) + y 5) + ((X / 2) * (y 0 * (X / 2) + y 1 * (Y / 2) + y 2) + (Y / 2) * (y 1 * (X / 2) + y 3 * (Y / 2) + y 4)))).trans ?_
    ring

/-- With the unit tangents as gradients the vector of `x^2 - y^2` is an
eigenvector for the smallest eigenvalue of the Gram matrix of the sixteen
circle points. -/
theorem hyperbolaSolver_smallest :
    SmallestEigvec
      (gram (get_equations_loop (vgg_conditioner_compute libmReal (circlePts : Nat → ℝ) 16)
        circlePts circleTangents 16 (fun _ => 0)) 16)
      (hyperbolaSolver (gram (get_equations_loop
        (vgg_conditioner_compute libmReal (circlePts : Nat → ℝ) 16)
        circlePts circleTangents 16 (fun _ => 0)) 16)) := by
  have hx : ∀ G : Nat → ℝ, hyperbolaSolver G = arr [1, 0, 0, -1, 0, 0] := fun _ => rfl
  rw [hx]
  refine ⟨⟨0, by norm_num, by simp [arr]⟩, 5125057 / 17850625, ?_, ?_⟩
  · obtain ⟨g0, g1, g2, g3, g4, g5⟩ := circleTangents_gramApply (arr [1, 0, 0, -1, 0, 0])
    intro i hi
    interval_cases i
    · rw [g0]; simp only [arr, List.getD_cons_zero, List.getD_cons_succ]; norm_num
    · rw [g1]; simp only [arr, List.getD_cons_zero, List.getD_cons_succ]; norm_num
    · rw [g2]; simp only [arr, List.getD_cons_zero, List.getD_cons_succ]; norm_num
    · rw [g3]; simp only [arr, List.getD_cons_zero, List.getD_cons_succ]; norm_num
    · rw [g4]; simp only [arr, List.getD_cons_zero, List.getD_cons_succ]; norm_num
    · rw [g5]; simp only [arr, List.getD_cons_zero, List.getD_cons_succ]; norm_num
  · intro y mu hy hmu
    obtain ⟨g0, g1, g2, g3, g4, g5⟩ := circleTangents_gramApply y
    have e0 := hmu 0 (by norm_num)
    have e1 := hmu 1 (by norm_num)
    have e2 := hmu 2 (by norm_num)
    have e3 := hmu 3 (by norm_num)
    have e4 := hmu 4 (by norm_num)
    have e5 := hmu 5 (by norm_num)
    rw [g0] at e0
    rw [g1] at e1
    rw [g2] at e2
    rw [g3] at e3
    rw [g4] at e4
    rw [g5] at e5
    clear g0 g1 g2 g3 g4 g5 hmu hx
    by_contra hlt
    push_neg at hlt
    have y1 : y 1 = 0 := by
      have h : (25451136 / 17850625 - mu) * y 1 = 0 := by linear_combination e1
      rcases mul_eq_zero.mp h with h | h
      · linarith
      · exact h
    have y2 : y 2 = 0 := by
      have h : (21 / 2 - mu) * y 2 = 0 := by linear_combination e2
      rcases mul_eq_zero.mp h with h | h
      · linarith
      · exact h
    have y4 : y 4 = 0 := by
      have h : (21 / 2 - mu) * y 4 = 0 := by linear_combination e4
      rcases mul_eq_zero.mp h with h | h
      · linarith
      · exact h
    have y03 : y 0 = y 3 := by
      have h : (5125057 / 17850625 - mu) * (y 0 - y 3) = 0 := by linear_combination e0 - e3
      rcases mul_eq_zero.mp h with h | h
      · linarith
      · linarith
    have y0 : y 0 = 0 := by
      have e0' : y 0 + 2 * y 5 = mu * y 0 := by
        rw [← y03] at e0
        linear_combination e0
      have e5' : 4 * y 0 + 20 * y 5 = mu * y 5 := by
        rw [← y03] at e5
        linear_combination e5
      have h : (-(mu ^ 2) + 21 * mu - 12) * y 0 = 0 := by
        linear_combination (mu - 20) * e0' + 2 * e5'
      rcases mul_eq_zero.mp h with h | h
      · nlinarith [sq_nonneg mu]
      · exact h
    have y3 : y 3 = 0 := by rw [← y03]; exact y0
    have y5 : y 5 = 0 := by
      rw [y0, y3] at e0
      linear_combination (1 / 2) * e0
    obtain ⟨i, hi, hyi⟩ := hy
    interval_cases i
    · exact hyi y0
    · exact hyi y1
    · exact hyi y2
    · exact hyi y3
    · exact hyi y4
    · exact hyi y5

/-- The parameters computed from `x^2 - y^2` for the sixteen circle points:
the else branch of `ellipse2param` with both radii zero. -/
theorem circleTangents_fit_param :
    fit_param libmReal hyperbolaSolver (circlePts : Nat → ℝ) circleTangents 16
      = ⟨0, 0, 0, 0, 0⟩ := by
  obtain ⟨t0, t2, t5⟩ := circlePts_vgg
  obtain ⟨z1, z3, -, -, -, z4⟩ :=
    vgg_conditioner_compute_zeros libmReal (circlePts : Nat → ℝ) 16
  have hfp : fit_param libmReal hyperbolaSolver (circlePts : Nat → ℝ) circleTangents 16
      = ellipse2param_compute libmReal
          (unnormalise (vgg_conditioner_compute libmReal circlePts 16)
            (solution_matrix (arr [1, 0, 0, -1, 0, 0]))) := rfl
  obtain ⟨a0, a1, a4, a2, a5, a8⟩ := unnormalise_entries
    (vgg_conditioner_compute libmReal (circlePts : Nat → ℝ) 16)
    (solution_matrix (arr [1, 0, 0, -1, 0, 0])) z1 z3 rfl rfl rfl
  have s0 : solution_matrix (arr [1, 0, 0, -1, 0, 0] : Nat → ℝ) 0 = 1 := by
    simp [solution_matrix, arr]
  have s1 : solution_matrix (arr [1, 0, 0, -1, 0, 0] : Nat → ℝ) 1 = 0 := by
    simp [solution_matrix, arr]
  have s2 : solution_matrix (arr [1, 0, 0, -1, 0, 0] : Nat → ℝ) 2 = 0 := by
    simp [solution_matrix, arr]
  have s4 : solution_matrix (arr [1, 0, 0, -1, 0, 0] : Nat → ℝ) 4 = -1 := by
    simp [solution_matrix, arr]
  have s5 : solution_matrix (arr [1, 0, 0, -1, 0, 0] : Nat → ℝ) 5 = 0 := by
    simp [solution_matrix, arr]
  have s8 : solution_matrix (arr [1, 0, 0, -1, 0, 0] : Nat → ℝ) 8 = 0 := by
    simp [solution_matrix, arr]
  simp only [z4, t0, t2, t5, s0, s1, s2, s4, s5, s8] at a0 a1 a4 a2 a5 a8
  rw [hfp]
  generalize unnormalise (vgg_conditioner_compute libmReal (circlePts : Nat → ℝ) 16)
    (solution_matrix (arr [1, 0, 0, -1, 0, 0])) = p at a0 a1 a4 a2 a5 a8 ⊢
  have e : (1 : ℝ) / 2 * (1 / 2) * 1 - 1 / 2 * (1 / 2) * -1 = 1 / 2 := by norm_num
  have h := atan2_zero_pos (1 / 2) (by norm_num)
  have hc : libmReal.cos 0 = 1 := Real.cos_zero
  have hsn : libmReal.sin 0 = 0 := Real.sin_zero
  have hp : libmReal.pow 0 (1 / 2) = 0 := by rw [pow_half, Real.sqrt_zero]
  simp only [ellipse2param_compute, ellipse2param_else, ellipse2param_centre,
    ellipse2param_rotated, a0, a1, a4, a2, a5, a8, mul_zero, e, h, hc, hsn]
  norm_num [hp]

/-- For points that are not all identical `qmean` is positive. -/
theorem qmean_pos (pts : Nat → ℝ) (n : Nat) (hne : NotAllIdentical pts n) :
    0 < vgg_conditioner_qmean libmReal pts n := by
  have h2 : 0 < Real.sqrt 2 := by positivity
  have h := vgg_scale_pos pts n hne
  rw [vgg_conditioner_compute_scale] at h
  exact (div_pos_iff_of_pos_left h2).mp h

/-- For identical points `qmean` is zero. -/
theorem qmean_zero (pts : Nat → ℝ) (n : Nat) (hn : 1 ≤ n) (hall : AllIdentical pts n) :
    vgg_conditioner_qmean libmReal pts n = 0 := by
  have hs : ∀ x : ℝ, libmReal.sqrt x = Real.sqrt x := fun _ => rfl
  have hn0 : (n : ℝ) ≠ 0 := by
    have : 0 < n := hn
    exact_mod_cast this.ne'
  have key : ∀ f : Nat → ℝ, (∀ i, i < n → f i = f 0) →
      ∑ k in Finset.range n, (f k - (∑ i in Finset.range n, f i) / (n : ℝ))
        * (f k - (∑ i in Finset.range n, f i) / (n : ℝ)) = 0 := by
    intro f hf
    have hsum : ∑ i in Finset.range n, f i = n * f 0 := by
      rw [Finset.sum_congr rfl (fun i hi => hf i (Finset.mem_range.mp hi))]
      simp
    apply Finset.sum_eq_zero
    intro k hk
    rw [hsum, hf k (Finset.mem_range.mp hk), mul_div_cancel_left₀ _ hn0, sub_self, mul_zero]
  have kx := key (fun k => pts (2 * k)) (fun i hi => (hall i hi).1)
  have ky := key (fun k => pts (2 * k + 1)) (fun i hi => (hall i hi).2)
  show (libmReal.sqrt (forSum n (fun i => (pts (2 * i)
      - forSum n (fun i => pts (2 * i)) 0 / (n : ℝ)) * (pts (2 * i)
      - forSum n (fun i => pts (2 * i)) 0 / (n : ℝ))) 0)
    + libmReal.sqrt (forSum n (fun i => (pts (2 * i + 1)
      - forSum n (fun i => pts (2 * i + 1)) 0 / (n : ℝ)) * (pts (2 * i + 1)
      - forSum n (fun i => pts (2 * i + 1)) 0 / (n : ℝ))) 0)) / 2 = 0
  simp only [hs, forSum_zero]
  rw [kx, ky, Real.sqrt_zero]
  norm_num

/-- For `N ≥ 1` points that are not all identical, every division of the fit
has a non-zero divisor. -/
theorem fit_divisors_ne_zero (dsyev : (Nat → ℝ) → (Nat → ℝ)) (pts grad : Nat → ℝ) (n : Nat)
    (hn : 1 ≤ n) (hne : NotAllIdentical pts n) :
    ∀ d, d ∈ fit_divisors libmReal dsyev pts grad n → d ≠ 0 := by
  intro d hd
  have hn0 : (n : ℝ) ≠ 0 := by
    have : 0 < n := hn
    exact_mod_cast this.ne'
  unfold fit_divisors at hd
  rcases List.mem_append.mp hd with h | h
  · simp only [vgg_conditioner_divisors, List.mem_cons, List.mem_singleton, List.not_mem_nil,
      or_false] at h
    rcases h with h | h | h | h
    · rw [h]; exact hn0
    · rw [h]; exact hn0
    · rw [h]; norm_num
    · rw [h]; exact (qmean_pos pts n hne).ne'
  · unfold ellipse2param_divisors at h
    simp only at h
    split_ifs at h with hdeg
    · simp at h
    · push_neg at hdeg
      simp only [List.mem_cons, List.mem_singleton, List.not_mem_nil, or_false] at h
      rcases h with h | h | h | h
      · rw [h]; exact mul_ne_zero two_ne_zero hdeg.1
      · rw [h]; exact mul_ne_zero two_ne_zero hdeg.2
      · rw [h]; exact hdeg.1
      · rw [h]; exact hdeg.2

/-- The signed square root taken on lines 99-103 of `ellipse2param`. -/
theorem signed_sqrt_facts (R : ℝ) :
    (if R > 0 then libmReal.pow R (1 / 2) else -libmReal.pow (-R) (1 / 2))
      = (if R > 0 then Real.sqrt R else -Real.sqrt (-R)) ∧
    (if R > 0 then Real.sqrt R else -Real.sqrt (-R)) ^ 2 = |R| ∧
    ((if R > 0 then Real.sqrt R else -Real.sqrt (-R)) < 0 ↔ R < 0) := by
  refine ⟨by simp only [pow_half], ?_, ?_⟩
  · split_ifs with h
    · rw [Real.sq_sqrt h.le, abs_of_pos h]
    · push_neg at h
      rw [neg_sq, Real.sq_sqrt (by linarith), abs_of_nonpos h]
  · split_ifs with h
    · constructor
      · intro h'
        exact absurd h' (not_lt.mpr (Real.sqrt_nonneg R))
      · intro h'
        exact absurd h (not_lt.mpr h'.le)
    · push_neg at h
      constructor
      · intro h'
        have h1 : 0 < Real.sqrt (-R) := by linarith
        have h2 := Real.sqrt_pos.mp h1
        linarith
      · intro h'
        have : 0 < Real.sqrt (-R) := Real.sqrt_pos.mpr (by linarith)
        linarith

/-- The matrix `similarityInv k tx ty` is the inverse of
`[[k,0,tx],[0,k,ty],[0,0,1]]`. -/
theorem similarityInv_inverse (k tx ty : ℝ) (hk : k ≠ 0) :
    ∀ j, j < 9 → matMul3 (arr [k, 0, tx, 0, k, ty, 0, 0, 1]) (similarityInv k tx ty) j
      = arr [1, 0, 0, 0, 1, 0, 0, 0, 1] j := by
  intro j hj
  interval_cases j <;> simp [matMul3, similarityInv, arr] <;> field_simp

/-- `get_equations` on present arguments and a positive count. -/
theorem get_equations_present (pts grad : Nat → ℝ) (N : Int) (hN : 1 ≤ N) (v buff : Nat → ℝ) :
    get_equations libmReal (some pts) (some grad) N (some v) (some buff)
      = .ok (vgg_conditioner_compute libmReal pts N.toNat,
          get_equations_loop (vgg_conditioner_compute libmReal pts N.toNat) pts grad N.toNat
            buff) := by
  have h : ¬ N ≤ 0 := by omega
  simp only [get_equations, h, if_false, vgg_conditioner_from_points_ok libmReal pts N hN]

/-- The matrix `T' * S * T` for the normalisation matrix of the two points
`(0,0)`, `(2,0)` and the circle of radius 2: the conic
`4 x^2 + 4 y^2 - 8 x = 0`. -/
theorem twoPts_conic :
    ∀ j, j < 9 →
      matMul3 (transpose3 (vgg_conditioner_compute libmReal (twoPts : Nat → ℝ) 2))
        (matMul3 radiusTwoConic (vgg_conditioner_compute libmReal (twoPts : Nat → ℝ) 2)) j
      = arr [4, 0, -4, 0, 4, 0, -4, 0, 0] j := by
  obtain ⟨t0, t2, t5⟩ := twoPts_vgg
  obtain ⟨z1, z3, z6, z7, z8, z4⟩ :=
    vgg_conditioner_compute_zeros libmReal (twoPts : Nat → ℝ) 2
  intro j hj
  rw [← unnormalise_matMul _ _ z6 z7 z8 j hj]
  interval_cases j <;>
    simp only [unnormalise, radiusTwoConic, arr, List.getD_cons_zero, List.getD_cons_succ,
      List.getD_nil, z1, z3, z4, t0, t2, t5] <;>
    norm_num

end RealLemmas

/-! ## Claims about the normaliser -/

section NormaliserClaims

/-- C3. For N >= 1 points that are not all identical the normaliser returns a
transform T, and the points T*(x,y,1) have third coordinate 1 and centroid
exactly (0,0). -/
theorem vgg_conditioner_centroid_origin (pts : Nat → ℝ) (N : Int) (hN : 1 ≤ N)
    (_hne : NotAllIdentical pts N.toNat) :
    ∃ T, vgg_conditioner_from_points libmReal (some pts) N = .ok T ∧
      (∀ x y, (applyT T x y).2.2 = 1) ∧
      centroid (transformed T pts) N.toNat = (0, 0) := by
  refine ⟨_, vgg_conditioner_from_points_ok libmReal pts N hN, ?_, ?_⟩
  · intro x y
    simp [applyT, vgg_conditioner_compute]
  · exact centroid_transformed libmReal pts N.toNat (by omega)

/-- Witness of C3 at the two points (0,0), (2,0). -/
theorem vgg_conditioner_centroid_origin_witness :
    (1 : Int) ≤ 2 ∧ NotAllIdentical (twoPts : Nat → ℝ) (2 : Int).toNat ∧
    ∃ T, vgg_conditioner_from_points libmReal (some twoPts) 2 = .ok T ∧
      (∀ x y, (applyT T x y).2.2 = 1) ∧
      centroid (transformed T twoPts) (2 : Int).toNat = (0, 0) :=
  have hne : NotAllIdentical (twoPts : Nat → ℝ) (2 : Int).toNat :=
    ⟨0, 1, by decide, by decide, Or.inl (by simp [twoPts, arr])⟩
  ⟨by decide, hne, vgg_conditioner_centroid_origin twoPts 2 (by decide) hne⟩

/-- C4 (evaluation at a failing input). For the four corners of the square
(±1, ±1), which are not all identical, the normaliser returns a transform T
and the mean Euclidean distance of the transformed points from the origin is
1, not sqrt(2). -/
theorem vgg_conditioner_mean_distance_square :
    ∃ T, vgg_conditioner_from_points libmReal (some squarePts) 4 = .ok T ∧
      NotAllIdentical (squarePts : Nat → ℝ) 4 ∧
      meanDist libmReal (transformed T squarePts) 4 = 1 ∧
      meanDist libmReal (transformed T squarePts) 4 ≠ libmReal.sqrt 2 := by
  have h2 : Real.sqrt 2 * Real.sqrt 2 = 2 := Real.mul_self_sqrt (by norm_num)
  have h4 : Real.sqrt (1 + 1 + 1 + 1) = 2 := by
    rw [show (1 + 1 + 1 + 1 : ℝ) = 2 ^ 2 by norm_num]
    exact Real.sqrt_sq (by norm_num)
  have hd : meanDist libmReal
      (transformed (vgg_conditioner_compute libmReal squarePts 4) squarePts) 4 = 1 := by
    have e : Real.sqrt 2 / 2 * (Real.sqrt 2 / 2) + Real.sqrt 2 / 2 * (Real.sqrt 2 / 2) = 1 := by
      nlinarith
    simp [meanDist, forSum, List.range_succ, transformed, applyT, vgg_conditioner_compute,
      squarePts, arr, libmReal, h4, e]
    norm_num
  refine ⟨vgg_conditioner_compute libmReal squarePts 4, ?_,
    ⟨0, 1, by norm_num, by norm_num, Or.inl ?_⟩, hd, ?_⟩
  · simp [vgg_conditioner_from_points]
  · simp [squarePts, arr]
    norm_num
  · rw [hd]
    intro h
    have : (1 : ℝ) * 1 = 2 := by
      rw [h]; exact h2
    norm_num at this

end NormaliserClaims

/-! ## Claims about the buffer and the error paths -/

section BufferClaims

variable {α : Type} [LinearOrderedField α]

/-- C7. The five output parameters do not depend on the prior contents or the
prior tracked capacity of the buffer (nor on what the allocator hands out):
two calls on the same points, gradients and count N >= 1 that do not run out
of memory both succeed and write the same parameters. -/
theorem fit_independent_of_buffer (m : Libm α) (dsyev : (Nat → α) → (Nat → α))
    (realloc1 realloc2 : (Nat → α) → Nat → Option (Nat → α)) (pts grad : Nat → α) (N : Int)
    (block1 block2 : Nat → α) (cap1 cap2 : Int) (out1 out2 : Param α)
    (hN : 1 ≤ N)
    (h1 : (ellipse_fit_with_gradients m dsyev realloc1 (some pts) (some grad) N
      (some (some block1)) cap1 (some out1)).result ≠ .error .OutOfMemory)
    (h2 : (ellipse_fit_with_gradients m dsyev realloc2 (some pts) (some grad) N
      (some (some block2)) cap2 (some out2)).result ≠ .error .OutOfMemory) :
    ∃ p, (ellipse_fit_with_gradients m dsyev realloc1 (some pts) (some grad) N
        (some (some block1)) cap1 (some out1)).result = .ok p ∧
      (ellipse_fit_with_gradients m dsyev realloc2 (some pts) (some grad) N
        (some (some block2)) cap2 (some out2)).result = .ok p := by
  refine ⟨fit_param m dsyev pts grad N.toNat, ?_, ?_⟩
  · rw [ellipse_fit_with_gradients_present m dsyev realloc1 pts grad N hN] at h1 ⊢
    split_ifs at h1 ⊢ with hc
    · cases hr : realloc1 block1 (2 * N.toNat * 24) with
      | none => rw [hr] at h1; exact absurd rfl h1
      | some b => rfl
    · rfl
  · rw [ellipse_fit_with_gradients_present m dsyev realloc2 pts grad N hN] at h2 ⊢
    split_ifs at h2 ⊢ with hc
    · cases hr : realloc2 block2 (2 * N.toNat * 24) with
      | none => rw [hr] at h2; exact absurd rfl h2
      | some b => rfl
    · rfl

/-- C8 (evaluation at a failing input). A call with N = 50000000 on a buffer
of tracked capacity 1 succeeds when the allocator does, 24*N exceeds the
capacity, and the tracked capacity afterwards is -1894967296, not 2*24*N. -/
theorem capacity_wraps_at_fifty_million (m : Libm α) (dsyev : (Nat → α) → (Nat → α))
    (pts grad block : Nat → α) (out : Param α) :
    (ellipse_fit_with_gradients m dsyev callocLike (some pts) (some grad) 50000000
        (some (some block)) 1 (some out)).result =
      .ok (fit_param m dsyev pts grad 50000000) ∧
    (24 * 50000000 > (1 : Int)) ∧
    (ellipse_fit_with_gradients m dsyev callocLike (some pts) (some grad) 50000000
        (some (some block)) 1 (some out)).size_buff_max = -1894967296 ∧
    (-1894967296 : Int) ≠ 2 * 24 * 50000000 := by
  rw [ellipse_fit_with_gradients_present m dsyev callocLike pts grad 50000000 (by norm_num)]
  have w1 : wrapInt (50000000 * 24) > 1 := by decide
  have w2 : wrapInt (wrapInt (2 * 50000000) * 24) = -1894967296 := by decide
  rw [if_pos w1, w2]
  simp [callocLike]

/-- C9 (evaluation at a failing input). The first call of a sequence, on
capacity 1 with N = 50000000 (an int), succeeds when the allocator does and
leaves a tracked capacity that is below 4*N*6 and below the capacity before
the call. -/
theorem capacity_shrinks_at_fifty_million (m : Libm α) (dsyev : (Nat → α) → (Nat → α))
    (pts grad block : Nat → α) (out : Param α) :
    (-2147483648 ≤ (50000000 : Int) ∧ (50000000 : Int) ≤ 2147483647) ∧
    (ellipse_fit_with_gradients m dsyev callocLike (some pts) (some grad) 50000000
        (some (some block)) 1 (some out)).result =
      .ok (fit_param m dsyev pts grad 50000000) ∧
    (ellipse_fit_with_gradients m dsyev callocLike (some pts) (some grad) 50000000
        (some (some block)) 1 (some out)).size_buff_max < 4 * 50000000 * 6 ∧
    (ellipse_fit_with_gradients m dsyev callocLike (some pts) (some grad) 50000000
        (some (some block)) 1 (some out)).size_buff_max < 1 := by
  rw [ellipse_fit_with_gradients_present m dsyev callocLike pts grad 50000000 (by norm_num)]
  have w1 : wrapInt (50000000 * 24) > 1 := by decide
  have w2 : wrapInt (wrapInt (2 * 50000000) * 24) = -1894967296 := by decide
  rw [if_pos w1, w2]
  simp [callocLike]

/-- C10 (amended). With the output slot present, the entry point fails with
InvalidInput exactly when the point sequence, the gradient sequence or the
buffer (handle or block) is absent or the count is <= 0; so with the three
present, exactly when N <= 0. Whenever it fails this way the buffer handle and
the tracked capacity are those of before the call. -/
theorem invalid_input_iff_of_output_present (m : Libm α) (dsyev : (Nat → α) → (Nat → α))
    (realloc : (Nat → α) → Nat → Option (Nat → α)) (pts grad : Option (Nat → α)) (N : Int)
    (buff : Option (Option (Nat → α))) (cap : Int) (out : Param α) :
    ((ellipse_fit_with_gradients m dsyev realloc pts grad N buff cap (some out)).result
        = .error .InvalidInput ↔
      (pts = none ∨ grad = none ∨ N ≤ 0 ∨ buff = none ∨ buff = some none)) ∧
    ((ellipse_fit_with_gradients m dsyev realloc pts grad N buff cap (some out)).result
        = .error .InvalidInput →
      (ellipse_fit_with_gradients m dsyev realloc pts grad N buff cap (some out)).buff = buff ∧
      (ellipse_fit_with_gradients m dsyev realloc pts grad N buff cap (some out)).size_buff_max
        = cap) := by
  rcases pts with _ | pts
  · simp [ellipse_fit_with_gradients]
  rcases grad with _ | grad
  · simp [ellipse_fit_with_gradients]
  by_cases hN : N ≤ 0
  · simp [ellipse_fit_with_gradients, hN]
  rcases buff with _ | _ | block
  · simp [ellipse_fit_with_gradients, hN]
  · simp [ellipse_fit_with_gradients, hN]
  have hp := ellipse_fit_with_gradients_present_ne_invalid m dsyev realloc pts grad N
    (by omega) block cap out
  simp [hp, hN]

end BufferClaims

/-- Witness of C7: the two points (0,0), (2,0) fitted once on a one-element
buffer of capacity 1 and once on a buffer of capacity 100 holding ones. -/
theorem fit_independent_of_buffer_witness :
    (1 : Int) ≤ 2 ∧
    ∃ p, (ellipse_fit_with_gradients libmReal id callocLike (some twoPts) (some twoGrads) 2
        (some (some (fun _ => 0))) 1 (some ⟨0, 0, 0, 0, 0⟩)).result = .ok p ∧
      (ellipse_fit_with_gradients libmReal id callocLike (some twoPts) (some twoGrads) 2
        (some (some (fun _ => 1))) 100 (some ⟨0, 0, 0, 0, 0⟩)).result = .ok p :=
  ⟨by decide,
    fit_independent_of_buffer libmReal id callocLike callocLike twoPts twoGrads 2
      (fun _ => 0) (fun _ => 1) 1 100 ⟨0, 0, 0, 0, 0⟩ ⟨0, 0, 0, 0, 0⟩ (by decide)
      (by
        rw [ellipse_fit_with_gradients_present libmReal id callocLike twoPts twoGrads 2
          (by decide)]
        split_ifs <;> simp [callocLike])
      (by
        rw [ellipse_fit_with_gradients_present libmReal id callocLike twoPts twoGrads 2
          (by decide)]
        split_ifs <;> simp [callocLike])⟩

/-- C10 (counterexample). With points, gradients and buffer present and N = 1
but no output slot, the call fails with InvalidInput although N > 0, and the
tracked capacity has changed from 1 to 48 by then. -/
theorem invalid_input_absent_output :
    (ellipse_fit_with_gradients libmReal id callocLike (some (arr [0, 0])) (some (arr [1, 0])) 1
        (some (some (fun _ => 0))) 1 none).result = .error .InvalidInput ∧
    ¬ ((1 : Int) ≤ 0) ∧
    (ellipse_fit_with_gradients libmReal id callocLike (some (arr [0, 0])) (some (arr [1, 0])) 1
        (some (some (fun _ => 0))) 1 none).size_buff_max = 48 := by
  have w1 : 1 < wrapInt 24 := by decide
  have w2 : wrapInt (wrapInt 2 * 24) = 48 := by decide
  refine ⟨?_, by decide, ?_⟩
  · simp [ellipse_fit_with_gradients, callocLike, get_equations, vgg_conditioner_from_points,
      fit_ellipse, w1]
  · simp [ellipse_fit_with_gradients, callocLike, get_equations, vgg_conditioner_from_points,
      fit_ellipse, w1, w2]


/-! ## Claims about the conic to geometric conversion -/

section ConverterClaims

/-- C2. For a conic matrix on which `ellipse2param` takes the non-degenerate
branch (Auu and Avv non-zero) with both squared radii Ru, Rv positive, the call
returns (cx, cy, A, B, theta) with theta = (1/2) atan2(b, a - c), and a point
(x, y) satisfies a x^2 + b x y + c y^2 + d x + e y + f = 0 exactly when
((x-cx) cos theta + (y-cy) sin theta)^2 / A^2
  + (-(x-cx) sin theta + (y-cy) cos theta)^2 / B^2 = 1. -/
theorem ellipse2param_describes_conic (p : Nat → ℝ) (out : Param ℝ)
    (hAuu : (ellipse2param_rotated libmReal p).Auu ≠ 0)
    (hAvv : (ellipse2param_rotated libmReal p).Avv ≠ 0)
    (hRu : 0 < (ellipse2param_centre (ellipse2param_rotated libmReal p)).Ru)
    (hRv : 0 < (ellipse2param_centre (ellipse2param_rotated libmReal p)).Rv) :
    ∃ q, ellipse2param libmReal (some p) (some out) = .ok q ∧
      q.orientation = 1 / 2 * libmReal.atan2 (2 * p 1) (p 0 - p 4) ∧
      ∀ x y : ℝ,
        p 0 * x ^ 2 + 2 * p 1 * x * y + p 4 * y ^ 2 + 2 * p 2 * x + 2 * p 5 * y + p 8 = 0 ↔
        ((x - q.centrex) * Real.cos q.orientation
            + (y - q.centrey) * Real.sin q.orientation) ^ 2 / q.ax ^ 2
          + (-(x - q.centrex) * Real.sin q.orientation
            + (y - q.centrey) * Real.cos q.orientation) ^ 2 / q.ay ^ 2 = 1 :=
  ⟨ellipse2param_compute libmReal p, rfl,
    ellipse2param_compute_describes_conic p hAuu hAvv hRu hRv⟩

/-- Witness of C2 at the ellipse 4 x^2 + y^2 - 8 x = 0, where Auu = 4, Avv = 1,
Ru = 1 and Rv = 4. -/
theorem ellipse2param_describes_conic_witness :
    ((ellipse2param_rotated libmReal (ellipseConic : Nat → ℝ)).Auu ≠ 0 ∧
      (ellipse2param_rotated libmReal (ellipseConic : Nat → ℝ)).Avv ≠ 0 ∧
      0 < (ellipse2param_centre (ellipse2param_rotated libmReal (ellipseConic : Nat → ℝ))).Ru ∧
      0 < (ellipse2param_centre (ellipse2param_rotated libmReal (ellipseConic : Nat → ℝ))).Rv) ∧
    ∃ q, ellipse2param libmReal (some (ellipseConic : Nat → ℝ)) (some ⟨0, 0, 0, 0, 0⟩) = .ok q ∧
      q.orientation = 1 / 2 * libmReal.atan2 (2 * (ellipseConic : Nat → ℝ) 1) ((ellipseConic : Nat → ℝ) 0 - (ellipseConic : Nat → ℝ) 4) ∧
      ∀ x y : ℝ,
        (ellipseConic : Nat → ℝ) 0 * x ^ 2 + 2 * (ellipseConic : Nat → ℝ) 1 * x * y + (ellipseConic : Nat → ℝ) 4 * y ^ 2 + 2 * (ellipseConic : Nat → ℝ) 2 * x + 2 * (ellipseConic : Nat → ℝ) 5 * y + (ellipseConic : Nat → ℝ) 8 = 0 ↔
        ((x - q.centrex) * Real.cos q.orientation
            + (y - q.centrey) * Real.sin q.orientation) ^ 2 / q.ax ^ 2
          + (-(x - q.centrex) * Real.sin q.orientation
            + (y - q.centrey) * Real.cos q.orientation) ^ 2 / q.ay ^ 2 = 1 :=
  have h1 : (ellipse2param_rotated libmReal (ellipseConic : Nat → ℝ)).Auu ≠ 0 := by
    rw [ellipseConic_rotated.1]; norm_num
  have h2 : (ellipse2param_rotated libmReal (ellipseConic : Nat → ℝ)).Avv ≠ 0 := by
    rw [ellipseConic_rotated.2.1]; norm_num
  have h3 : 0 < (ellipse2param_centre (ellipse2param_rotated libmReal (ellipseConic : Nat → ℝ))).Ru := by
    rw [ellipseConic_rotated.2.2.1]; norm_num
  have h4 : 0 < (ellipse2param_centre (ellipse2param_rotated libmReal (ellipseConic : Nat → ℝ))).Rv := by
    rw [ellipseConic_rotated.2.2.2]; norm_num
  ⟨⟨h1, h2, h3, h4⟩, ellipse2param_describes_conic ellipseConic ⟨0, 0, 0, 0, 0⟩ h1 h2 h3 h4⟩

end ConverterClaims

/-! ## Claims about the whole fit -/

section FitClaims

/-- C5. For k > 0, a translation (tx, ty) and an input (N >= 1 points not all
identical, gradients) on which the fit returns a non-sentinel result
(cx, cy, A, B, theta), the fit of the points k*p_i + (tx,ty) with gradients
k*g_i, with the same eigen-solver function, returns
(k*cx+tx, k*cy+ty, k*A, k*B, theta) unless it runs out of memory. -/
theorem fit_covariant_under_similarity (dsyev : (Nat → ℝ) → (Nat → ℝ))
    (realloc realloc' : (Nat → ℝ) → Nat → Option (Nat → ℝ)) (pts grad : Nat → ℝ) (N : Int)
    (k tx ty : ℝ) (block block' : Nat → ℝ) (cap cap' : Int) (out out' q : Param ℝ)
    (hN : 1 ≤ N) (_hne : NotAllIdentical pts N.toNat) (hk : 0 < k)
    (hq : (ellipse_fit_with_gradients libmReal dsyev realloc (some pts) (some grad) N
      (some (some block)) cap (some out)).result = .ok q)
    (hsent : q ≠ ⟨0, 0, 0, 0, 0⟩)
    (hmem : (ellipse_fit_with_gradients libmReal dsyev realloc' (some (similarityPts k tx ty pts))
      (some (scaledGrads k grad)) N (some (some block')) cap' (some out')).result
        ≠ .error .OutOfMemory) :
    (ellipse_fit_with_gradients libmReal dsyev realloc' (some (similarityPts k tx ty pts))
      (some (scaledGrads k grad)) N (some (some block')) cap' (some out')).result
      = .ok { centrex := k * q.centrex + tx
              centrey := k * q.centrey + ty
              ax := k * q.ax
              ay := k * q.ay
              orientation := q.orientation } := by
  have hq' : q = fit_param libmReal dsyev pts grad N.toNat := by
    rcases ellipse_fit_with_gradients_result libmReal dsyev realloc pts grad N hN block cap out
      with h | h
    · rw [h] at hq; cases hq
    · rw [h] at hq; cases hq; rfl
  subst hq'
  rcases ellipse_fit_with_gradients_result libmReal dsyev realloc' (similarityPts k tx ty pts)
      (scaledGrads k grad) N hN block' cap' out' with h | h
  · exact absurd h hmem
  · rw [h, fit_param_similarity dsyev k tx ty hk pts grad N.toNat (by omega) hsent]

/-- Witness of C5: the points (0,0), (2,0) with a solver returning the unit
circle (fitted centre abscissa 1), scaled by 3 and translated by (5, 7). -/
theorem fit_covariant_under_similarity_witness :
    (1 : Int) ≤ 2 ∧ NotAllIdentical (twoPts : Nat → ℝ) (2 : Int).toNat ∧ (0 : ℝ) < 3 ∧
    (ellipse_fit_with_gradients libmReal constSolver callocLike (some twoPts) (some twoGrads) 2
      (some (some (fun _ => 0))) 1 (some ⟨0, 0, 0, 0, 0⟩)).result
        = .ok (fit_param libmReal constSolver twoPts twoGrads 2) ∧
    fit_param libmReal constSolver (twoPts : Nat → ℝ) twoGrads 2 ≠ ⟨0, 0, 0, 0, 0⟩ ∧
    (ellipse_fit_with_gradients libmReal constSolver callocLike
      (some (similarityPts 3 5 7 twoPts)) (some (scaledGrads 3 twoGrads)) 2
      (some (some (fun _ => 0))) 1 (some ⟨0, 0, 0, 0, 0⟩)).result
        = .ok { centrex := 3 * (fit_param libmReal constSolver twoPts twoGrads 2).centrex + 5
                centrey := 3 * (fit_param libmReal constSolver twoPts twoGrads 2).centrey + 7
                ax := 3 * (fit_param libmReal constSolver twoPts twoGrads 2).ax
                ay := 3 * (fit_param libmReal constSolver twoPts twoGrads 2).ay
                orientation := (fit_param libmReal constSolver twoPts twoGrads 2).orientation } :=
  have hne : NotAllIdentical (twoPts : Nat → ℝ) (2 : Int).toNat :=
    ⟨0, 1, by decide, by decide, Or.inl (by simp [twoPts, arr])⟩
  have hq : (ellipse_fit_with_gradients libmReal constSolver callocLike (some twoPts)
      (some twoGrads) 2 (some (some (fun _ => 0))) 1 (some ⟨0, 0, 0, 0, 0⟩)).result
        = .ok (fit_param libmReal constSolver twoPts twoGrads 2) := by
    rw [ellipse_fit_with_gradients_present libmReal constSolver callocLike twoPts twoGrads 2
      (by decide)]
    split_ifs <;> simp [callocLike]
  have hsent : fit_param libmReal constSolver (twoPts : Nat → ℝ) twoGrads 2 ≠ ⟨0, 0, 0, 0, 0⟩ := by
    intro h
    have h1 := twoPts_fit_centrex
    rw [h] at h1
    norm_num at h1
  have hmem : (ellipse_fit_with_gradients libmReal constSolver callocLike
      (some (similarityPts 3 5 7 twoPts)) (some (scaledGrads 3 twoGrads)) 2
      (some (some (fun _ => 0))) 1 (some ⟨0, 0, 0, 0, 0⟩)).result ≠ .error .OutOfMemory := by
    rw [ellipse_fit_with_gradients_present libmReal constSolver callocLike _ _ 2 (by decide)]
    split_ifs <;> simp [callocLike]
  ⟨by decide, hne, by norm_num, hq, hsent,
    fit_covariant_under_similarity constSolver callocLike callocLike twoPts twoGrads 2 3 5 7
      (fun _ => 0) (fun _ => 0) 1 1 ⟨0, 0, 0, 0, 0⟩ ⟨0, 0, 0, 0, 0⟩ _ (by decide) hne
      (by norm_num) hq hsent hmem⟩

end FitClaims

section RecoveryClaims

/-- C1 (amended): for an ellipse with positive semi-axes, `N ≥ 12` pairwise
distinct points exactly on it, gradients parallel to the normals of the ellipse
at the points, and an eigen-solver whose first column is an eigenvector for the
smallest eigenvalue of the Gram matrix of the equations,
`ellipse_fit_with_gradients` (when the buffer allocation succeeds) writes
parameters with the centre of the ellipse, its semi-axes up to their order, and
an orientation such that the parameters describe exactly the points of the
ellipse. -/
theorem fit_recovers_ellipse_from_normals (dsyev : (Nat → ℝ) → (Nat → ℝ))
    (realloc : (Nat → ℝ) → Nat → Option (Nat → ℝ)) (E : Param ℝ) (pts grad : Nat → ℝ) (N : Int)
    (block : Nat → ℝ) (cap : Int) (out : Param ℝ)
    (hN : 12 ≤ N) (hA : 0 < E.ax) (hB : 0 < E.ay)
    (hdist : DistinctPts pts N.toNat) (hon : SampledOn libmReal E pts N.toNat)
    (hgrad : GradientsNormal libmReal E pts grad N.toNat)
    (hsolver : SmallestEigvec
      (gram (get_equations_loop (vgg_conditioner_compute libmReal pts N.toNat) pts grad N.toNat
        (fun _ => 0)) N.toNat)
      (dsyev (gram (get_equations_loop (vgg_conditioner_compute libmReal pts N.toNat) pts grad
        N.toNat (fun _ => 0)) N.toNat)))
    (hmem : (ellipse_fit_with_gradients libmReal dsyev realloc (some pts) (some grad) N
      (some (some block)) cap (some out)).result ≠ .error .OutOfMemory) :
    ∃ q : Param ℝ,
      (ellipse_fit_with_gradients libmReal dsyev realloc (some pts) (some grad) N
        (some (some block)) cap (some out)).result = .ok q ∧
      q.centrex = E.centrex ∧ q.centrey = E.centrey ∧
      ((q.ax = E.ax ∧ q.ay = E.ay) ∨ (q.ax = E.ay ∧ q.ay = E.ax)) ∧
      ∀ x y : ℝ, OnEllipse libmReal q x y ↔ OnEllipse libmReal E x y := by
  have hn : 6 ≤ N.toNat := by omega
  obtain ⟨μ, hμ, hconic⟩ := fit_conic_of_ellipse dsyev E pts grad N.toNat hA hB hn hdist hon
    hgrad hsolver
  rcases ellipse_fit_with_gradients_result libmReal dsyev realloc pts grad N (by omega) block cap
    out with h | h
  · exact absurd h hmem
  · exact ⟨_, h, ellipse2param_compute_of_multiple _ E hA hB μ hμ hconic⟩

/-- Witness of C1 (amended): sixteen points of the unit circle with their
outward normals as gradients and a solver returning `4 x^2 + 4 y^2 - 1`. -/
theorem fit_recovers_ellipse_from_normals_witness :
    (12 : Int) ≤ 16 ∧ DistinctPts (circlePts : Nat → ℝ) 16 ∧
    SampledOn libmReal unitCircle (circlePts : Nat → ℝ) 16 ∧
    GradientsNormal libmReal unitCircle (circlePts : Nat → ℝ) circleNormals 16 ∧
    ∃ q : Param ℝ,
      (ellipse_fit_with_gradients libmReal circleSolver callocLike (some circlePts)
        (some circleNormals) 16 (some (some (fun _ => 0))) 1 (some ⟨0, 0, 0, 0, 0⟩)).result
          = .ok q ∧
      q.centrex = (unitCircle : Param ℝ).centrex ∧ q.centrey = (unitCircle : Param ℝ).centrey ∧
      ((q.ax = (unitCircle : Param ℝ).ax ∧ q.ay = (unitCircle : Param ℝ).ay) ∨
        (q.ax = (unitCircle : Param ℝ).ay ∧ q.ay = (unitCircle : Param ℝ).ax)) ∧
      ∀ x y : ℝ, OnEllipse libmReal q x y ↔ OnEllipse libmReal unitCircle x y :=
  have hmem : (ellipse_fit_with_gradients libmReal circleSolver callocLike
      (some (circlePts : Nat → ℝ)) (some circleNormals) 16
      (some (some (fun _ => 0))) 1 (some ⟨0, 0, 0, 0, 0⟩)).result ≠ .error .OutOfMemory := by
    rw [ellipse_fit_with_gradients_present libmReal circleSolver callocLike _ _ 16 (by decide)]
    split_ifs <;> simp [callocLike]
  ⟨by decide, circlePts_distinct, circlePts_sampled, circleNormals_normal,
    fit_recovers_ellipse_from_normals circleSolver callocLike unitCircle circlePts circleNormals
      16 (fun _ => 0) 1 ⟨0, 0, 0, 0, 0⟩ (by decide) one_pos one_pos circlePts_distinct
      circlePts_sampled circleNormals_normal circleSolver_smallest hmem⟩

/-- Counterexample to C1 as stated: sixteen distinct points of the unit
circle with the unit tangent directions as gradients. The vector of
`x^2 - y^2` is an eigenvector for the smallest eigenvalue of the Gram matrix,
and with a solver returning it the fit writes the semi-axes `0, 0` instead of
`1, 1`. -/
theorem fit_tangent_gradients_degenerate :
    (12 : Int) ≤ 16 ∧ DistinctPts (circlePts : Nat → ℝ) 16 ∧
    SampledOn libmReal unitCircle (circlePts : Nat → ℝ) 16 ∧
    GradientsTangent libmReal unitCircle (circlePts : Nat → ℝ) circleTangents 16 ∧
    SmallestEigvec
      (gram (get_equations_loop (vgg_conditioner_compute libmReal (circlePts : Nat → ℝ) 16)
        circlePts circleTangents 16 (fun _ => 0)) 16)
      (hyperbolaSolver (gram (get_equations_loop
        (vgg_conditioner_compute libmReal (circlePts : Nat → ℝ) 16)
        circlePts circleTangents 16 (fun _ => 0)) 16)) ∧
    (ellipse_fit_with_gradients libmReal hyperbolaSolver callocLike (some circlePts)
      (some circleTangents) 16 (some (some (fun _ => 0))) 1 (some ⟨0, 0, 0, 0, 0⟩)).result
        = .ok ⟨0, 0, 0, 0, 0⟩ ∧
    (⟨0, 0, 0, 0, 0⟩ : Param ℝ).ax ≠ (unitCircle : Param ℝ).ax ∧
    (⟨0, 0, 0, 0, 0⟩ : Param ℝ).ay ≠ (unitCircle : Param ℝ).ay := by
  refine ⟨by decide, circlePts_distinct, circlePts_sampled, circleTangents_tangent,
    hyperbolaSolver_smallest, ?_, ?_, ?_⟩
  · rw [ellipse_fit_with_gradients_present libmReal hyperbolaSolver callocLike _ _ 16
      (by decide)]
    have h16 : (16 : Int).toNat = 16 := rfl
    split_ifs <;> simp only [callocLike, h16, circleTangents_fit_param]
  · show (0 : ℝ) ≠ 1
    norm_num
  · show (0 : ℝ) ≠ 1
    norm_num

end RecoveryClaims

/-! ## Claims about the rows, the closed-form product and the buffer indices -/

section RowClaims

variable {α : Type} [LinearOrderedField α]

/-- C12. For all 3-vectors `u` and `v`, the matrix written by `antisym(u)`
satisfies `A * v = u x v`, component by component (and both sides are 0 past
the third component); `antisym` is a total function. -/
theorem antisym_mul_eq_cross (u v : Nat → α) (j : Nat) :
    matVec3 (antisym u) v j = cross3 u v j := by
  unfold matVec3 cross3
  rcases j with _ | _ | _ | j
  · simp [antisym]; ring
  · simp [antisym]; ring
  · simp [antisym]; ring
  · simp

/-- C13. For point `i`, with `p = (px, py, 1)` the normalised point,
`dir = (dirx, diry, 0)` the normalised direction and `l = p x dir`: the array
`crosspr` holds `l`; for every 6-vector `x` the dot product of the `r`-th
tangential row (`r = 0, 1, 2`) with `x` is the `r`-th component of
`l x (S(x) p)`; so the three tangential equations vanish exactly when `S(x) p`
is parallel to `l`. -/
theorem tangential_rows_cross (vgg pts grad : Nat → α) (n : Nat) (buff x : Nat → α) (i : Nat)
    (hi : i < n) :
    (∀ j, get_equations_crosspr (pnormx vgg pts i) (pnormy vgg pts i) (dirnormx vgg grad i)
        (dirnormy vgg grad i) j
      = cross3 (arr [pnormx vgg pts i, pnormy vgg pts i, 1])
          (arr [dirnormx vgg grad i, dirnormy vgg grad i, 0]) j) ∧
    (∀ r, r < 3 → rowDot (get_equations_loop vgg pts grad n buff) x (4 * i + r)
      = cross3
          (cross3 (arr [pnormx vgg pts i, pnormy vgg pts i, 1])
            (arr [dirnormx vgg grad i, dirnormy vgg grad i, 0]))
          (matVec3 (solution_matrix x) (arr [pnormx vgg pts i, pnormy vgg pts i, 1])) r) ∧
    ((∀ r, r < 3 → rowDot (get_equations_loop vgg pts grad n buff) x (4 * i + r) = 0) ↔
      Parallel3
        (cross3 (arr [pnormx vgg pts i, pnormy vgg pts i, 1])
          (arr [dirnormx vgg grad i, dirnormy vgg grad i, 0]))
        (matVec3 (solution_matrix x) (arr [pnormx vgg pts i, pnormy vgg pts i, 1]))) := by
  obtain ⟨r0, r1, r2, -⟩ := rowDot_loop vgg pts grad n buff x i hi
  have hrows : ∀ r, r < 3 → rowDot (get_equations_loop vgg pts grad n buff) x (4 * i + r)
      = cross3
          (cross3 (arr [pnormx vgg pts i, pnormy vgg pts i, 1])
            (arr [dirnormx vgg grad i, dirnormy vgg grad i, 0]))
          (matVec3 (solution_matrix x) (arr [pnormx vgg pts i, pnormy vgg pts i, 1])) r := by
    intro r hr
    interval_cases r
    · rw [Nat.add_zero, r0]
      simp [cross3, matVec3, solution_matrix, arr]
    · rw [r1]
      simp [cross3, matVec3, solution_matrix, arr]
    · rw [r2]
      simp [cross3, matVec3, solution_matrix, arr]
  refine ⟨?_, hrows, ?_⟩
  · intro j
    rcases j with _ | _ | _ | j <;> simp [get_equations_crosspr, cross3, arr]
  · rw [← cross3_eq_zero_iff]
    constructor
    · intro h r hr
      rw [← hrows r hr]
      exact h r hr
    · intro h r hr
      rw [hrows r hr]
      exact h r hr

/-- C14. For point `i` with normalised coordinates `(px, py)`, the fourth row
written by `get_equations` is `(px^2, 2 px py, 2 px, py^2, 2 py, 1)`, and for
every 6-vector `x` its dot product with `x` is `p' S(x) p` with
`p = (px, py, 1)` and `S(x)` the matrix `s` that `fit_ellipse` assembles. -/
theorem positional_row_incidence (vgg pts grad : Nat → α) (n : Nat) (buff x : Nat → α) (i : Nat)
    (hi : i < n) :
    (∀ c, c < 6 → get_equations_loop vgg pts grad n buff ((4 * i + 3) * 6 + c)
      = arr [pnormx vgg pts i * pnormx vgg pts i, 2 * pnormx vgg pts i * pnormy vgg pts i,
          2 * pnormx vgg pts i, pnormy vgg pts i * pnormy vgg pts i, 2 * pnormy vgg pts i, 1] c) ∧
    rowDot (get_equations_loop vgg pts grad n buff) x (4 * i + 3)
      = dot3 (arr [pnormx vgg pts i, pnormy vgg pts i, 1])
          (matVec3 (solution_matrix x) (arr [pnormx vgg pts i, pnormy vgg pts i, 1])) := by
  obtain ⟨-, -, -, d0, d1, d2, d3, d4, d5⟩ := get_equations_loop_values vgg pts grad n buff i hi
  obtain ⟨-, -, -, r3⟩ := rowDot_loop vgg pts grad n buff x i hi
  constructor
  · intro c hc
    interval_cases c
    · rw [d0]; rfl
    · rw [d1]; rfl
    · rw [d2]; rfl
    · rw [d3]; rfl
    · rw [d4]; rfl
    · rw [d5]; rfl
  · rw [r3]
    simp [dot3, matVec3, solution_matrix, arr]

/-- C15. For every 3x3 matrix `s` and every transform `T` whose last row is
`(0, 0, 1)`, the nine closed-form entries `C[0..8]` of `fit_ellipse` are the
entries of `T' * s * T`; hence `C` is symmetric whenever `s` is. -/
theorem unnormalise_eq_transpose_mul (T s : Nat → α) (h6 : T 6 = 0) (h7 : T 7 = 0)
    (h8 : T 8 = 1) :
    (∀ j, j < 9 → unnormalise T s j = matMul3 (transpose3 T) (matMul3 s T) j) ∧
    (s 3 = s 1 → s 6 = s 2 → s 7 = s 5 →
      unnormalise T s 3 = unnormalise T s 1 ∧ unnormalise T s 6 = unnormalise T s 2 ∧
      unnormalise T s 7 = unnormalise T s 5) :=
  ⟨unnormalise_matMul T s h6 h7 h8, unnormalise_symm T s⟩

/-- C16. Row-level exactness: with `T` the transform of the normaliser
(non-zero scale), `S` a symmetric 3x3 matrix and `C = T' * S * T`, for a point
`P = (x, y, 1)` of the input on the conic `P' C P = 0` whose gradient is
`lam * ((C P)_0, (C P)_1)`, the four rows that `get_equations` writes for the
point have zero dot product with `(S00, S01, S02, S11, S12, S22)`. -/
theorem rows_vanish_on_conic (m : Libm α) (pts grad : Nat → α) (n : Nat) (buff S : Nat → α)
    (i : Nat) (lam : α) (hi : i < n)
    (_hscale : vgg_conditioner_compute m pts n 0 ≠ 0)
    (e1 : S 3 = S 1) (e2 : S 6 = S 2) (e3 : S 7 = S 5)
    (hon : dot3 (arr [pts (2 * i), pts (2 * i + 1), 1])
      (matVec3 (matMul3 (transpose3 (vgg_conditioner_compute m pts n))
          (matMul3 S (vgg_conditioner_compute m pts n)))
        (arr [pts (2 * i), pts (2 * i + 1), 1])) = 0)
    (hg0 : grad (2 * i) = lam *
      matVec3 (matMul3 (transpose3 (vgg_conditioner_compute m pts n))
          (matMul3 S (vgg_conditioner_compute m pts n)))
        (arr [pts (2 * i), pts (2 * i + 1), 1]) 0)
    (hg1 : grad (2 * i + 1) = lam *
      matVec3 (matMul3 (transpose3 (vgg_conditioner_compute m pts n))
          (matMul3 S (vgg_conditioner_compute m pts n)))
        (arr [pts (2 * i), pts (2 * i + 1), 1]) 1) :
    ∀ r, r < 4 →
      rowDot (get_equations_loop (vgg_conditioner_compute m pts n) pts grad n buff)
        (arr [S 0, S 1, S 2, S 4, S 5, S 8]) (4 * i + r) = 0 := by
  obtain ⟨z1, z3, z6, z7, z8, z4⟩ := vgg_conditioner_compute_zeros m pts n
  generalize vgg_conditioner_compute m pts n = T at *
  have hS := unnormalise_congr T _ _ (solution_matrix_coeffs S e1 e2 e3)
  have hC := unnormalise_matMul T S z6 z7 z8
  obtain ⟨c1, c2, c3⟩ := unnormalise_symm T S e1 e2 e3
  have k1 : matMul3 (transpose3 T) (matMul3 S T) 3 = matMul3 (transpose3 T) (matMul3 S T) 1 := by
    rw [← hC 3 (by norm_num), ← hC 1 (by norm_num)]; exact c1
  have k2 : matMul3 (transpose3 T) (matMul3 S T) 6 = matMul3 (transpose3 T) (matMul3 S T) 2 := by
    rw [← hC 6 (by norm_num), ← hC 2 (by norm_num)]; exact c2
  have k3 : matMul3 (transpose3 T) (matMul3 S T) 7 = matMul3 (transpose3 T) (matMul3 S T) 5 := by
    rw [← hC 7 (by norm_num), ← hC 5 (by norm_num)]; exact c3
  obtain ⟨f0, f1, f2⟩ := conic_forms (matMul3 (transpose3 T) (matMul3 S T)) (pts (2 * i))
    (pts (2 * i + 1)) k1 k2 k3
  rw [f0] at hon
  rw [f1] at hg0
  rw [f2] at hg1
  have hval : ∀ a b, conicValue (unnormalise T (solution_matrix (arr [S 0, S 1, S 2, S 4, S 5, S 8])))
      a b = conicValue (matMul3 (transpose3 T) (matMul3 S T)) a b := by
    intro a b
    rw [hS]
    simp only [conicValue, hC 0 (by norm_num), hC 1 (by norm_num), hC 4 (by norm_num),
      hC 2 (by norm_num), hC 5 (by norm_num), hC 8 (by norm_num)]
  have hnor : ∀ a b, conicNormal (unnormalise T (solution_matrix (arr [S 0, S 1, S 2, S 4, S 5, S 8])))
      a b = conicNormal (matMul3 (transpose3 T) (matMul3 S T)) a b := by
    intro a b
    rw [hS]
    simp only [conicNormal, hC 0 (by norm_num), hC 1 (by norm_num), hC 4 (by norm_num),
      hC 2 (by norm_num), hC 5 (by norm_num), hC 3 (by norm_num)]
  obtain ⟨r0, r1, r2, r3⟩ := rowDot_zero_of_on_conic T pts grad n buff
    (arr [S 0, S 1, S 2, S 4, S 5, S 8]) i hi z1 z3 z4 lam
    (by rw [hval]; exact hon) (by rw [hnor]; exact hg0) (by rw [hnor]; exact hg1)
  intro r hr
  interval_cases r
  · exact r0
  · exact r1
  · exact r2
  · exact r3

/-- Witness of C13: the first of the two points `(0,0)`, `(2,0)` with the
normalisation matrix of scale 2 and the coefficients of `x^2 + y^2 - 4`. -/
theorem tangential_rows_cross_witness :
    (0 : Nat) < 2 ∧
    ∀ r, r < 3 →
      rowDot (get_equations_loop twoPtsT (twoPts : Nat → ℝ) twoGrads 2 (fun _ => 0))
        radiusTwoCoeffs (4 * 0 + r)
      = cross3
          (cross3 (arr [pnormx twoPtsT (twoPts : Nat → ℝ) 0, pnormy twoPtsT twoPts 0, 1])
            (arr [dirnormx twoPtsT (twoGrads : Nat → ℝ) 0, dirnormy twoPtsT twoGrads 0, 0]))
          (matVec3 (solution_matrix radiusTwoCoeffs)
            (arr [pnormx twoPtsT (twoPts : Nat → ℝ) 0, pnormy twoPtsT twoPts 0, 1])) r :=
  ⟨by decide,
    (tangential_rows_cross twoPtsT twoPts twoGrads 2 (fun _ => 0) radiusTwoCoeffs 0
      (by decide)).2.1⟩

/-- Witness of C14: the same point and coefficients. -/
theorem positional_row_incidence_witness :
    (0 : Nat) < 2 ∧
    rowDot (get_equations_loop twoPtsT (twoPts : Nat → ℝ) twoGrads 2 (fun _ => 0))
        radiusTwoCoeffs (4 * 0 + 3)
      = dot3 (arr [pnormx twoPtsT (twoPts : Nat → ℝ) 0, pnormy twoPtsT twoPts 0, 1])
          (matVec3 (solution_matrix radiusTwoCoeffs)
            (arr [pnormx twoPtsT (twoPts : Nat → ℝ) 0, pnormy twoPtsT twoPts 0, 1])) :=
  ⟨by decide,
    (positional_row_incidence twoPtsT twoPts twoGrads 2 (fun _ => 0) radiusTwoCoeffs 0
      (by decide)).2⟩

/-- Witness of C15: the matrix of scale 2 and shift `(-2, 0)` with the circle
of radius 2. -/
theorem unnormalise_eq_transpose_mul_witness :
    (twoPtsT : Nat → ℝ) 6 = 0 ∧ (twoPtsT : Nat → ℝ) 7 = 0 ∧ (twoPtsT : Nat → ℝ) 8 = 1 ∧
    ∀ j, j < 9 → unnormalise (twoPtsT : Nat → ℝ) radiusTwoConic j
      = matMul3 (transpose3 twoPtsT) (matMul3 radiusTwoConic twoPtsT) j :=
  ⟨rfl, rfl, rfl, (unnormalise_eq_transpose_mul twoPtsT radiusTwoConic rfl rfl rfl).1⟩

/-- Witness of C16: the first of the two points `(0,0)`, `(2,0)`, which lies
on `4 x^2 + 4 y^2 - 8 x = 0` with normal `(-4, 0)`, and the gradient `(1, 0)`. -/
theorem rows_vanish_on_conic_witness :
    (0 : Nat) < 2 ∧ vgg_conditioner_compute libmReal (twoPts : Nat → ℝ) 2 0 ≠ 0 ∧
    ∀ r, r < 4 →
      rowDot (get_equations_loop (vgg_conditioner_compute libmReal (twoPts : Nat → ℝ) 2) twoPts
          twoGrads 2 (fun _ => 0))
        (arr [(radiusTwoConic : Nat → ℝ) 0, radiusTwoConic 1, radiusTwoConic 2, radiusTwoConic 4,
          radiusTwoConic 5, radiusTwoConic 8]) (4 * 0 + r) = 0 :=
  have hscale : vgg_conditioner_compute libmReal (twoPts : Nat → ℝ) 2 0 ≠ 0 := by
    rw [twoPts_vgg.1]; norm_num
  have hP : ∀ C : Nat → ℝ,
      dot3 (arr [(twoPts : Nat → ℝ) (2 * 0), twoPts (2 * 0 + 1), 1])
          (matVec3 C (arr [(twoPts : Nat → ℝ) (2 * 0), twoPts (2 * 0 + 1), 1])) = C 8 ∧
      matVec3 C (arr [(twoPts : Nat → ℝ) (2 * 0), twoPts (2 * 0 + 1), 1]) 0 = C 2 ∧
      matVec3 C (arr [(twoPts : Nat → ℝ) (2 * 0), twoPts (2 * 0 + 1), 1]) 1 = C 5 := by
    intro C
    refine ⟨?_, ?_, ?_⟩ <;> simp [dot3, matVec3, arr, twoPts]
  ⟨by decide, hscale,
    rows_vanish_on_conic libmReal twoPts twoGrads 2 (fun _ => 0) radiusTwoConic 0 (-(1 / 4))
      (by decide) hscale rfl rfl rfl
      (by rw [(hP _).1, twoPts_conic 8 (by norm_num)]; rfl)
      (by rw [(hP _).2.1, twoPts_conic 2 (by norm_num)]; simp [twoGrads, arr])
      (by rw [(hP _).2.2, twoPts_conic 5 (by norm_num)]; simp [twoGrads, arr])⟩

/-- C20. For `N ≥ 1` with `48 N` representable as an `int`, a tracked capacity
that does not exceed the real length `len` of the block, and no allocation
failure: after the growth step the entry point works on a block `g` of real
length `L` (the `2*N*24` doubles asked from `realloc`, or the caller's block of
`len` doubles), with `24 N ≤` tracked capacity `≤ L`; every iteration `i < N`
of `get_equations` performs exactly the 24 stores at `i*24 + j`, `j < 24`, all
below `24 N`, so the loop leaves every cell from `24 N` on untouched; and the
Gram loop of `fit_ellipse` reads exactly the cells `k*6 + i`, `k < 4 N`,
`i < 6`, all below `24 N`, so its result depends on no other cell. -/
theorem buffer_indices_in_range (m : Libm α) (dsyev : (Nat → α) → (Nat → α))
    (realloc : (Nat → α) → Nat → Option (Nat → α)) (pts grad : Nat → α) (N : Int)
    (block : Nat → α) (cap : Int) (out : Param α) (len : Nat)
    (hN : 1 ≤ N) (hmax : 48 * N ≤ 2147483647) (hcap : cap ≤ len)
    (hok : (ellipse_fit_with_gradients m dsyev realloc (some pts) (some grad) N
      (some (some block)) cap (some out)).result ≠ .error .OutOfMemory) :
    (∃ (g : Nat → α) (L : Nat),
      ((24 * N > cap ∧ realloc block (2 * N.toNat * 24) = some g ∧ L = 2 * N.toNat * 24) ∨
        (¬ 24 * N > cap ∧ g = block ∧ L = len)) ∧
      (ellipse_fit_with_gradients m dsyev realloc (some pts) (some grad) N
        (some (some block)) cap (some out)).buff
          = some (some (get_equations_loop (vgg_conditioner_compute m pts N.toNat) pts grad
              N.toNat g)) ∧
      (ellipse_fit_with_gradients m dsyev realloc (some pts) (some grad) N
        (some (some block)) cap (some out)).result
          = fit_ellipse m dsyev
              (some (get_equations_loop (vgg_conditioner_compute m pts N.toNat) pts grad
                N.toNat g))
              (some (vgg_conditioner_compute m pts N.toNat)) N (some out) ∧
      24 * N ≤ (ellipse_fit_with_gradients m dsyev realloc (some pts) (some grad) N
        (some (some block)) cap (some out)).size_buff_max ∧
      (ellipse_fit_with_gradients m dsyev realloc (some pts) (some grad) N
        (some (some block)) cap (some out)).size_buff_max ≤ L) ∧
    (∀ (i : Nat) (b : Nat → α), i < N.toNat →
      get_equations_point (vgg_conditioner_compute m pts N.toNat) pts grad i b
        = storeAll b (get_equations_stores (i * 4 * 6)
            (pnormx (vgg_conditioner_compute m pts N.toNat) pts i)
            (pnormy (vgg_conditioner_compute m pts N.toNat) pts i)
            (dirnormx (vgg_conditioner_compute m pts N.toNat) grad i)
            (dirnormy (vgg_conditioner_compute m pts N.toNat) grad i)) ∧
      (get_equations_stores (i * 4 * 6)
            (pnormx (vgg_conditioner_compute m pts N.toNat) pts i)
            (pnormy (vgg_conditioner_compute m pts N.toNat) pts i)
            (dirnormx (vgg_conditioner_compute m pts N.toNat) grad i)
            (dirnormy (vgg_conditioner_compute m pts N.toNat) grad i)).map Prod.fst
        = (List.range 24).map (fun j => i * 4 * 6 + j) ∧
      ∀ j, j < 24 → i * 4 * 6 + j < 24 * N.toNat) ∧
    (∀ (b : Nat → α) (q : Nat), 24 * N.toNat ≤ q →
      get_equations_loop (vgg_conditioner_compute m pts N.toNat) pts grad N.toNat b q = b q) ∧
    (∀ (eq : Nat → α) (i j : Nat), i < 6 → j < 6 →
      gram eq N.toNat (i * 6 + j)
        = ∑ k in Finset.range (4 * N.toNat), eq (k * 6 + i) * eq (k * 6 + j)) ∧
    (∀ k i : Nat, k < 4 * N.toNat → i < 6 → k * 6 + i < 24 * N.toNat) ∧
    (∀ eq eq' : Nat → α, (∀ q, q < 24 * N.toNat → eq q = eq' q) →
      gram eq N.toNat = gram eq' N.toNat) := by
  refine ⟨ellipse_fit_with_gradients_block m dsyev realloc pts grad N block cap out len hN hmax
    hcap hok, ?_, ?_, ?_, ?_, ?_⟩
  · intro i b hi
    refine ⟨get_equations_point_stores _ pts grad i b, get_equations_stores_indices _ _ _ _ _, ?_⟩
    intro j hj
    omega
  · intro b q hq
    exact get_equations_loop_frame _ pts grad N.toNat b q hq
  · intro eq i j hi hj
    exact gram_entry eq N.toNat i j hi hj
  · intro k i hk hi
    omega
  · intro eq eq' h
    exact gram_congr eq eq' N.toNat h

/-- Witness of C20: the two points `(0,0)`, `(2,0)` with a block of one double
and tracked capacity 1, as in the driver. -/
theorem buffer_indices_in_range_witness :
    (1 : Int) ≤ 2 ∧ (48 : Int) * 2 ≤ 2147483647 ∧ (1 : Int) ≤ ((1 : Nat) : Int) ∧
    (ellipse_fit_with_gradients libmReal constSolver callocLike (some twoPts) (some twoGrads)
      (2 : Int) (some (some (fun _ => 0))) (1 : Int) (some ⟨0, 0, 0, 0, 0⟩)).result
        ≠ .error .OutOfMemory ∧
    (∃ (g : Nat → ℝ) (L : Nat),
      ((24 * (2 : Int) > (1 : Int) ∧ callocLike (fun _ => 0) (2 * (2 : Int).toNat * 24) = some g ∧ L = 2 * (2 : Int).toNat * 24) ∨
        (¬ 24 * (2 : Int) > (1 : Int) ∧ g = (fun _ => 0) ∧ L = (1 : Nat))) ∧
      (ellipse_fit_with_gradients libmReal constSolver callocLike (some twoPts) (some twoGrads) (2 : Int)
        (some (some (fun _ => 0))) (1 : Int) (some ⟨0, 0, 0, 0, 0⟩)).buff
          = some (some (get_equations_loop (vgg_conditioner_compute libmReal twoPts (2 : Int).toNat) twoPts twoGrads
              (2 : Int).toNat g)) ∧
      (ellipse_fit_with_gradients libmReal constSolver callocLike (some twoPts) (some twoGrads) (2 : Int)
        (some (some (fun _ => 0))) (1 : Int) (some ⟨0, 0, 0, 0, 0⟩)).result
          = fit_ellipse libmReal constSolver
              (some (get_equations_loop (vgg_conditioner_compute libmReal twoPts (2 : Int).toNat) twoPts twoGrads
                (2 : Int).toNat g))
              (some (vgg_conditioner_compute libmReal twoPts (2 : Int).toNat)) (2 : Int) (some ⟨0, 0, 0, 0, 0⟩) ∧
      24 * (2 : Int) ≤ (ellipse_fit_with_gradients libmReal constSolver callocLike (some twoPts) (some twoGrads) (2 : Int)
        (some (some (fun _ => 0))) (1 : Int) (some ⟨0, 0, 0, 0, 0⟩)).size_buff_max ∧
      (ellipse_fit_with_gradients libmReal constSolver callocLike (some twoPts) (some twoGrads) (2 : Int)
        (some (some (fun _ => 0))) (1 : Int) (some ⟨0, 0, 0, 0, 0⟩)).size_buff_max ≤ L) ∧
    (∀ (i : Nat) (b : Nat → ℝ), i < (2 : Int).toNat →
      get_equations_point (vgg_conditioner_compute libmReal twoPts (2 : Int).toNat) twoPts twoGrads i b
        = storeAll b (get_equations_stores (i * 4 * 6)
            (pnormx (vgg_conditioner_compute libmReal twoPts (2 : Int).toNat) twoPts i)
            (pnormy (vgg_conditioner_compute libmReal twoPts (2 : Int).toNat) twoPts i)
            (dirnormx (vgg_conditioner_compute libmReal twoPts (2 : Int).toNat) twoGrads i)
            (dirnormy (vgg_conditioner_compute libmReal twoPts (2 : Int).toNat) twoGrads i)) ∧
      (get_equations_stores (i * 4 * 6)
            (pnormx (vgg_conditioner_compute libmReal twoPts (2 : Int).toNat) twoPts i)
            (pnormy (vgg_conditioner_compute libmReal twoPts (2 : Int).toNat) twoPts i)
            (dirnormx (vgg_conditioner_compute libmReal twoPts (2 : Int).toNat) twoGrads i)
            (dirnormy (vgg_conditioner_compute libmReal twoPts (2 : Int).toNat) twoGrads i)).map Prod.fst
        = (List.range 24).map (fun j => i * 4 * 6 + j) ∧
      ∀ j, j < 24 → i * 4 * 6 + j < 24 * (2 : Int).toNat) ∧
    (∀ (b : Nat → ℝ) (q : Nat), 24 * (2 : Int).toNat ≤ q →
      get_equations_loop (vgg_conditioner_compute libmReal twoPts (2 : Int).toNat) twoPts twoGrads (2 : Int).toNat b q = b q) ∧
    (∀ (eq : Nat → ℝ) (i j : Nat), i < 6 → j < 6 →
      gram eq (2 : Int).toNat (i * 6 + j)
        = ∑ k in Finset.range (4 * (2 : Int).toNat), eq (k * 6 + i) * eq (k * 6 + j)) ∧
    (∀ k i : Nat, k < 4 * (2 : Int).toNat → i < 6 → k * 6 + i < 24 * (2 : Int).toNat) ∧
    (∀ eq eq' : Nat → ℝ, (∀ q, q < 24 * (2 : Int).toNat → eq q = eq' q) →
      gram eq (2 : Int).toNat = gram eq' (2 : Int).toNat) :=
  have hok : (ellipse_fit_with_gradients libmReal constSolver callocLike (some twoPts)
      (some twoGrads) (2 : Int) (some (some (fun _ => 0))) (1 : Int)
      (some ⟨0, 0, 0, 0, 0⟩)).result ≠ .error .OutOfMemory := by
    rw [ellipse_fit_with_gradients_present libmReal constSolver callocLike _ _ 2 (by decide)]
    split_ifs <;> simp [callocLike]
  ⟨by decide, by decide, by decide, hok,
    buffer_indices_in_range libmReal constSolver callocLike twoPts twoGrads 2 (fun _ => 0) 1
      ⟨0, 0, 0, 0, 0⟩ 1 (by decide) (by decide) (by decide) hok⟩

end RowClaims

/-! ## Claims about divisors, signed roots and the similarity of the equations -/

section SafetyClaims

/-- C11 at a failing input: for the single point `(3, 4)` the entry point
raises no error, and the divisor `qmean` of the normaliser is zero. -/
theorem single_point_zero_divisor :
    (ellipse_fit_with_gradients libmReal constSolver callocLike (some singlePt) (some singleGrad)
      1 (some (some (fun _ => 0))) 1 (some ⟨0, 0, 0, 0, 0⟩)).result
        = .ok (fit_param libmReal constSolver singlePt singleGrad 1) ∧
    vgg_conditioner_qmean libmReal (singlePt : Nat → ℝ) 1 = 0 ∧
    (0 : ℝ) ∈ fit_divisors libmReal constSolver singlePt singleGrad 1 := by
  have hq : vgg_conditioner_qmean libmReal (singlePt : Nat → ℝ) 1 = 0 :=
    qmean_zero singlePt 1 le_rfl (fun i hi => by
      have : i = 0 := by omega
      subst this
      exact ⟨rfl, rfl⟩)
  refine ⟨?_, hq, ?_⟩
  · rw [ellipse_fit_with_gradients_present libmReal constSolver callocLike _ _ 1 (by decide)]
    have h1 : (1 : Int).toNat = 1 := rfl
    split_ifs <;> simp only [callocLike, h1]
  · unfold fit_divisors vgg_conditioner_divisors
    rw [hq]
    simp

/-- C17. For `k > 0`, a translation `(tx, ty)` and `N ≥ 1` points that are not
all identical, `get_equations` on the points `k p_i + (tx, ty)` with
gradients `k g_i` writes the same `24 N` coefficients as on the points `p_i`
with gradients `g_i`, and returns the transform `T * inverse(M)` for
`M = [[k,0,tx],[0,k,ty],[0,0,1]]`. -/
theorem get_equations_similarity (k tx ty : ℝ) (pts grad : Nat → ℝ) (N : Int)
    (v v' buff buff' : Nat → ℝ) (hk : 0 < k) (hN : 1 ≤ N)
    (_hne : NotAllIdentical pts N.toNat) :
    ∃ T b T' b',
      get_equations libmReal (some pts) (some grad) N (some v) (some buff) = .ok (T, b) ∧
      get_equations libmReal (some (similarityPts k tx ty pts)) (some (scaledGrads k grad)) N
        (some v') (some buff') = .ok (T', b') ∧
      (∀ q, q < 24 * N.toNat → b' q = b q) ∧
      (∀ j, j < 9 → T' j = matMul3 T (similarityInv k tx ty) j) ∧
      (∀ j, j < 9 → matMul3 (arr [k, 0, tx, 0, k, ty, 0, 0, 1]) (similarityInv k tx ty) j
        = arr [1, 0, 0, 0, 1, 0, 0, 0, 1] j) := by
  have hn : 0 < N.toNat := by omega
  refine ⟨_, _, _, _, get_equations_present pts grad N hN v buff,
    get_equations_present _ _ N hN v' buff', ?_, ?_, similarityInv_inverse k tx ty hk.ne'⟩
  · intro q hq
    rw [get_equations_loop_similarity k tx ty hk pts grad N.toNat hn buff',
      get_equations_loop_apply, get_equations_loop_apply _ _ _ _ buff]
    have : q < N.toNat * 24 := by omega
    simp only [this, if_true]
  · obtain ⟨s0, s4, s2, s5⟩ := vgg_conditioner_similarity k tx ty hk pts N.toNat hn
    obtain ⟨z1, z3, z6, z7, z8, -⟩ := vgg_conditioner_compute_zeros libmReal pts N.toNat
    obtain ⟨y1, y3, y6, y7, y8, -⟩ :=
      vgg_conditioner_compute_zeros libmReal (similarityPts k tx ty pts) N.toNat
    intro j hj
    interval_cases j
    · rw [s0]; simp [matMul3, similarityInv, arr, z1]; ring
    · rw [y1]; simp [matMul3, similarityInv, arr, z1]
    · rw [s2]; simp [matMul3, similarityInv, arr, z1]; ring
    · rw [y3]; simp [matMul3, similarityInv, arr, z3]
    · rw [s4]; simp [matMul3, similarityInv, arr, z3]; ring
    · rw [s5]; simp [matMul3, similarityInv, arr, z3]; ring
    · rw [y6]; simp [matMul3, similarityInv, arr, z6, z7]
    · rw [y7]; simp [matMul3, similarityInv, arr, z6, z7]
    · rw [y8]; simp [matMul3, similarityInv, arr, z6, z7, z8]

/-- Witness of C17: the points `(0,0)`, `(2,0)` scaled by 3 and translated by
`(5, 7)`. -/
theorem get_equations_similarity_witness :
    (0 : ℝ) < 3 ∧ (1 : Int) ≤ 2 ∧ NotAllIdentical (twoPts : Nat → ℝ) (2 : Int).toNat ∧
    ∃ T b T' b',
      get_equations libmReal (some twoPts) (some twoGrads) 2 (some (fun _ => 0))
        (some (fun _ => 0)) = .ok (T, b) ∧
      get_equations libmReal (some (similarityPts 3 5 7 twoPts)) (some (scaledGrads 3 twoGrads)) 2
        (some (fun _ => 0)) (some (fun _ => 1)) = .ok (T', b') ∧
      (∀ q, q < 24 * (2 : Int).toNat → b' q = b q) ∧
      (∀ j, j < 9 → T' j = matMul3 T (similarityInv 3 5 7) j) ∧
      (∀ j, j < 9 → matMul3 (arr [(3 : ℝ), 0, 5, 0, 3, 7, 0, 0, 1]) (similarityInv 3 5 7) j
        = arr [1, 0, 0, 0, 1, 0, 0, 0, 1] j) :=
  have hne : NotAllIdentical (twoPts : Nat → ℝ) (2 : Int).toNat :=
    ⟨0, 1, by decide, by decide, Or.inl (by simp [twoPts, arr])⟩
  ⟨by norm_num, by decide, hne,
    get_equations_similarity 3 5 7 twoPts twoGrads 2 (fun _ => 0) (fun _ => 0) (fun _ => 0)
      (fun _ => 1) (by norm_num) (by decide) hne⟩

/-- C18. In `vgg_conditioner_from_points` (for `N ≥ 1` points) the divisor
`qmean` of the scale `sqrt(2) / qmean` is zero if and only if all points are
identical, and strictly positive otherwise; it is zero whenever `N = 1`. -/
theorem qmean_zero_iff_all_identical (pts : Nat → ℝ) (n : Nat) (hn : 1 ≤ n) :
    (vgg_conditioner_qmean libmReal pts n = 0 ↔ AllIdentical pts n) ∧
    (¬ AllIdentical pts n → 0 < vgg_conditioner_qmean libmReal pts n) ∧
    (n = 1 → vgg_conditioner_qmean libmReal pts n = 0) ∧
    vgg_conditioner_compute libmReal pts n 0
      = libmReal.sqrt 2 / vgg_conditioner_qmean libmReal pts n := by
  have hpos : ¬ AllIdentical pts n → 0 < vgg_conditioner_qmean libmReal pts n :=
    fun h => qmean_pos pts n ((not_allIdentical_iff pts n).mp h)
  refine ⟨⟨?_, qmean_zero pts n hn⟩, hpos, ?_, rfl⟩
  · intro h0
    by_contra hall
    exact absurd h0 (hpos hall).ne'
  · intro h1
    apply qmean_zero pts n hn
    intro i hi
    have : i = 0 := by omega
    subst this
    exact ⟨rfl, rfl⟩

/-- Witness of C18: the two points `(0,0)`, `(2,0)`. -/
theorem qmean_zero_iff_all_identical_witness :
    1 ≤ 2 ∧
    (vgg_conditioner_qmean libmReal (twoPts : Nat → ℝ) 2 = 0 ↔ AllIdentical (twoPts : Nat → ℝ) 2) ∧
    (¬ AllIdentical (twoPts : Nat → ℝ) 2 → 0 < vgg_conditioner_qmean libmReal (twoPts : Nat → ℝ) 2) :=
  ⟨by decide, (qmean_zero_iff_all_identical twoPts 2 (by decide)).1,
    (qmean_zero_iff_all_identical twoPts 2 (by decide)).2.1⟩

/-- C19. On the non-degenerate branch of `ellipse2param`, with
`Ru = -wCentre / Auu` and `Rv = -wCentre / Avv`, no error is raised and the
third and fourth outputs are the signed square roots: `sqrt(R)` if `R > 0` and
`-sqrt(-R)` otherwise; so their squares are `|Ru|` and `|Rv|`, and an output
axis is negative exactly when its squared radius is negative. -/
theorem ellipse2param_signed_roots (p : Nat → ℝ) (out : Param ℝ)
    (hAuu : (ellipse2param_rotated libmReal p).Auu ≠ 0)
    (hAvv : (ellipse2param_rotated libmReal p).Avv ≠ 0) :
    ellipse2param libmReal (some p) (some out) = .ok (ellipse2param_compute libmReal p) ∧
    (ellipse2param_centre (ellipse2param_rotated libmReal p)).Ru
      = -(ellipse2param_centre (ellipse2param_rotated libmReal p)).wCentre
          / (ellipse2param_rotated libmReal p).Auu ∧
    (ellipse2param_centre (ellipse2param_rotated libmReal p)).Rv
      = -(ellipse2param_centre (ellipse2param_rotated libmReal p)).wCentre
          / (ellipse2param_rotated libmReal p).Avv ∧
    (ellipse2param_compute libmReal p).ax
      = (if (ellipse2param_centre (ellipse2param_rotated libmReal p)).Ru > 0
          then Real.sqrt (ellipse2param_centre (ellipse2param_rotated libmReal p)).Ru
          else -Real.sqrt (-(ellipse2param_centre (ellipse2param_rotated libmReal p)).Ru)) ∧
    (ellipse2param_compute libmReal p).ay
      = (if (ellipse2param_centre (ellipse2param_rotated libmReal p)).Rv > 0
          then Real.sqrt (ellipse2param_centre (ellipse2param_rotated libmReal p)).Rv
          else -Real.sqrt (-(ellipse2param_centre (ellipse2param_rotated libmReal p)).Rv)) ∧
    (ellipse2param_compute libmReal p).ax ^ 2
      = |(ellipse2param_centre (ellipse2param_rotated libmReal p)).Ru| ∧
    (ellipse2param_compute libmReal p).ay ^ 2
      = |(ellipse2param_centre (ellipse2param_rotated libmReal p)).Rv| ∧
    ((ellipse2param_compute libmReal p).ax < 0
      ↔ (ellipse2param_centre (ellipse2param_rotated libmReal p)).Ru < 0) ∧
    ((ellipse2param_compute libmReal p).ay < 0
      ↔ (ellipse2param_centre (ellipse2param_rotated libmReal p)).Rv < 0) := by
  have hbranch : ellipse2param_compute libmReal p
      = ellipse2param_else libmReal (ellipse2param_rotated libmReal p) := by
    unfold ellipse2param_compute
    simp only [hAuu, hAvv, or_self, if_false]
  obtain ⟨u1, u2, u3⟩ := signed_sqrt_facts (ellipse2param_centre (ellipse2param_rotated libmReal p)).Ru
  obtain ⟨v1, v2, v3⟩ := signed_sqrt_facts (ellipse2param_centre (ellipse2param_rotated libmReal p)).Rv
  have hax : (ellipse2param_compute libmReal p).ax
      = (if (ellipse2param_centre (ellipse2param_rotated libmReal p)).Ru > 0
          then Real.sqrt (ellipse2param_centre (ellipse2param_rotated libmReal p)).Ru
          else -Real.sqrt (-(ellipse2param_centre (ellipse2param_rotated libmReal p)).Ru)) := by
    rw [hbranch, ← u1]; rfl
  have hay : (ellipse2param_compute libmReal p).ay
      = (if (ellipse2param_centre (ellipse2param_rotated libmReal p)).Rv > 0
          then Real.sqrt (ellipse2param_centre (ellipse2param_rotated libmReal p)).Rv
          else -Real.sqrt (-(ellipse2param_centre (ellipse2param_rotated libmReal p)).Rv)) := by
    rw [hbranch, ← v1]; rfl
  refine ⟨rfl, rfl, rfl, hax, hay, ?_, ?_, ?_, ?_⟩
  · rw [hax]; exact u2
  · rw [hay]; exact v2
  · rw [hax]; exact u3
  · rw [hay]; exact v3

/-- Witness of C19: the ellipse `4 x^2 + y^2 - 8 x = 0`. -/
theorem ellipse2param_signed_roots_witness :
    (ellipse2param_rotated libmReal (ellipseConic : Nat → ℝ)).Auu ≠ 0 ∧
    (ellipse2param_rotated libmReal (ellipseConic : Nat → ℝ)).Avv ≠ 0 ∧
    (ellipse2param_compute libmReal (ellipseConic : Nat → ℝ)).ax ^ 2
      = |(ellipse2param_centre (ellipse2param_rotated libmReal (ellipseConic : Nat → ℝ))).Ru| ∧
    (ellipse2param_compute libmReal (ellipseConic : Nat → ℝ)).ay ^ 2
      = |(ellipse2param_centre (ellipse2param_rotated libmReal (ellipseConic : Nat → ℝ))).Rv| :=
  have hA : (ellipse2param_rotated libmReal (ellipseConic : Nat → ℝ)).Auu ≠ 0 := by
    rw [ellipseConic_rotated.1]; norm_num
  have hB : (ellipse2param_rotated libmReal (ellipseConic : Nat → ℝ)).Avv ≠ 0 := by
    rw [ellipseConic_rotated.2.1]; norm_num
  ⟨hA, hB, (ellipse2param_signed_roots ellipseConic ⟨0, 0, 0, 0, 0⟩ hA hB).2.2.2.2.2.1,
    (ellipse2param_signed_roots ellipseConic ⟨0, 0, 0, 0, 0⟩ hA hB).2.2.2.2.2.2.1⟩

end SafetyClaims

end EllipseFit
